import Mathlib

/-!
Verification development for the rustLetLang compiler and virtual machine.

This file gives a shallow embedding, in Lean 4, of the parts of the Rust
source that the checked claims are about:

* the shape (type) system and the fill operation of src/typechecker.rs,
* the type checker scope model and expression checker of src/typechecker.rs,
* the IR data model of src/ir.rs and the three optimizer passes of
  src/optimize/,
* the bytecode data model and the stack virtual machine of
  src/interpreter.rs and src/bytecode.rs,
* the Core native operators of src/lib_core.rs,
* a serializer for IR modules (the on-disk format itself lives in the
  external bincode crate, so that part is modelled from the specification).

Rust HashMap values are embedded as association lists, Vec as List, and
f64 as an opaque 64-bit pattern: no claim in scope depends on floating
point arithmetic results, so the arithmetic on f64 is kept as an explicit
parameter (FloatOps below), mirroring the closures passed to float_op in
the source.  Fallible Rust code returning Result is embedded as Except
String; a Rust panic (out-of-bounds indexing, unimplemented!) is a
distinct outcome, kept separate from returned error values.
-/

namespace LetLang

/-- Location embeds the struct Location of src/ast.rs (fields src, x, y). -/
structure Location where
  src : String
  x : Nat
  y : Nat
  deriving DecidableEq, Repr

/-- Location.pretty embeds Location::pretty of src/ast.rs. -/
def Location.pretty (l : Location) : String :=
  "at file: " ++ l.src ++ ", line: " ++ toString l.y ++ ", column: " ++ toString l.x

/-- Location.fail embeds Location::fail of src/ast.rs: error message followed
by the pretty-printed location. -/
def Location.fail (l : Location) (message : String) : Except String α :=
  Except.error (message ++ " " ++ l.pretty)

/-- BaseShapeKind embeds the enum BaseShapeKind of src/shapes.rs. -/
inductive BaseShapeKind where
  | boolean
  | float
  | string
  | unit
  | list
  deriving DecidableEq, Repr

/-- Shape embeds the enum Shape of src/shapes.rs. -/
inductive Shape where
  | genericShapeConstructor (base : Shape) (args : Nat)
  | genericShape (base : Shape) (args : List Shape)
  | simpleFunctionShape (args : List Shape) (result : Shape)
  | baseShape (kind : BaseShapeKind)
  | namedShape (name : String)
  | unknownShape

mutual

/-- Shape.beq is structural equality of shapes, embedding the derived
PartialEq of the enum Shape in src/shapes.rs. -/
def Shape.beq : Shape → Shape → Bool
  | Shape.genericShapeConstructor b1 a1, Shape.genericShapeConstructor b2 a2 =>
      Shape.beq b1 b2 && a1 = a2
  | Shape.genericShape b1 a1, Shape.genericShape b2 a2 =>
      Shape.beq b1 b2 && Shape.beqList a1 a2
  | Shape.simpleFunctionShape a1 r1, Shape.simpleFunctionShape a2 r2 =>
      Shape.beqList a1 a2 && Shape.beq r1 r2
  | Shape.baseShape k1, Shape.baseShape k2 => k1 = k2
  | Shape.namedShape n1, Shape.namedShape n2 => n1 = n2
  | Shape.unknownShape, Shape.unknownShape => true
  | _, _ => false

/-- Shape.beqList is Shape.beq lifted pointwise to lists. -/
def Shape.beqList : List Shape → List Shape → Bool
  | [], [] => true
  | s :: r, t :: u => Shape.beq s t && Shape.beqList r u
  | _, _ => false

end

mutual

theorem Shape.beq_iff : ∀ a b : Shape, Shape.beq a b = true ↔ a = b
  | Shape.genericShapeConstructor b1 a1, Shape.genericShapeConstructor b2 a2 => by
      simp [Shape.beq, Shape.beq_iff b1 b2]
  | Shape.genericShape b1 a1, Shape.genericShape b2 a2 => by
      simp [Shape.beq, Shape.beq_iff b1 b2, Shape.beqList_iff a1 a2]
  | Shape.simpleFunctionShape a1 r1, Shape.simpleFunctionShape a2 r2 => by
      simp [Shape.beq, Shape.beq_iff r1 r2, Shape.beqList_iff a1 a2]
  | Shape.baseShape k1, Shape.baseShape k2 => by simp [Shape.beq]
  | Shape.namedShape n1, Shape.namedShape n2 => by simp [Shape.beq]
  | Shape.unknownShape, Shape.unknownShape => by simp [Shape.beq]
  | Shape.genericShapeConstructor b1 a1, Shape.genericShape b2 a2 => by simp [Shape.beq]
  | Shape.genericShapeConstructor b1 a1, Shape.simpleFunctionShape a2 r2 => by simp [Shape.beq]
  | Shape.genericShapeConstructor b1 a1, Shape.baseShape k2 => by simp [Shape.beq]
  | Shape.genericShapeConstructor b1 a1, Shape.namedShape n2 => by simp [Shape.beq]
  | Shape.genericShapeConstructor b1 a1, Shape.unknownShape => by simp [Shape.beq]
  | Shape.genericShape b1 a1, Shape.genericShapeConstructor b2 a2 => by simp [Shape.beq]
  | Shape.genericShape b1 a1, Shape.simpleFunctionShape a2 r2 => by simp [Shape.beq]
  | Shape.genericShape b1 a1, Shape.baseShape k2 => by simp [Shape.beq]
  | Shape.genericShape b1 a1, Shape.namedShape n2 => by simp [Shape.beq]
  | Shape.genericShape b1 a1, Shape.unknownShape => by simp [Shape.beq]
  | Shape.simpleFunctionShape a1 r1, Shape.genericShapeConstructor b2 a2 => by simp [Shape.beq]
  | Shape.simpleFunctionShape a1 r1, Shape.genericShape b2 a2 => by simp [Shape.beq]
  | Shape.simpleFunctionShape a1 r1, Shape.baseShape k2 => by simp [Shape.beq]
  | Shape.simpleFunctionShape a1 r1, Shape.namedShape n2 => by simp [Shape.beq]
  | Shape.simpleFunctionShape a1 r1, Shape.unknownShape => by simp [Shape.beq]
  | Shape.baseShape k1, Shape.genericShapeConstructor b2 a2 => by simp [Shape.beq]
  | Shape.baseShape k1, Shape.genericShape b2 a2 => by simp [Shape.beq]
  | Shape.baseShape k1, Shape.simpleFunctionShape a2 r2 => by simp [Shape.beq]
  | Shape.baseShape k1, Shape.namedShape n2 => by simp [Shape.beq]
  | Shape.baseShape k1, Shape.unknownShape => by simp [Shape.beq]
  | Shape.namedShape n1, Shape.genericShapeConstructor b2 a2 => by simp [Shape.beq]
  | Shape.namedShape n1, Shape.genericShape b2 a2 => by simp [Shape.beq]
  | Shape.namedShape n1, Shape.simpleFunctionShape a2 r2 => by simp [Shape.beq]
  | Shape.namedShape n1, Shape.baseShape k2 => by simp [Shape.beq]
  | Shape.namedShape n1, Shape.unknownShape => by simp [Shape.beq]
  | Shape.unknownShape, Shape.genericShapeConstructor b2 a2 => by simp [Shape.beq]
  | Shape.unknownShape, Shape.genericShape b2 a2 => by simp [Shape.beq]
  | Shape.unknownShape, Shape.simpleFunctionShape a2 r2 => by simp [Shape.beq]
  | Shape.unknownShape, Shape.baseShape k2 => by simp [Shape.beq]
  | Shape.unknownShape, Shape.namedShape n2 => by simp [Shape.beq]

theorem Shape.beqList_iff : ∀ a b : List Shape, Shape.beqList a b = true ↔ a = b
  | [], [] => by simp [Shape.beqList]
  | s :: r, t :: u => by
      simp [Shape.beqList, Shape.beq_iff s t, Shape.beqList_iff r u]
  | [], t :: u => by simp [Shape.beqList]
  | s :: r, [] => by simp [Shape.beqList]

end

instance : DecidableEq Shape :=
  fun a b => decidable_of_iff _ (Shape.beq_iff a b)

/-- shape_float of src/shapes.rs. -/
def shapeFloat : Shape := Shape.baseShape BaseShapeKind.float

/-- shape_string of src/shapes.rs. -/
def shapeString : Shape := Shape.baseShape BaseShapeKind.string

/-- shape_boolean of src/shapes.rs. -/
def shapeBoolean : Shape := Shape.baseShape BaseShapeKind.boolean

/-- shape_unit of src/shapes.rs. -/
def shapeUnit : Shape := Shape.baseShape BaseShapeKind.unit

/-- shape_list of src/shapes.rs. -/
def shapeList (arg : Shape) : Shape :=
  Shape.genericShape (Shape.baseShape BaseShapeKind.list) [arg]

/-- shape_unknown of src/shapes.rs. -/
def shapeUnknown : Shape := Shape.unknownShape

mutual

/-- fillShape embeds fill_shape of src/typechecker.rs (lines 252-295).
Composite shapes are filled recursively (argument lists before the base or
result, matching the statement order of the source); NamedShape resolves
only the names String, Float and Unit, and any other name is an error;
BaseShape and UnknownShape map to themselves. -/
def fillShape : Shape → Location → Except String Shape
  | Shape.genericShapeConstructor base args, loc => do
      let b ← fillShape base loc
      Except.ok (Shape.genericShapeConstructor b args)
  | Shape.genericShape base args, loc => do
      let filledArgs ← fillShapeList args loc
      let b ← fillShape base loc
      Except.ok (Shape.genericShape b filledArgs)
  | Shape.simpleFunctionShape args result, loc => do
      let filledArgs ← fillShapeList args loc
      let r ← fillShape result loc
      Except.ok (Shape.simpleFunctionShape filledArgs r)
  | Shape.namedShape name, loc =>
      match name with
      | "String" => Except.ok shapeString
      | "Float" => Except.ok shapeFloat
      | "Unit" => Except.ok shapeUnit
      | _ => Except.error ("Could not find type: " ++ name ++ ", " ++ loc.pretty)
  | Shape.baseShape kind, _ => Except.ok (Shape.baseShape kind)
  | Shape.unknownShape, _ => Except.ok Shape.unknownShape

/-- fillShapeList embeds the argument loops inside fill_shape: each element
is filled in order and the first error aborts. -/
def fillShapeList : List Shape → Location → Except String (List Shape)
  | [], _ => Except.ok []
  | s :: rest, loc => do
      let s' ← fillShape s loc
      let r ← fillShapeList rest loc
      Except.ok (s' :: r)

end

/-- recognizedName states which names the NamedShape arm of fill_shape
resolves: String, Float and Unit (the source has no arm for Boolean). -/
def recognizedName (n : String) : Bool :=
  n = "String" || n = "Float" || n = "Unit"

/-- builtinFor gives the built-in shape that fill_shape substitutes for a
recognized name. -/
def builtinFor (n : String) : Shape :=
  if n = "String" then shapeString
  else if n = "Float" then shapeFloat
  else shapeUnit

mutual

/-- namedOk decides whether every NamedShape occurring in a shape carries a
name that fill_shape recognizes. -/
def namedOk : Shape → Bool
  | Shape.genericShapeConstructor base _ => namedOk base
  | Shape.genericShape base args => namedOkList args && namedOk base
  | Shape.simpleFunctionShape args result => namedOkList args && namedOk result
  | Shape.namedShape name => recognizedName name
  | Shape.baseShape _ => true
  | Shape.unknownShape => true

/-- namedOkList is namedOk over a list of shapes. -/
def namedOkList : List Shape → Bool
  | [] => true
  | s :: rest => namedOk s && namedOkList rest

end

mutual

/-- substNamed is the declarative substitution the specification describes
for fill: replace each recognized NamedShape with the built-in shape it
names, recursively, and leave every other constructor unchanged. -/
def substNamed : Shape → Shape
  | Shape.genericShapeConstructor base args =>
      Shape.genericShapeConstructor (substNamed base) args
  | Shape.genericShape base args =>
      Shape.genericShape (substNamed base) (substNamedList args)
  | Shape.simpleFunctionShape args result =>
      Shape.simpleFunctionShape (substNamedList args) (substNamed result)
  | Shape.namedShape name => builtinFor name
  | Shape.baseShape kind => Shape.baseShape kind
  | Shape.unknownShape => Shape.unknownShape

/-- substNamedList is substNamed over a list of shapes. -/
def substNamedList : List Shape → List Shape
  | [] => []
  | s :: rest => substNamed s :: substNamedList rest

end

mutual

/-- namedFree decides whether a shape contains no NamedShape at all. -/
def namedFree : Shape → Bool
  | Shape.genericShapeConstructor base _ => namedFree base
  | Shape.genericShape base args => namedFreeList args && namedFree base
  | Shape.simpleFunctionShape args result => namedFreeList args && namedFree result
  | Shape.namedShape _ => false
  | Shape.baseShape _ => true
  | Shape.unknownShape => true

/-- namedFreeList is namedFree over a list of shapes. -/
def namedFreeList : List Shape → Bool
  | [] => true
  | s :: rest => namedFree s && namedFreeList rest

end

theorem exceptBindG_ok {ε α β : Type} (a : α) (f : α → Except ε β) :
    (Except.ok a : Except ε α) >>= f = f a := rfl

theorem exceptBindG_err {ε α β : Type} (e : ε) (f : α → Except ε β) :
    (Except.error e : Except ε α) >>= f = Except.error e := rfl

theorem exceptPureG {ε α : Type} (a : α) : (pure a : Except ε α) = Except.ok a := rfl

theorem exceptBind_ok (a : α) (f : α → Except String β) :
    (Except.ok a : Except String α) >>= f = f a := rfl

theorem exceptBind_err (m : String) (f : α → Except String β) :
    (Except.error m : Except String α) >>= f = Except.error m := rfl

mutual

theorem fillShape_ok : ∀ (s : Shape) (loc : Location), namedOk s = true →
    fillShape s loc = Except.ok (substNamed s)
  | Shape.genericShapeConstructor base args, loc, h => by
      simp only [namedOk] at h
      simp [fillShape, substNamed, fillShape_ok base loc h, exceptBind_ok, exceptBind_err]
  | Shape.genericShape base args, loc, h => by
      simp only [namedOk, Bool.and_eq_true] at h
      simp [fillShape, substNamed, fillShape_ok base loc h.2,
        fillShapeList_ok args loc h.1, exceptBind_ok, exceptBind_err]
  | Shape.simpleFunctionShape args result, loc, h => by
      simp only [namedOk, Bool.and_eq_true] at h
      simp [fillShape, substNamed, fillShape_ok result loc h.2,
        fillShapeList_ok args loc h.1, exceptBind_ok, exceptBind_err]
  | Shape.namedShape name, loc, h => by
      simp only [namedOk, recognizedName, Bool.or_eq_true, decide_eq_true_eq] at h
      rcases h with h | h
      · rcases h with h | h <;> simp [fillShape, substNamed, builtinFor, h]
      · simp [fillShape, substNamed, builtinFor, h]
  | Shape.baseShape kind, loc, _ => by simp [fillShape, substNamed]
  | Shape.unknownShape, loc, _ => by simp [fillShape, substNamed]

theorem fillShapeList_ok : ∀ (l : List Shape) (loc : Location), namedOkList l = true →
    fillShapeList l loc = Except.ok (substNamedList l)
  | [], loc, _ => by simp [fillShapeList, substNamedList]
  | s :: rest, loc, h => by
      simp only [namedOkList, Bool.and_eq_true] at h
      simp [fillShapeList, substNamedList, fillShape_ok s loc h.1,
        fillShapeList_ok rest loc h.2, exceptBind_ok, exceptBind_err]

end

mutual

theorem fillShape_err : ∀ (s : Shape) (loc : Location), namedOk s = false →
    ∃ m, fillShape s loc = Except.error m
  | Shape.genericShapeConstructor base args, loc, h => by
      simp only [namedOk] at h
      obtain ⟨m, hm⟩ := fillShape_err base loc h
      exact ⟨m, by simp [fillShape, hm, exceptBind_ok, exceptBind_err]⟩
  | Shape.genericShape base args, loc, h => by
      simp only [namedOk, Bool.and_eq_false_iff] at h
      rcases h with h | h
      · obtain ⟨m, hm⟩ := fillShapeList_err args loc h
        exact ⟨m, by simp [fillShape, hm, exceptBind_ok, exceptBind_err]⟩
      · by_cases hl : namedOkList args = true
        · obtain ⟨m, hm⟩ := fillShape_err base loc h
          exact ⟨m, by simp [fillShape, fillShapeList_ok args loc hl, hm, exceptBind_ok, exceptBind_err]⟩
        · obtain ⟨m, hm⟩ := fillShapeList_err args loc (Bool.eq_false_iff.mpr hl)
          exact ⟨m, by simp [fillShape, hm, exceptBind_ok, exceptBind_err]⟩
  | Shape.simpleFunctionShape args result, loc, h => by
      simp only [namedOk, Bool.and_eq_false_iff] at h
      rcases h with h | h
      · obtain ⟨m, hm⟩ := fillShapeList_err args loc h
        exact ⟨m, by simp [fillShape, hm, exceptBind_ok, exceptBind_err]⟩
      · by_cases hl : namedOkList args = true
        · obtain ⟨m, hm⟩ := fillShape_err result loc h
          exact ⟨m, by simp [fillShape, fillShapeList_ok args loc hl, hm, exceptBind_ok, exceptBind_err]⟩
        · obtain ⟨m, hm⟩ := fillShapeList_err args loc (Bool.eq_false_iff.mpr hl)
          exact ⟨m, by simp [fillShape, hm, exceptBind_ok, exceptBind_err]⟩
  | Shape.namedShape name, loc, h => by
      simp only [namedOk, recognizedName, Bool.or_eq_false_iff, decide_eq_false_iff_not] at h
      obtain ⟨⟨h1, h2⟩, h3⟩ := h
      refine ⟨"Could not find type: " ++ name ++ ", " ++ loc.pretty, ?_⟩
      unfold fillShape
      split <;> simp_all
  | Shape.baseShape kind, loc, h => by simp [namedOk] at h
  | Shape.unknownShape, loc, h => by simp [namedOk] at h

theorem fillShapeList_err : ∀ (l : List Shape) (loc : Location), namedOkList l = false →
    ∃ m, fillShapeList l loc = Except.error m
  | [], loc, h => by simp [namedOkList] at h
  | s :: rest, loc, h => by
      simp only [namedOkList, Bool.and_eq_false_iff] at h
      rcases h with h | h
      · obtain ⟨m, hm⟩ := fillShape_err s loc h
        exact ⟨m, by simp [fillShapeList, hm, exceptBind_ok, exceptBind_err]⟩
      · by_cases hs : namedOk s = true
        · obtain ⟨m, hm⟩ := fillShapeList_err rest loc h
          exact ⟨m, by simp [fillShapeList, fillShape_ok s loc hs, hm, exceptBind_ok, exceptBind_err]⟩
        · obtain ⟨m, hm⟩ := fillShape_err s loc (Bool.eq_false_iff.mpr hs)
          exact ⟨m, by simp [fillShapeList, hm, exceptBind_ok, exceptBind_err]⟩

end

mutual

theorem substNamed_id : ∀ s : Shape, namedFree s = true → substNamed s = s
  | Shape.genericShapeConstructor base args, h => by
      simp only [namedFree] at h
      simp [substNamed, substNamed_id base h]
  | Shape.genericShape base args, h => by
      simp only [namedFree, Bool.and_eq_true] at h
      simp [substNamed, substNamed_id base h.2, substNamedList_id args h.1]
  | Shape.simpleFunctionShape args result, h => by
      simp only [namedFree, Bool.and_eq_true] at h
      simp [substNamed, substNamed_id result h.2, substNamedList_id args h.1]
  | Shape.namedShape name, h => by simp [namedFree] at h
  | Shape.baseShape kind, _ => by simp [substNamed]
  | Shape.unknownShape, _ => by simp [substNamed]

theorem substNamedList_id : ∀ l : List Shape, namedFreeList l = true → substNamedList l = l
  | [], _ => by simp [substNamedList]
  | s :: rest, h => by
      simp only [namedFreeList, Bool.and_eq_true] at h
      simp [substNamedList, substNamed_id s h.1, substNamedList_id rest h.2]

end

/-- locTest is a fixed concrete source location used by concrete instances. -/
def locTest : Location := { src := "test.let", x := 3, y := 7 }

/-- C4 counterexample: the claim says that fill replaces "Boolean" with the
built-in Boolean shape, but fill_shape in src/typechecker.rs (lines 283-291)
has arms only for "String", "Float" and "Unit", so a NamedShape carrying
"Boolean" is reported as an unrecognized type, not mapped to Boolean. -/
theorem fill_shape_boolean_counterexample :
    fillShape (Shape.namedShape "Boolean") locTest =
      Except.error ("Could not find type: Boolean, " ++ locTest.pretty) ∧
    fillShape (Shape.namedShape "Boolean") locTest ≠ Except.ok shapeBoolean := by
  constructor
  · rfl
  · intro h
    simp [fillShape] at h

/-- C4 (amended): fill_shape replaces each Named shape whose name is one of
"Float", "String" or "Unit" with the built-in shape it names, recursively;
"Boolean" is not recognized; it maps every shape containing no Named
occurrence to itself, and fails exactly when some Named occurrence carries a
name outside that three-element set. -/
theorem fill_shape_characterization :
    (∀ (s : Shape) (loc : Location), namedOk s = true →
        fillShape s loc = Except.ok (substNamed s)) ∧
    (∀ (s : Shape) (loc : Location), namedOk s = false →
        ∃ m, fillShape s loc = Except.error m) ∧
    (∀ s : Shape, namedFree s = true → substNamed s = s) :=
  ⟨fillShape_ok, fillShape_err, substNamed_id⟩

/-- C4 witness: the amended characterization evaluated at concrete shapes.
A function shape over Named "Float" fills to the Float base shape; a shape
naming "Bool" fails; a Named-free shape substitutes to itself. -/
theorem fill_shape_characterization_witness :
    fillShape (Shape.simpleFunctionShape [Shape.namedShape "Float"] (Shape.namedShape "Unit"))
        locTest =
      Except.ok (Shape.simpleFunctionShape [shapeFloat] shapeUnit) ∧
    (∃ m, fillShape (Shape.namedShape "Bool") locTest = Except.error m) ∧
    substNamed (shapeList shapeFloat) = shapeList shapeFloat := by
  refine ⟨?_, ?_, ?_⟩
  · exact fill_shape_characterization.1 _ locTest (by decide)
  · exact fill_shape_characterization.2.1 (Shape.namedShape "Bool") locTest (by decide)
  · exact fill_shape_characterization.2.2 _ (by decide)

/-!
Runtime section: embedding of src/interpreter.rs, src/bytecode.rs,
src/runtime.rs and the native operator builders of src/lib_core.rs.
-/

/-- F64 embeds the Rust f64 carrier as an opaque 64-bit pattern.  No claim
in scope depends on IEEE arithmetic, so operations on F64 are parameters
(see FloatOps), exactly as the source passes closures to float_op. -/
def F64 : Type := Fin (2 ^ 64)

instance : DecidableEq F64 := inferInstanceAs (DecidableEq (Fin (2 ^ 64)))

instance : OfNat F64 0 := ⟨(0 : Fin (2 ^ 64))⟩

/-- FloatOps collects the f64 operations the interpreter closes over in
Machine::new of src/interpreter.rs (lines 38-52): the four arithmetic
operators and the six comparisons. -/
structure FloatOps where
  add : F64 → F64 → F64
  sub : F64 → F64 → F64
  mul : F64 → F64 → F64
  div : F64 → F64 → F64
  feq : F64 → F64 → Bool
  fne : F64 → F64 → Bool
  fgt : F64 → F64 → Bool
  fge : F64 → F64 → Bool
  flt : F64 → F64 → Bool
  fle : F64 → F64 → Bool

/-- trivFloatOps is a concrete FloatOps instantiation used by concrete
witnesses (the claims hold for every instantiation). -/
def trivFloatOps : FloatOps :=
  { add := fun _ _ => 0, sub := fun _ _ => 0, mul := fun _ _ => 0, div := fun _ _ => 0
    feq := fun _ _ => true, fne := fun _ _ => false, fgt := fun _ _ => false
    fge := fun _ _ => true, flt := fun _ _ => false, fle := fun _ _ => true }

/-- CoreOp names the ten native operators installed by Machine::new in
src/interpreter.rs. -/
inductive CoreOp where
  | add | sub | mul | div
  | ceq | cne | cgt | cge | clt | cle
  deriving DecidableEq, Repr

/-- CoreOp.opName gives the operator symbol each native is registered
under in Machine::new. -/
def CoreOp.opName : CoreOp → String
  | CoreOp.add => "+"
  | CoreOp.sub => "-"
  | CoreOp.mul => "*"
  | CoreOp.div => "/"
  | CoreOp.ceq => "=="
  | CoreOp.cne => "!="
  | CoreOp.cgt => ">"
  | CoreOp.cge => ">="
  | CoreOp.clt => "<"
  | CoreOp.cle => "<="

/-- CoreOp.isArith distinguishes the float_op natives (result Float) from
the float_compare_op natives (result Boolean). -/
def CoreOp.isArith : CoreOp → Bool
  | CoreOp.add | CoreOp.sub | CoreOp.mul | CoreOp.div => true
  | _ => false

/-- coreOpShape gives the shape each native is built with in float_op and
float_compare_op of src/interpreter.rs (lines 383-389 and 411-417). -/
def coreOpShape (op : CoreOp) : Shape :=
  Shape.simpleFunctionShape [shapeFloat, shapeFloat]
    (if op.isArith then shapeFloat else shapeBoolean)

/-- Instruction embeds the enum Instruction of src/bytecode.rs, with the
u32 constant ids and u16 local ids as Nat and i32 jumps as Int. -/
inductive Instruction where
  | noOp
  | duplicate
  | pop
  | swap
  | loadConstNull
  | loadConstTrue
  | loadConstFalse
  | loadConstString (constId : Nat)
  | loadConstFunction (constId : Nat)
  | loadConstFloat (value : F64)
  | loadValue (localId : Nat)
  | storeValue (localId : Nat)
  | callStatic (funcId : Nat)
  | callDynamic (paramCount : Nat)
  | buildClosure (paramCount : Nat) (funcId : Nat)
  | buildRecursiveFunction
  | ret
  | branch (jump : Int)
  | jump (jump : Int)
  | debug
  | errorInstr
  deriving DecidableEq

/-- FunctionRef embeds the struct FunctionRef of src/bytecode.rs.  In the
source, equality and hashing consider only package, module and name; the
interpreter compares those three fields directly, which is what the
embedded machine does as well. -/
structure FunctionRef where
  package : String
  module : String
  name : String
  shape : Shape
  deriving DecidableEq

/-- BitFunction embeds the executable function record used by
Machine::execute of src/interpreter.rs: identity fields, the number of
local slots, the flat instruction body and the function shape. -/
structure BitFunction where
  package : String
  module : String
  name : String
  maxLocals : Nat
  body : List Instruction
  shape : Shape
  deriving DecidableEq

mutual

/-- Value embeds the enum Value of src/runtime.rs. -/
inductive Value where
  | null
  | vtrue
  | vfalse
  | str (s : String)
  | float (f : F64)
  | function (h : RtFunc)
  | listV (contents : List Value) (shape : Shape)

/-- RtFunc embeds the runtime function objects of src/interpreter.rs: a
BitFunction, a native operator, ClosureFunction (inner function plus
captured values) or RecursiveFunction (inner function). -/
inductive RtFunc where
  | bit (f : BitFunction)
  | native (op : CoreOp)
  | closure (inner : RtFunc) (captured : List Value)
  | recursive (inner : RtFunc)

end

/-- RtFunc.getShape embeds the get_shape methods of src/interpreter.rs:
a BitFunction exposes its own shape, a native its built-in shape, and
closure and recursive wrappers delegate to the wrapped function. -/
def RtFunc.getShape : RtFunc → Shape
  | RtFunc.bit f => f.shape
  | RtFunc.native op => coreOpShape op
  | RtFunc.closure inner _ => inner.getShape
  | RtFunc.recursive inner => inner.getShape

/-- RtFunc.unwrapBit embeds unwrap_as_bit_function of src/interpreter.rs:
a BitFunction unwraps to itself with an empty locals prefix (line 297);
a native does not unwrap (line 365); ClosureFunction appends its captured
values after the inner prefix (lines 319-322); RecursiveFunction pushes a
re-wrapped recursive handle after the inner prefix (lines 343-346). -/
def RtFunc.unwrapBit : RtFunc → Option (BitFunction × List Value)
  | RtFunc.bit f => some (f, [])
  | RtFunc.native _ => none
  | RtFunc.closure inner cap =>
      (RtFunc.unwrapBit inner).map (fun p => (p.1, p.2 ++ cap))
  | RtFunc.recursive inner =>
      (RtFunc.unwrapBit inner).map
        (fun p => (p.1, p.2 ++ [Value.function (RtFunc.recursive inner)]))

/-- lookupA is association-list lookup, embedding HashMap::get. -/
def lookupA {β : Type} : List (String × β) → String → Option β
  | [], _ => none
  | (k, v) :: rest, key => if k = key then some v else lookupA rest key

/-- BitModuleRT embeds the struct BitModule of src/bytecode.rs with the
function map holding runtime function objects. -/
structure BitModuleRT where
  stringConstants : List String
  functionRefs : List FunctionRef
  functions : List (String × RtFunc)
  shapeRefs : List Shape

/-- Machine embeds the struct Machine of src/interpreter.rs: the installed
application packages plus the f64 operations its core natives close
over. -/
structure Machine where
  packages : List (String × List (String × BitModuleRT))
  fops : FloatOps

/-- coreFunctionsGet embeds lookup in the core_functions table built by
Machine::new of src/interpreter.rs (lines 38-52): the ten operator
symbols map to their native functions, nothing else is present. -/
def coreFunctionsGet : String → Option RtFunc
  | "+" => some (RtFunc.native CoreOp.add)
  | "-" => some (RtFunc.native CoreOp.sub)
  | "*" => some (RtFunc.native CoreOp.mul)
  | "/" => some (RtFunc.native CoreOp.div)
  | "==" => some (RtFunc.native CoreOp.ceq)
  | "!=" => some (RtFunc.native CoreOp.cne)
  | ">" => some (RtFunc.native CoreOp.cgt)
  | ">=" => some (RtFunc.native CoreOp.cge)
  | "<" => some (RtFunc.native CoreOp.clt)
  | "<=" => some (RtFunc.native CoreOp.cle)
  | _ => none

/-- applyCoreOp gives the value a native operator produces from two floats:
float_op wraps the f64 result as Value::Float, float_compare_op maps the
bool to Value::True or Value::False (src/interpreter.rs lines 369-418). -/
def applyCoreOp (fops : FloatOps) : CoreOp → F64 → F64 → Value
  | CoreOp.add, l, r => Value.float (fops.add l r)
  | CoreOp.sub, l, r => Value.float (fops.sub l r)
  | CoreOp.mul, l, r => Value.float (fops.mul l r)
  | CoreOp.div, l, r => Value.float (fops.div l r)
  | CoreOp.ceq, l, r => if fops.feq l r then Value.vtrue else Value.vfalse
  | CoreOp.cne, l, r => if fops.fne l r then Value.vtrue else Value.vfalse
  | CoreOp.cgt, l, r => if fops.fgt l r then Value.vtrue else Value.vfalse
  | CoreOp.cge, l, r => if fops.fge l r then Value.vtrue else Value.vfalse
  | CoreOp.clt, l, r => if fops.flt l r then Value.vtrue else Value.vfalse
  | CoreOp.cle, l, r => if fops.fle l r then Value.vtrue else Value.vfalse

/-- nativeExec embeds the closures built by float_op and float_compare_op
of src/interpreter.rs: exactly two Float arguments produce a result,
anything else is the descriptive failure. -/
def nativeExec (fops : FloatOps) (op : CoreOp) (args : List Value) : Except String Value :=
  match args with
  | [Value.float first, Value.float second] =>
      Except.ok (applyCoreOp fops op first second)
  | _ => Except.error (op.opName ++ " takes exactly two float arguments")

/-- machineLookupModule embeds the module lookup at the top of
Machine::execute (src/interpreter.rs lines 66-68). -/
def machineLookupModule (m : Machine) (pkg modname : String) : Option BitModuleRT :=
  (lookupA m.packages pkg).bind (fun p => lookupA p modname)

/-- resizeLocals embeds Vec::resize(max_locals, Value::Null) at the top of
the outer interpreter loop (src/interpreter.rs line 75). -/
def resizeLocals (l : List Value) (n : Nat) : List Value :=
  l.take n ++ List.replicate (n - l.length) Value.null

/-- calcJump embeds Machine::calculate_jump of src/interpreter.rs (lines
276-283); a negative jump beyond the start of the body underflows usize,
modelled as none (host failure). -/
def calcJump (index : Nat) (jump : Int) : Option Nat :=
  if 0 ≤ jump then some (index + jump.toNat)
  else if (-jump).toNat ≤ index then some (index - (-jump).toNat)
  else none

/-- Res is the outcome of running the embedded machine: a returned value,
a returned error (Result::Err in the source), a host panic (out-of-bounds
indexing or unimplemented!), or exhaustion of one of the two extrinsic
fuels: hostOut bounds the depth of recursive host calls, stepsOut bounds
the number of dispatched instructions. -/
inductive Res where
  | ok (v : Value)
  | err (m : String)
  | crash (m : String)
  | hostOut
  | stepsOut

/-- resolveCallStatic embeds the callee lookup of the CallStatic arm of
Machine::execute (src/interpreter.rs lines 142-144), also reused by
BuildClosure (lines 213-216): the core operator table is consulted first,
then the current module's own function map, both keyed by the name field
of the interned FunctionRef alone. -/
def resolveCallStatic (modu : BitModuleRT) (funcRef : FunctionRef) : Option RtFunc :=
  (coreFunctionsGet funcRef.name).orElse (fun _ => lookupA modu.functions funcRef.name)

/-- tailTarget embeds the tail-call test of Machine::execute
(src/interpreter.rs lines 161-168 for CallStatic and 193-200 for
CallDynamic), applied once the next instruction is known to be Return:
the callee must unwrap to a BitFunction carrying the same package, module
and name as the currently executing function; the replacement locals are
the unwrapped prefix followed by the popped parameters. -/
def tailTarget (cur : BitFunction) (callee : RtFunc) (params : List Value) :
    Option (List Value) :=
  match callee.unwrapBit with
  | some (newFunc, newLocals) =>
      if cur.package = newFunc.package ∧ cur.module = newFunc.module ∧
          cur.name = newFunc.name then
        some (newLocals ++ params)
      else
        none
  | none => none

/-- MJob distinguishes the three mutually recursive phases of the
interpreter of src/interpreter.rs: entering a runtime function
(RunFunction::execute dispatch), the top of the outer loop of
Machine::execute, and the instruction dispatch loop. -/
inductive MJob where
  | callRun (rtf : RtFunc) (args : List Value)
  | outerLoop (modu : BitModuleRT) (f : BitFunction) (locals : List Value)
  | dispatch (modu : BitModuleRT) (f : BitFunction) (locals : List Value)
      (index : Nat) (stack : List Value)

/-- mrun embeds the interpreter of src/interpreter.rs as one structurally
recursive function over an extrinsic step fuel (second argument), so that
concrete runs reduce definitionally.  The first Nat bounds the depth of
recursive host calls (the Rust call stack) and is decremented only where
the source recurses through call_func.execute; a pure tail-call iteration
of the outer loop never consumes it.

Phase callRun is the RunFunction::execute dispatch: a BitFunction looks
up its module (lines 66-68) and enters the outer loop; a native runs its
closure; ClosureFunction::execute (lines 308-312) prepends its captured
values to the arguments; RecursiveFunction::execute (lines 332-336)
prepends a re-wrapped recursive handle.

Phase outerLoop is the top of the outer loop (lines 72-75): fresh stack,
program counter 0, locals resized to max_locals with Null padding.

Phase dispatch is the instruction loop (lines 77-272), with the stack
head as the top of the stack.  Each Err return of the source is Res.err
with the source's message; each spot where the source indexes a Vec
without a bounds check (locals on StoreValue, the body on the call
lookahead, usize underflow in calculate_jump) is Res.crash, as is the
unimplemented Error instruction.  Falling off the end of the body is the
Overflowed error of line 272. -/
def mrun (m : Machine) : Nat → Nat → MJob → Res
  | _, 0, _ => Res.stepsOut
  | hostFuel, steps + 1, MJob.callRun rtf args =>
    match rtf with
    | RtFunc.bit f =>
        match machineLookupModule m f.package f.module with
        | none => Res.err "BitFunction lookup failed"
        | some modu => mrun m hostFuel steps (MJob.outerLoop modu f args)
    | RtFunc.native op =>
        match nativeExec m.fops op args with
        | Except.ok v => Res.ok v
        | Except.error msg => Res.err msg
    | RtFunc.closure inner cap => mrun m hostFuel steps (MJob.callRun inner (cap ++ args))
    | RtFunc.recursive inner =>
        mrun m hostFuel steps
          (MJob.callRun inner (Value.function (RtFunc.recursive inner) :: args))
  | hostFuel, steps + 1, MJob.outerLoop modu f locals =>
      mrun m hostFuel steps (MJob.dispatch modu f (resizeLocals locals f.maxLocals) 0 [])
  | hostFuel, steps + 1, MJob.dispatch modu f locals index stack =>
    match f.body.get? index with
    | none => Res.err "Overflowed function body"
    | some instr =>
      match instr with
      | Instruction.noOp => mrun m hostFuel steps (MJob.dispatch modu f locals (index + 1) stack)
      | Instruction.duplicate =>
          match stack with
          | [] => Res.err "Invalid bytecode. Attempt to duplicate empty stack"
          | v :: rest =>
              mrun m hostFuel steps (MJob.dispatch modu f locals (index + 1) (v :: v :: rest))
      | Instruction.pop =>
          match stack with
          | [] => Res.err "Invalid bytecode in module. Attempt to pop empty stack"
          | _ :: rest => mrun m hostFuel steps (MJob.dispatch modu f locals (index + 1) rest)
      | Instruction.swap =>
          match stack with
          | [] => Res.err "Invalid bytecode. Attempt to swap empty stack"
          | [_] => Res.err "Invalid bytecode. Attempt to swap stack of 1"
          | first :: second :: rest =>
              mrun m hostFuel steps
                (MJob.dispatch modu f locals (index + 1) (second :: first :: rest))
      | Instruction.loadConstNull =>
          mrun m hostFuel steps (MJob.dispatch modu f locals (index + 1) (Value.null :: stack))
      | Instruction.loadConstTrue =>
          mrun m hostFuel steps (MJob.dispatch modu f locals (index + 1) (Value.vtrue :: stack))
      | Instruction.loadConstFalse =>
          mrun m hostFuel steps (MJob.dispatch modu f locals (index + 1) (Value.vfalse :: stack))
      | Instruction.loadConstString cid =>
          match modu.stringConstants.get? cid with
          | none => Res.err "Invalid bytecode. Invalid String constant id"
          | some s =>
              mrun m hostFuel steps
                (MJob.dispatch modu f locals (index + 1) (Value.str s :: stack))
      | Instruction.loadConstFunction cid =>
          match modu.functionRefs.get? cid with
          | none => Res.err "Invalid bytecode. Invalid Function constant id"
          | some fr =>
              match lookupA modu.functions fr.name with
              | none => Res.err "Invalid bytecode. Invalid Function constant id"
              | some boxed =>
                  mrun m hostFuel steps
                    (MJob.dispatch modu f locals (index + 1) (Value.function boxed :: stack))
      | Instruction.loadConstFloat v =>
          mrun m hostFuel steps
            (MJob.dispatch modu f locals (index + 1) (Value.float v :: stack))
      | Instruction.loadValue i =>
          match locals.get? i with
          | none => Res.err "Invalid bytecode. LoadValue of local that doesn't exist"
          | some v =>
              mrun m hostFuel steps (MJob.dispatch modu f locals (index + 1) (v :: stack))
      | Instruction.storeValue i =>
          match stack with
          | [] => Res.err "Invalid bytecode. Attempt to StoreValue of empty stack"
          | v :: rest =>
              if i < locals.length then
                mrun m hostFuel steps (MJob.dispatch modu f (locals.set i v) (index + 1) rest)
              else
                Res.crash "index out of bounds: locals in StoreValue"
      | Instruction.callStatic fid =>
          match modu.functionRefs.get? fid with
          | none => Res.err "Invalid bytecode. Invalid function id"
          | some funcRef =>
              match resolveCallStatic modu funcRef with
              | none => Res.err "Invalid bytecode. Function with name not found"
              | some callFunc =>
                  match callFunc.getShape with
                  | Shape.simpleFunctionShape argShapes _ =>
                      if argShapes.length ≤ stack.length then
                        match f.body.get? (index + 1) with
                        | none => Res.crash "index out of bounds: call lookahead"
                        | some nxt =>
                            match (if nxt = Instruction.ret then
                                tailTarget f callFunc ((stack.take argShapes.length).reverse)
                              else none) with
                            | some newLocals =>
                                mrun m hostFuel steps (MJob.outerLoop modu f newLocals)
                            | none =>
                                match hostFuel with
                                | 0 => Res.hostOut
                                | hf + 1 =>
                                    match mrun m hf steps
                                        (MJob.callRun callFunc
                                          ((stack.take argShapes.length).reverse)) with
                                    | Res.ok v =>
                                        mrun m hostFuel steps
                                          (MJob.dispatch modu f locals (index + 1)
                                            (v :: stack.drop argShapes.length))
                                    | r => r
                      else
                        Res.err "Invalid bytecode. Not enough args for function"
                  | _ => Res.err "Invalid bytecode. CallStatic is not function"
      | Instruction.callDynamic pc =>
          if pc ≤ stack.length then
            match stack.drop pc with
            | [] => Res.err "Invalid bytecode. Invalid built in function id"
            | maybeFunc :: rest =>
                match maybeFunc with
                | Value.function callFunc =>
                    match f.body.get? (index + 1) with
                    | none => Res.crash "index out of bounds: call lookahead"
                    | some nxt =>
                        match (if nxt = Instruction.ret then
                            tailTarget f callFunc ((stack.take pc).reverse)
                          else none) with
                        | some newLocals =>
                            mrun m hostFuel steps (MJob.outerLoop modu f newLocals)
                        | none =>
                            match hostFuel with
                            | 0 => Res.hostOut
                            | hf + 1 =>
                                match mrun m hf steps
                                    (MJob.callRun callFunc ((stack.take pc).reverse)) with
                                | Res.ok v =>
                                    mrun m hostFuel steps
                                      (MJob.dispatch modu f locals (index + 1) (v :: rest))
                                | r => r
                | _ => Res.err "Invalid bytecode. CallDynamic is not function"
          else
            Res.err "Invalid bytecode. Not enough args for function"
      | Instruction.buildClosure pc fid =>
          match modu.functionRefs.get? fid with
          | none => Res.err "Invalid bytecode. Invalid function id"
          | some funcRef =>
              match resolveCallStatic modu funcRef with
              | none => Res.err "Invalid bytecode. Function with name not found"
              | some fnc =>
                  if pc ≤ stack.length then
                    mrun m hostFuel steps
                      (MJob.dispatch modu f locals (index + 1)
                        (Value.function (RtFunc.closure fnc ((stack.take pc).reverse))
                          :: stack.drop pc))
                  else
                    Res.err "Invalid bytecode. Not enough args for closure"
      | Instruction.buildRecursiveFunction =>
          match stack with
          | [] => Res.err "Invalid bytecode. Attempt to BuildRecursiveFunction of empty stack"
          | Value.function h :: rest =>
              mrun m hostFuel steps
                (MJob.dispatch modu f locals (index + 1)
                  (Value.function (RtFunc.recursive h) :: rest))
          | _ :: _ => Res.err "Invalid bytecode. BuildRecursiveFunction is not function"
      | Instruction.ret =>
          match stack with
          | [] => Res.err "Invalid bytecode. Attempt to return empty stack"
          | v :: _ => Res.ok v
      | Instruction.branch j =>
          match stack with
          | [] => Res.err "Invalid bytecode. Attempt to Branch empty stack"
          | Value.vtrue :: rest =>
              mrun m hostFuel steps (MJob.dispatch modu f locals (index + 1) rest)
          | Value.vfalse :: rest =>
              match calcJump index j with
              | none => Res.crash "usize underflow in calculate_jump"
              | some idx2 =>
                  mrun m hostFuel steps (MJob.dispatch modu f locals (idx2 + 1) rest)
          | _ :: _ => Res.err "Invalid bytecode. Attempt to Branch on non boolean"
      | Instruction.jump j =>
          match calcJump index j with
          | none => Res.crash "usize underflow in calculate_jump"
          | some idx2 => mrun m hostFuel steps (MJob.dispatch modu f locals (idx2 + 1) stack)
      | Instruction.debug => mrun m hostFuel steps (MJob.dispatch modu f locals (index + 1) stack)
      | Instruction.errorInstr => Res.crash "unimplemented instruction"

/-- execFunc runs a runtime function object, the embedding of
RunFunction::execute of src/interpreter.rs. -/
def execFunc (m : Machine) (hostFuel steps : Nat) (rtf : RtFunc) (args : List Value) : Res :=
  mrun m hostFuel steps (MJob.callRun rtf args)

/-!
Native operator builders of src/lib_core.rs.
-/

/-- libCoreOp embeds the generic native builder op of src/lib_core.rs
(lines 146-158): exactly two Float arguments produce Ok(map(op(l, r)));
any other argument vector (wrong arity or wrong value kind) produces the
descriptive failure naming the operator. -/
def libCoreOp {R : Type} (name : String) (opf : F64 → F64 → R) (mapf : R → Value)
    (args : List Value) : Except String Value :=
  match args with
  | [Value.float first, Value.float second] => Except.ok (mapf (opf first second))
  | _ => Except.error (name ++ " takes exactly two float arguments")

/-- libCoreFloatOp embeds float_op of src/lib_core.rs (lines 135-138):
libCoreOp with the result wrapped as Value::Float. -/
def libCoreFloatOp (name : String) (opf : F64 → F64 → F64) :
    List Value → Except String Value :=
  libCoreOp name opf Value.float

/-- libCoreFloatCompareOp embeds float_compare_op of src/lib_core.rs
(lines 140-143): libCoreOp with the bool result mapped to Value::True or
Value::False. -/
def libCoreFloatCompareOp (name : String) (opf : F64 → F64 → Bool) :
    List Value → Except String Value :=
  libCoreOp name opf (fun b => if b then Value.vtrue else Value.vfalse)

/-- coreModuleNatives embeds core_module of src/lib_core.rs (lines 24-44):
the Core module registers the four arithmetic natives and the six
comparison natives, each under exactly its operator symbol. -/
def coreModuleNatives (fops : FloatOps) :
    List (String × (List Value → Except String Value)) :=
  [("+", libCoreFloatOp "+" fops.add),
   ("-", libCoreFloatOp "-" fops.sub),
   ("*", libCoreFloatOp "*" fops.mul),
   ("/", libCoreFloatOp "/" fops.div),
   ("==", libCoreFloatCompareOp "==" fops.feq),
   ("!=", libCoreFloatCompareOp "!=" fops.fne),
   (">", libCoreFloatCompareOp ">" fops.fgt),
   (">=", libCoreFloatCompareOp ">=" fops.fge),
   ("<", libCoreFloatCompareOp "<" fops.flt),
   ("<=", libCoreFloatCompareOp "<=" fops.fle)]

/-- twoFloats extracts the two floats of an argument vector of the exact
form the native operators accept, and nothing else. -/
def twoFloats : List Value → Option (F64 × F64)
  | [Value.float l, Value.float r] => some (l, r)
  | _ => none

theorem twoFloats_spec (args : List Value) :
    (∃ l r, args = [Value.float l, Value.float r] ∧ twoFloats args = some (l, r)) ∨
    (twoFloats args = none ∧ ∀ l r, args ≠ [Value.float l, Value.float r]) := by
  match args with
  | [] => exact Or.inr ⟨rfl, by simp⟩
  | [a] =>
      refine Or.inr ⟨?_, by simp⟩
      cases a <;> rfl
  | [a, b] =>
      cases a <;> cases b <;>
        first
          | exact Or.inl ⟨_, _, rfl, rfl⟩
          | refine Or.inr ⟨rfl, by intro l r h; simp at h⟩
  | a :: b :: c :: rest =>
      refine Or.inr ⟨?_, by simp⟩
      cases a <;> cases b <;> rfl

theorem libCoreOp_eq {R : Type} (name : String) (opf : F64 → F64 → R) (mapf : R → Value)
    (args : List Value) :
    libCoreOp name opf mapf args =
      (match twoFloats args with
        | some (l, r) => Except.ok (mapf (opf l r))
        | none => Except.error (name ++ " takes exactly two float arguments")) := by
  rcases twoFloats_spec args with ⟨l, r, rfl, h⟩ | ⟨h, hne⟩
  · simp [libCoreOp, h]
  · simp only [h]
    match args, hne with
    | [], _ => rfl
    | [a], _ => cases a <;> rfl
    | [a, b], hne =>
        cases a <;> cases b <;> first
          | exact absurd rfl (hne _ _)
          | rfl
    | a :: b :: c :: rest, _ => cases a <;> cases b <;> rfl

/-!
Concrete application used by claims about CallStatic resolution: one
package Main with modules A and B; module A holds function f whose body
is a CallStatic through an interned reference naming package Main,
module B, function g; module B holds g.
-/

/-- c10RefG is the interned FunctionRef through which f calls g: it names
package Main, module B, function g. -/
def c10RefG : FunctionRef :=
  { package := "Main", module := "B", name := "g",
    shape := Shape.simpleFunctionShape [] shapeFloat }

/-- c10FunG is the function g of module B. -/
def c10FunG : BitFunction :=
  { package := "Main", module := "B", name := "g", maxLocals := 0,
    body := [Instruction.loadConstNull, Instruction.ret],
    shape := Shape.simpleFunctionShape [] shapeFloat }

/-- c10FunF is the function f of module A, calling g of module B through
the interned reference c10RefG, with the call in tail position. -/
def c10FunF : BitFunction :=
  { package := "Main", module := "A", name := "f", maxLocals := 0,
    body := [Instruction.callStatic 0, Instruction.ret],
    shape := Shape.simpleFunctionShape [] shapeFloat }

/-- c10ModA is module A: it interns c10RefG and holds only f. -/
def c10ModA : BitModuleRT :=
  { stringConstants := [], functionRefs := [c10RefG],
    functions := [("f", RtFunc.bit c10FunF)], shapeRefs := [] }

/-- c10ModB is module B: it holds g. -/
def c10ModB : BitModuleRT :=
  { stringConstants := [], functionRefs := [],
    functions := [("g", RtFunc.bit c10FunG)], shapeRefs := [] }

/-- c10Machine installs both modules of package Main. -/
def c10Machine : Machine :=
  { packages := [("Main", [("A", c10ModA), ("B", c10ModB)])], fops := trivFloatOps }

/-- C10: the CallStatic callee lookup of Machine::execute
(src/interpreter.rs lines 142-144) resolves by the name field of the
interned FunctionRef alone, first in the built-in core operator table and
then in the current module's own function map.  Consequently (a) two
references with equal names resolve identically whatever their package
and module fields, (b) a reference whose name is a core operator symbol
always resolves to the core native, so a module-local function under that
name can never be reached, and (c) a CallStatic naming a function that
lives only in another module fails: in the concrete two-module machine,
f of module A calling g of module B through a fully qualified interned
reference returns the function-not-found error even though g exists. -/
theorem call_static_resolves_by_name_only :
    (∀ (modu : BitModuleRT) (fr fr' : FunctionRef), fr.name = fr'.name →
        resolveCallStatic modu fr = resolveCallStatic modu fr') ∧
    (∀ (modu : BitModuleRT) (op : CoreOp) (fr : FunctionRef), fr.name = op.opName →
        resolveCallStatic modu fr = some (RtFunc.native op)) ∧
    (∀ (modu : BitModuleRT) (fr : FunctionRef), coreFunctionsGet fr.name = none →
        lookupA modu.functions fr.name = none → resolveCallStatic modu fr = none) ∧
    execFunc c10Machine 5 20 (RtFunc.bit c10FunF) [] =
      Res.err "Invalid bytecode. Function with name not found" := by
  refine ⟨?_, ?_, ?_, rfl⟩
  · intro modu fr fr' h
    unfold resolveCallStatic
    rw [h]
  · intro modu op fr h
    cases op <;> simp [resolveCallStatic, h, CoreOp.opName, coreFunctionsGet, Option.orElse]
  · intro modu fr h1 h2
    simp [resolveCallStatic, h1, h2, Option.orElse]

/-- C10 witness: the name-only resolution applied at concrete inputs:
a reference with fabricated package and module fields but name f resolves
exactly as the genuine reference to f; a reference named + resolves to
the core native in a module that could hold its own +; the interned
reference to g resolves to nothing inside module A. -/
theorem call_static_resolves_by_name_only_witness :
    resolveCallStatic c10ModA
        { package := "X", module := "Y", name := "f", shape := shapeUnknown } =
      resolveCallStatic c10ModA
        { package := "Main", module := "A", name := "f", shape := shapeFloat } ∧
    resolveCallStatic c10ModA
        { package := "Main", module := "A", name := "+", shape := shapeUnknown } =
      some (RtFunc.native CoreOp.add) ∧
    resolveCallStatic c10ModA c10RefG = none :=
  ⟨call_static_resolves_by_name_only.1 c10ModA _ _ rfl,
   call_static_resolves_by_name_only.2.1 c10ModA CoreOp.add _ rfl,
   call_static_resolves_by_name_only.2.2.1 c10ModA c10RefG rfl rfl⟩

/-- C8: each Core arithmetic native built by op in src/lib_core.rs returns
Ok(Float(l op r)) exactly on an argument vector of two Floats l and r,
and the descriptive arity-and-kind failure on every other vector; each
comparison native likewise returns True or False exactly on two Floats
and the failure otherwise; core_module registers the ten natives each
under exactly its operator symbol. -/
theorem core_native_validation :
    (∀ (name : String) (opf : F64 → F64 → F64) (l r : F64),
        libCoreFloatOp name opf [Value.float l, Value.float r] =
          Except.ok (Value.float (opf l r))) ∧
    (∀ (name : String) (opf : F64 → F64 → F64) (args : List Value),
        (∀ l r, args ≠ [Value.float l, Value.float r]) →
        libCoreFloatOp name opf args =
          Except.error (name ++ " takes exactly two float arguments")) ∧
    (∀ (name : String) (opf : F64 → F64 → Bool) (l r : F64),
        libCoreFloatCompareOp name opf [Value.float l, Value.float r] =
          Except.ok (if opf l r then Value.vtrue else Value.vfalse)) ∧
    (∀ (name : String) (opf : F64 → F64 → Bool) (args : List Value),
        (∀ l r, args ≠ [Value.float l, Value.float r]) →
        libCoreFloatCompareOp name opf args =
          Except.error (name ++ " takes exactly two float arguments")) ∧
    (∀ fops : FloatOps, (coreModuleNatives fops).map Prod.fst =
        ["+", "-", "*", "/", "==", "!=", ">", ">=", "<", "<="]) := by
  refine ⟨?_, ?_, ?_, ?_, ?_⟩
  · intro name opf l r
    rfl
  · intro name opf args hne
    rw [libCoreFloatOp, libCoreOp_eq]
    rcases twoFloats_spec args with ⟨l, r, rfl, _⟩ | ⟨h, _⟩
    · exact absurd rfl (hne l r)
    · rw [h]
  · intro name opf l r
    rfl
  · intro name opf args hne
    rw [libCoreFloatCompareOp, libCoreOp_eq]
    rcases twoFloats_spec args with ⟨l, r, rfl, _⟩ | ⟨h, _⟩
    · exact absurd rfl (hne l r)
    · rw [h]
  · intro fops
    rfl

/-- C8 witness: the validation behavior applied at concrete inputs: a
one-element vector and a two-element vector with a non-Float member both
draw the descriptive failure. -/
theorem core_native_validation_witness :
    libCoreFloatOp "+" trivFloatOps.add [Value.null] =
      Except.error ("+ takes exactly two float arguments") ∧
    libCoreFloatCompareOp "<" trivFloatOps.flt [Value.float 0, Value.vtrue] =
      Except.error ("< takes exactly two float arguments") :=
  ⟨core_native_validation.2.1 "+" trivFloatOps.add [Value.null]
      (by intro l r h; simp at h),
   core_native_validation.2.2.2.1 "<" trivFloatOps.flt [Value.float 0, Value.vtrue]
      (by intro l r h; simp at h)⟩

/-!
Concrete functions used by the claims about handles and tail calls.
-/

/-- c1Fun is a function f whose whole body is a static call to itself in
tail position: the canonical self tail loop. -/
def c1Fun : BitFunction :=
  { package := "Main", module := "A", name := "f", maxLocals := 0,
    body := [Instruction.callStatic 0, Instruction.ret],
    shape := Shape.simpleFunctionShape [] shapeFloat }

/-- c1Ref is the interned reference to c1Fun. -/
def c1Ref : FunctionRef :=
  { package := "Main", module := "A", name := "f",
    shape := Shape.simpleFunctionShape [] shapeFloat }

/-- c1Mod is the module holding only the self tail loop f. -/
def c1Mod : BitModuleRT :=
  { stringConstants := [], functionRefs := [c1Ref],
    functions := [("f", RtFunc.bit c1Fun)], shapeRefs := [] }

/-- c1Machine installs the self tail loop module. -/
def c1Machine : Machine :=
  { packages := [("Main", [("A", c1Mod)])], fops := trivFloatOps }

/-- c1gFun is a function g of the same module as c1fgFun, returning
Null. -/
def c1gFun : BitFunction :=
  { package := "Main", module := "A", name := "g", maxLocals := 0,
    body := [Instruction.loadConstNull, Instruction.ret],
    shape := Shape.simpleFunctionShape [] shapeFloat }

/-- c1gRef is the interned reference to g. -/
def c1gRef : FunctionRef :=
  { package := "Main", module := "A", name := "g",
    shape := Shape.simpleFunctionShape [] shapeFloat }

/-- c1fgFun is a function f whose body statically calls g, a different
function of the same module, with the call in tail position (the next
instruction is Return). -/
def c1fgFun : BitFunction :=
  { package := "Main", module := "A", name := "f", maxLocals := 0,
    body := [Instruction.callStatic 0, Instruction.ret],
    shape := Shape.simpleFunctionShape [] shapeFloat }

/-- c1Mod2 is the module holding f and g with f calling g in tail
position. -/
def c1Mod2 : BitModuleRT :=
  { stringConstants := [], functionRefs := [c1gRef],
    functions := [("f", RtFunc.bit c1fgFun), ("g", RtFunc.bit c1gFun)], shapeRefs := [] }

/-- c1Machine2 installs the f-and-g module. -/
def c1Machine2 : Machine :=
  { packages := [("Main", [("A", c1Mod2)])], fops := trivFloatOps }

theorem c1_selfloop_cycle : ∀ steps : Nat,
    mrun c1Machine 0 steps (MJob.outerLoop c1Mod c1Fun []) = Res.stepsOut ∧
    mrun c1Machine 0 steps (MJob.dispatch c1Mod c1Fun [] 0 []) = Res.stepsOut := by
  intro steps
  induction steps with
  | zero => exact ⟨rfl, rfl⟩
  | succ n ih => exact ⟨ih.2, ih.1⟩

/-- C1 counterexample: the claim says the tail call fires regardless of
which function is being called.  In c1Machine2 the instruction after the
CallStatic to g is Return, yet the tail-call guard rejects g (it is not
the executing function f), the machine performs a recursive host call
instead (host depth 0 is exhausted), and granting one level of host
stack the same run completes normally. -/
theorem tco_other_function_counterexample :
    tailTarget c1fgFun (RtFunc.bit c1gFun) [] = none ∧
    execFunc c1Machine2 0 20 (RtFunc.bit c1fgFun) [] = Res.hostOut ∧
    execFunc c1Machine2 1 20 (RtFunc.bit c1fgFun) [] = Res.ok Value.null :=
  ⟨rfl, rfl, rfl⟩

/-- C1 (amended): when the instruction after a CallStatic or CallDynamic
is Return, the call is executed as a tail call exactly when the callee
unwraps to a BitFunction whose package, module and name all equal those
of the currently executing function (a self call); the replacement locals
are the unwrapped prefix followed by the parameters.  Such self tail
calls consume no host stack: the unconditional self tail loop runs
forever at host depth 0, exhausting any step budget without ever
requesting a host call. -/
theorem tail_call_fires_only_for_self :
    (∀ (cur : BitFunction) (callee : RtFunc) (params l : List Value),
        tailTarget cur callee params = some l ↔
          ∃ nf pre, callee.unwrapBit = some (nf, pre) ∧ cur.package = nf.package ∧
            cur.module = nf.module ∧ cur.name = nf.name ∧ l = pre ++ params) ∧
    (∀ steps : Nat, execFunc c1Machine 0 steps (RtFunc.bit c1Fun) [] = Res.stepsOut) := by
  constructor
  · intro cur callee params l
    unfold tailTarget
    cases h : callee.unwrapBit with
    | none => simp
    | some p =>
        obtain ⟨nf, pre⟩ := p
        by_cases hc : cur.package = nf.package ∧ cur.module = nf.module ∧ cur.name = nf.name
        · simp only [if_pos hc]
          constructor
          · rintro h'
            injection h' with h'
            exact ⟨nf, pre, rfl, hc.1, hc.2.1, hc.2.2, h'.symm⟩
          · rintro ⟨nf', pre', heq, h1, h2, h3, rfl⟩
            injection heq with heq
            injection heq with e1 e2
            subst e1
            subst e2
            rfl
        · simp only [if_neg hc]
          constructor
          · rintro h'
            exact absurd h' (by simp)
          · rintro ⟨nf', pre', heq, h1, h2, h3, rfl⟩
            injection heq with heq
            injection heq with e1 e2
            subst e1
            exact absurd ⟨h1, h2, h3⟩ hc
  · intro steps
    match steps with
    | 0 => rfl
    | n + 1 => exact (c1_selfloop_cycle n).1

/-- c3Bf is a plain BitFunction wrapped by the composed handles of the
handle-composition claim. -/
def c3Bf : BitFunction :=
  { package := "Main", module := "A", name := "h", maxLocals := 3,
    body := [Instruction.ret],
    shape := Shape.simpleFunctionShape [shapeFloat] shapeFloat }

/-- c3R is a Recursive handle wrapping a Closure handle (capturing the
single value True) wrapping the plain handle of c3Bf. -/
def c3R : RtFunc := RtFunc.recursive (RtFunc.closure (RtFunc.bit c3Bf) [Value.vtrue])

/-- C3 counterexample: the claim puts the re-wrapped recursive self first,
but unwrap_as_bit_function yields the captured values first and the self
handle after them: for a single captured value True the prefix is
[True, self], not [self, True]. -/
theorem handle_composition_order_counterexample :
    RtFunc.unwrapBit c3R = some (c3Bf, [Value.vtrue, Value.function c3R]) ∧
    [Value.vtrue, Value.function c3R] ≠ [Value.function c3R, Value.vtrue] := by
  constructor
  · rfl
  · intro h
    injection h with h1 _
    simp at h1

/-- C3 (amended): invoking a Recursive handle wrapping a Closure handle
wrapping a Plain handle prepares the callee's locals in the order
[...captured, self_handle, ...args] on both paths: the unwrap path
produces the prefix captured ++ [self] and the tail-call site appends the
popped arguments after it; the direct-execute path enters the plain
function with locals captured ++ self :: args. -/
theorem recursive_closure_plain_locals_order (bf : BitFunction) (captured : List Value) :
    (RtFunc.unwrapBit (RtFunc.recursive (RtFunc.closure (RtFunc.bit bf) captured)) =
      some (bf, captured ++
        [Value.function (RtFunc.recursive (RtFunc.closure (RtFunc.bit bf) captured))])) ∧
    (∀ params : List Value,
      tailTarget bf (RtFunc.recursive (RtFunc.closure (RtFunc.bit bf) captured)) params =
        some (captured ++
          Value.function (RtFunc.recursive (RtFunc.closure (RtFunc.bit bf) captured))
            :: params)) ∧
    (∀ (m : Machine) (hostFuel steps : Nat) (args : List Value),
      execFunc m hostFuel (steps + 2)
          (RtFunc.recursive (RtFunc.closure (RtFunc.bit bf) captured)) args =
        mrun m hostFuel steps (MJob.callRun (RtFunc.bit bf)
          (captured ++
            Value.function (RtFunc.recursive (RtFunc.closure (RtFunc.bit bf) captured))
              :: args))) := by
  refine ⟨?_, ?_, ?_⟩
  · simp [RtFunc.unwrapBit]
  · intro params
    simp [tailTarget, RtFunc.unwrapBit]
  · intro m hostFuel steps args
    rfl

/-!
Concrete functions used by the claim about runtime faults: a StoreValue
whose slot is out of range, and a CallStatic as the last instruction of
a body.
-/

/-- c5Fun stores into local slot 5 although max_locals is 1. -/
def c5Fun : BitFunction :=
  { package := "Main", module := "A", name := "s", maxLocals := 1,
    body := [Instruction.loadConstNull, Instruction.storeValue 5],
    shape := Shape.simpleFunctionShape [] shapeFloat }

/-- c5TailRef is the interned reference used by the trailing call. -/
def c5TailRef : FunctionRef :=
  { package := "Main", module := "A", name := "t",
    shape := Shape.simpleFunctionShape [] shapeFloat }

/-- c5TailFun ends its body with a CallStatic and no following
instruction. -/
def c5TailFun : BitFunction :=
  { package := "Main", module := "A", name := "t", maxLocals := 0,
    body := [Instruction.callStatic 0],
    shape := Shape.simpleFunctionShape [] shapeFloat }

/-- c5Mod holds both faulting functions. -/
def c5Mod : BitModuleRT :=
  { stringConstants := [], functionRefs := [c5TailRef],
    functions := [("s", RtFunc.bit c5Fun), ("t", RtFunc.bit c5TailFun)], shapeRefs := [] }

/-- c5Machine installs the faulting module. -/
def c5Machine : Machine :=
  { packages := [("Main", [("A", c5Mod)])], fops := trivFloatOps }

/-- C5: Machine::execute writes locals[index] without a bounds check in
the StoreValue arm (src/interpreter.rs line 136) and reads
func.body[index + 1] without a bounds check in the call lookahead (lines
161 and 193), so a StoreValue whose slot is out of range and a CallStatic
appearing as the last instruction of a body abort the host by panic
instead of returning an error value. -/
theorem store_value_and_trailing_call_crash :
    execFunc c5Machine 5 20 (RtFunc.bit c5Fun) [] =
      Res.crash "index out of bounds: locals in StoreValue" ∧
    execFunc c5Machine 5 20 (RtFunc.bit c5TailFun) [] =
      Res.crash "index out of bounds: call lookahead" :=
  ⟨rfl, rfl⟩

/-!
IR section: the enum Ir of src/ir.rs and the three optimizer passes of
src/optimize/.  The Rust passes walk Vec bodies in place with explicit
indices; they are embedded as recursive functions over lists, walking
reversed lists where the source walks from the back.  The load/store pass
computes body.len() - 2 on usize, which wraps around when the body is
shorter than two instructions and makes the loop overrun the Vec: runs
that panic this way are embedded as none.
-/

/-- Ir embeds the enum Ir of src/ir.rs: stack operations over named
locals, with nested branch blocks. -/
inductive Ir where
  | noOp
  | duplicate
  | pop
  | swap
  | loadConstNull
  | loadConstTrue
  | loadConstFalse
  | loadConstString (value : String)
  | loadConstFunction (value : FunctionRef)
  | loadConstFloat (value : F64)
  | loadValue (localName : String)
  | storeValue (localName : String)
  | callStatic (func : FunctionRef)
  | callDynamic (paramCount : Nat)
  | buildClosure (paramCount : Nat) (func : FunctionRef)
  | buildRecursiveFunction
  | ret
  | branch (thenBlock : List Ir) (elseBlock : List Ir)
  | debug
  | errorIr
  | freeLocal (localName : String)

mutual

/-- irSize counts Ir nodes, descending into branch blocks; it is the
termination measure of the embedded optimizer passes. -/
def irSize : Ir → Nat
  | Ir.branch t e => 1 + irSizeList t + irSizeList e
  | _ => 1

/-- irSizeList sums irSize over a block. -/
def irSizeList : List Ir → Nat
  | [] => 0
  | i :: rest => irSize i + irSizeList rest

end

theorem irSizeList_append (a b : List Ir) :
    irSizeList (a ++ b) = irSizeList a + irSizeList b := by
  induction a with
  | nil => simp [irSizeList]
  | cons i rest ih => simp [irSizeList, ih]; omega

theorem irSizeList_reverse (a : List Ir) : irSizeList a.reverse = irSizeList a := by
  induction a with
  | nil => rfl
  | cons i rest ih => simp [irSizeList, List.reverse_cons, irSizeList_append, ih]; omega

theorem irSize_pos (i : Ir) : 1 ≤ irSize i := by
  cases i <;> simp [irSize] <;> omega

mutual

/-- liftReturnRev is the walk of lift_return of
src/optimize/lift_return_optimizer.rs over the reversed body: a Return
immediately preceded (in the original order) by a Branch is pushed into
both blocks, each block is recursively processed with its appended
Return, and the outer Return is removed; the walk then continues before
the Branch. -/
def liftReturnRev : List Ir → List Ir
  | [] => []
  | i :: rest =>
      match i with
      | Ir.ret =>
          match rest with
          | [] => [Ir.ret]
          | j :: rest' =>
              match j with
              | Ir.branch t e =>
                  Ir.branch (liftReturn (t ++ [Ir.ret])) (liftReturn (e ++ [Ir.ret]))
                    :: liftReturnRev rest'
              | jOther => Ir.ret :: liftReturnRev (jOther :: rest')
      | iOther => iOther :: liftReturnRev rest
termination_by l => 2 * irSizeList l
decreasing_by
  all_goals
    simp only [irSizeList, irSize, irSizeList_append, irSizeList_reverse]
  all_goals
    first
      | omega
      | (have hpos := irSize_pos iOther; omega)
      | (have hpos := irSize_pos jOther; omega)

/-- liftReturn embeds lift_return of
src/optimize/lift_return_optimizer.rs, the walk from the back of the
body expressed through the reversed list. -/
def liftReturn (body : List Ir) : List Ir :=
  (liftReturnRev body.reverse).reverse
termination_by 2 * irSizeList body + 1
decreasing_by
  simp only [irSizeList_reverse]
  omega

end

/-- liftReturnOpt embeds lift_return_opt: the whole-body entry point of
the pass; an empty body underflows the initial index computation of the
source (body.len() - 1 on usize) and panics, embedded as none. -/
def liftReturnOpt (body : List Ir) : Option (List Ir) :=
  if body.isEmpty then none else some (liftReturn body)

mutual

/-- freeLocalRev is the walk of free_local of
src/optimize/free_local_optimizer.rs over the reversed body, carrying the
known-locals list: the first LoadValue of an unknown local (last in the
original order) gets a FreeLocal marker inserted right after it and the
local becomes known; branch blocks are processed recursively with a
snapshot of the known list, which they do not extend. -/
def freeLocalRev : List Ir → List String → List Ir
  | [], _ => []
  | i :: rest, known =>
      match i with
      | Ir.loadValue x =>
          if known.contains x then Ir.loadValue x :: freeLocalRev rest known
          else Ir.freeLocal x :: Ir.loadValue x :: freeLocalRev rest (x :: known)
      | Ir.branch t e =>
          Ir.branch (freeLocalBody t known) (freeLocalBody e known)
            :: freeLocalRev rest known
      | iOther => iOther :: freeLocalRev rest known
termination_by l _ => 2 * irSizeList l
decreasing_by
  all_goals
    simp only [irSizeList, irSize, irSizeList_append, irSizeList_reverse]
  all_goals
    first
      | omega
      | (have hpos := irSize_pos iOther; omega)

/-- freeLocalBody embeds free_local of
src/optimize/free_local_optimizer.rs applied to one body with the known
locals inherited from the enclosing walk. -/
def freeLocalBody (body : List Ir) (prev : List String) : List Ir :=
  (freeLocalRev body.reverse prev).reverse
termination_by 2 * irSizeList body + 1
decreasing_by
  simp only [irSizeList_reverse]
  omega

end

/-- freeLocalOpt embeds free_local_opt: the pass entry point with an
empty known-locals list. -/
def freeLocalOpt (body : List Ir) : List Ir :=
  freeLocalBody body []

mutual

/-- loadStoreLoop is one iteration of the scan of load_store of
src/optimize/load_store_optimizer.rs: prefixLen is the current index
(the number of already-emitted instructions), s the rest of the body.
The loop guard index < body.len() - 2 wraps on usize whenever the whole
body has shrunk below two instructions, making the loop overrun the Vec
and panic: that situation is none.  Otherwise the loop stops when fewer
than three instructions remain.  A Store(x); Load(x); Free(x) triple is
deleted; a Store(x); Load(x); other pair becomes Duplicate; Store(x)
with the index advanced past the Duplicate; branch blocks are processed
recursively by the whole pass. -/
def loadStoreLoop (prefixLen : Nat) (s : List Ir) : Option (List Ir) :=
  if prefixLen + s.length < 2 then none
  else
    match s with
    | a :: b :: c :: rest =>
        match a with
        | Ir.branch t e => do
            let t' ← loadStore t
            let e' ← loadStore e
            let tail ← loadStoreLoop (prefixLen + 1) (b :: c :: rest)
            some (Ir.branch t' e' :: tail)
        | Ir.storeValue x =>
            match b with
            | Ir.loadValue y =>
                if x = y then
                  match c with
                  | Ir.freeLocal z =>
                      if z = y then
                        loadStoreLoop prefixLen rest
                      else do
                        let tail ←
                          loadStoreLoop (prefixLen + 1) (Ir.loadValue y :: Ir.freeLocal z :: rest)
                        some (a :: tail)
                  | cOther => do
                      let tail ← loadStoreLoop (prefixLen + 1) (Ir.storeValue x :: cOther :: rest)
                      some (Ir.duplicate :: tail)
                else do
                  let tail ← loadStoreLoop (prefixLen + 1) (Ir.loadValue y :: c :: rest)
                  some (a :: tail)
            | bOther => do
                let tail ← loadStoreLoop (prefixLen + 1) (bOther :: c :: rest)
                some (a :: tail)
        | aOther => do
            let tail ← loadStoreLoop (prefixLen + 1) (b :: c :: rest)
            some (aOther :: tail)
    | other => some other
termination_by 2 * irSizeList s
decreasing_by
  all_goals
    simp only [irSizeList, irSize, irSizeList_append, irSizeList_reverse]
  all_goals
    first
      | omega
      | (have hpos := irSize_pos aOther; omega)

/-- loadStore embeds load_store of
src/optimize/load_store_optimizer.rs applied to one body. -/
def loadStore (body : List Ir) : Option (List Ir) :=
  loadStoreLoop 0 body
termination_by 2 * irSizeList body + 1
decreasing_by
  omega

end

/-- optimizePipeline embeds Optimizer::optimize of src/optimize/mod.rs on
a function body: lift_return_opt, then free_local_opt, then
load_store_opt, in that order. -/
def optimizePipeline (body : List Ir) : Option (List Ir) :=
  (liftReturnOpt body).bind (fun b1 => loadStore (freeLocalOpt b1))

/-- plainIr recognizes instructions that none of the three optimizer
passes rewrites: everything except LoadValue (which triggers the
free-local insertion and the load/store patterns) and Branch (which the
passes recurse into). -/
def plainIr : Ir → Bool
  | Ir.loadValue _ => false
  | Ir.branch _ _ => false
  | _ => true

theorem liftReturnRev_plain : ∀ l : List Ir, l.all plainIr = true → liftReturnRev l = l
  | [], _ => by simp [liftReturnRev]
  | i :: rest, h => by
      simp only [List.all_cons, Bool.and_eq_true] at h
      obtain ⟨hi, hrest⟩ := h
      have ihrest := liftReturnRev_plain rest hrest
      cases i <;>
        first
          | (rw [liftReturnRev.eq_def]; simp [ihrest]; done)
          | (cases rest with
              | nil => simp [liftReturnRev.eq_def]
              | cons j rest' =>
                  simp only [List.all_cons, Bool.and_eq_true] at hrest
                  cases j <;> (rw [liftReturnRev.eq_def]; simp_all [plainIr]))

theorem freeLocalRev_plain :
    ∀ (l : List Ir) (known : List String), l.all plainIr = true → freeLocalRev l known = l
  | [], _, _ => by simp [freeLocalRev]
  | i :: rest, known, h => by
      simp only [List.all_cons, Bool.and_eq_true] at h
      obtain ⟨hi, hrest⟩ := h
      have ihrest := freeLocalRev_plain rest known hrest
      cases i <;>
        first
          | (rw [freeLocalRev.eq_def]; simp [ihrest]; done)
          | (simp [plainIr] at hi)

theorem loadStoreLoop_plain : ∀ (prefixLen : Nat) (s : List Ir), s.all plainIr = true →
    2 ≤ prefixLen + s.length → loadStoreLoop prefixLen s = some s
  | prefixLen, [], _, h2 => by
      unfold loadStoreLoop
      rw [if_neg (by simp only [List.length_cons, List.length_nil] at h2 ⊢; omega)]
  | prefixLen, [a], _, h2 => by
      unfold loadStoreLoop
      rw [if_neg (by simp only [List.length_cons, List.length_nil] at h2 ⊢; omega)]
  | prefixLen, [a, b], _, h2 => by
      unfold loadStoreLoop
      rw [if_neg (by simp only [List.length_cons, List.length_nil] at h2 ⊢; omega)]
  | prefixLen, a :: b :: c :: rest, h, h2 => by
      simp only [List.all_cons, Bool.and_eq_true] at h
      obtain ⟨ha, hb, hc, hrest⟩ := h
      have ih := loadStoreLoop_plain (prefixLen + 1) (b :: c :: rest)
        (by simp_all) (by simp only [List.length_cons] at h2 ⊢; omega)
      unfold loadStoreLoop
      rw [if_neg (by simp only [List.length_cons, List.length_nil] at h2 ⊢; omega)]
      cases a <;>
        first
          | (simp_all [Option.bind, plainIr]; done)
          | (cases b <;> (simp_all [Option.bind, plainIr]; done))

theorem all_plainIr_reverse (l : List Ir) (h : l.all plainIr = true) :
    l.reverse.all plainIr = true := by
  simp only [List.all_eq_true] at h ⊢
  intro x hx
  exact h x (List.mem_reverse.mp hx)

/-- C6 counterexample: the pipeline applied to the body
[LoadValue x, Return] yields [LoadValue x, FreeLocal x, Return]; applied
again it yields [LoadValue x, FreeLocal x, FreeLocal x, Return]: the
free-local pass inserts a second FreeLocal marker for the local that
already has one, so twice differs from once. -/
theorem optimizer_not_idempotent_counterexample :
    optimizePipeline [Ir.loadValue "x", Ir.ret] =
      some [Ir.loadValue "x", Ir.freeLocal "x", Ir.ret] ∧
    optimizePipeline [Ir.loadValue "x", Ir.freeLocal "x", Ir.ret] =
      some [Ir.loadValue "x", Ir.freeLocal "x", Ir.freeLocal "x", Ir.ret] ∧
    ([Ir.loadValue "x", Ir.freeLocal "x", Ir.freeLocal "x", Ir.ret] : List Ir) ≠
      [Ir.loadValue "x", Ir.freeLocal "x", Ir.ret] := by
  have e1 : liftReturn [Ir.loadValue "x", Ir.ret] = [Ir.loadValue "x", Ir.ret] := by
    rw [liftReturn.eq_def]
    simp [liftReturnRev.eq_def]
  have e2 : liftReturn [Ir.loadValue "x", Ir.freeLocal "x", Ir.ret] =
      [Ir.loadValue "x", Ir.freeLocal "x", Ir.ret] := by
    rw [liftReturn.eq_def]
    simp [liftReturnRev.eq_def]
  have f1 : freeLocalOpt [Ir.loadValue "x", Ir.ret] =
      [Ir.loadValue "x", Ir.freeLocal "x", Ir.ret] := by
    rw [freeLocalOpt, freeLocalBody.eq_def]
    simp [freeLocalRev.eq_def, List.contains]
  have f2 : freeLocalOpt [Ir.loadValue "x", Ir.freeLocal "x", Ir.ret] =
      [Ir.loadValue "x", Ir.freeLocal "x", Ir.freeLocal "x", Ir.ret] := by
    rw [freeLocalOpt, freeLocalBody.eq_def]
    simp [freeLocalRev.eq_def, List.contains]
  have g1 : loadStore [Ir.loadValue "x", Ir.freeLocal "x", Ir.ret] =
      some [Ir.loadValue "x", Ir.freeLocal "x", Ir.ret] := by
    rw [loadStore.eq_def]
    simp [loadStoreLoop.eq_def]
  have g2 : loadStore [Ir.loadValue "x", Ir.freeLocal "x", Ir.freeLocal "x", Ir.ret] =
      some [Ir.loadValue "x", Ir.freeLocal "x", Ir.freeLocal "x", Ir.ret] := by
    rw [loadStore.eq_def]
    simp [loadStoreLoop.eq_def]
  refine ⟨?_, ?_, by simp⟩
  · simp [optimizePipeline, liftReturnOpt, e1, f1, g1, Option.bind]
  · simp [optimizePipeline, liftReturnOpt, e2, f2, g2, Option.bind]

/-- C6 (amended): the optimizer pipeline is not idempotent in general:
the free-local pass inserts a FreeLocal after the last load of each local
even when that marker is already present, so re-running the pipeline
grows such bodies.  On every body of length at least two containing no
LoadValue and no Branch instruction the three passes rewrite nothing, the
pipeline is the identity, and applying it twice equals applying it
once. -/
theorem optimizer_pipeline_identity_on_plain_bodies :
    ∀ body : List Ir, body.all plainIr = true → 2 ≤ body.length →
      optimizePipeline body = some body ∧
      (optimizePipeline body).bind optimizePipeline = optimizePipeline body := by
  intro body h h2
  have hrev := all_plainIr_reverse body h
  have hlr : liftReturn body = body := by
    unfold liftReturn
    rw [liftReturnRev_plain body.reverse hrev, List.reverse_reverse]
  have hfl : freeLocalOpt body = body := by
    unfold freeLocalOpt freeLocalBody
    rw [freeLocalRev_plain body.reverse [] hrev, List.reverse_reverse]
  have hls : loadStore body = some body := by
    rw [loadStore.eq_def]
    exact loadStoreLoop_plain 0 body h (by omega)
  have hpipe : optimizePipeline body = some body := by
    unfold optimizePipeline liftReturnOpt
    rw [if_neg (by cases body with | nil => simp at h2 | cons x r => simp)]
    simp [Option.bind, hlr, hfl, hls]
  refine ⟨hpipe, ?_⟩
  rw [hpipe]
  simpa [Option.bind] using hpipe

/-- C6 witness: the identity behaviour evaluated on the concrete plain
body [LoadConstNull, Return]. -/
theorem optimizer_pipeline_identity_witness :
    optimizePipeline [Ir.loadConstNull, Ir.ret] = some [Ir.loadConstNull, Ir.ret] ∧
    (optimizePipeline [Ir.loadConstNull, Ir.ret]).bind optimizePipeline =
      optimizePipeline [Ir.loadConstNull, Ir.ret] :=
  optimizer_pipeline_identity_on_plain_bodies [Ir.loadConstNull, Ir.ret]
    (by decide) (by decide)

/-!
Type checker section: embedding of src/typechecker.rs.  Rust Vec stacks
(block_stack, closures) are embedded as lists with the head as the most
recently pushed (innermost) entry; where the source iterates a Vec from
index 0 the embedding iterates the reversed list.  HashMaps are
association lists whose head shadows later entries, matching insert
semantics.  Panics from .expect()/.unwrap() on empty stacks are the
distinct crash outcome.  The source matches an Expression::Import variant
whose checker arm is the identity; imports are outside the embedded
module model, which covers import-free modules.
-/

mutual

/-- Shape.pretty embeds Shape::pretty of src/shapes.rs. -/
def Shape.pretty : Shape → String
  | Shape.genericShapeConstructor base args =>
      base.pretty ++ "[" ++ String.intercalate ", " (List.replicate args "_") ++ "]"
  | Shape.genericShape base args =>
      base.pretty ++ "[" ++ String.intercalate ", " (Shape.prettyList args) ++ "]"
  | Shape.simpleFunctionShape args result =>
      "\x7b " ++ String.intercalate ", " (Shape.prettyList args) ++ " -> " ++
        result.pretty ++ " \x7d"
  | Shape.baseShape BaseShapeKind.boolean => "Boolean"
  | Shape.baseShape BaseShapeKind.float => "Float"
  | Shape.baseShape BaseShapeKind.string => "String"
  | Shape.baseShape BaseShapeKind.unit => "Unit"
  | Shape.baseShape BaseShapeKind.list => "List"
  | Shape.namedShape name => name
  | Shape.unknownShape => "Unknown"

/-- Shape.prettyList maps Shape.pretty over a list of shapes. -/
def Shape.prettyList : List Shape → List String
  | [] => []
  | s :: rest => s.pretty :: Shape.prettyList rest

end

/-- Parameter embeds the struct Parameter of src/ast.rs. -/
structure Parameter where
  id : String
  shape : Shape
  deriving DecidableEq

/-- FunctionContext embeds the struct FunctionContext of src/ast.rs. -/
structure FunctionContext where
  isLocal : Bool
  isLambda : Bool
  isRecursive : Bool
  closures : List Parameter
  deriving DecidableEq

/-- FunctionContext.new embeds FunctionContext::new. -/
def FunctionContext.new (isLocal isLambda : Bool) : FunctionContext :=
  { isLocal := isLocal, isLambda := isLambda, isRecursive := false, closures := [] }

/-- Expr embeds the enum Expression of src/ast.rs (without the Import
variant, whose checker arm is the identity). -/
inductive Expr where
  | noOp (loc : Location)
  | functionDeclaration (result : Shape) (loc : Location) (id : String)
      (args : List Parameter) (body : Expr) (context : FunctionContext)
  | assignment (shape : Shape) (loc : Location) (id : String) (body : Expr)
  | var (shape : Shape) (loc : Location) (id : String)
  | binaryOp (shape : Shape) (loc : Location) (op : String) (left : Expr) (right : Expr)
  | call (shape : Shape) (loc : Location) (func : Expr) (args : List Expr)
  | ifEx (shape : Shape) (loc : Location) (condition : Expr) (thenBlock : Expr)
      (elseBlock : Expr)
  | block (shape : Shape) (loc : Location) (body : List Expr)
  | stringLiteral (shape : Shape) (loc : Location) (value : String)
  | numberLiteral (shape : Shape) (loc : Location) (value : F64)
  | booleanLiteral (loc : Location) (value : Bool)

/-- Expr.shape embeds Expression::shape of src/ast.rs: NoOp is Unit, a
function declaration assembles its function shape from its declared
arguments and result, a boolean literal is Boolean, everything else
carries its shape field. -/
def Expr.shape : Expr → Shape
  | Expr.noOp _ => shapeUnit
  | Expr.functionDeclaration result _ _ args _ _ =>
      Shape.simpleFunctionShape (args.map Parameter.shape) result
  | Expr.assignment shape _ _ _ => shape
  | Expr.var shape _ _ => shape
  | Expr.binaryOp shape _ _ _ _ => shape
  | Expr.call shape _ _ _ => shape
  | Expr.ifEx shape _ _ _ _ => shape
  | Expr.block shape _ _ => shape
  | Expr.stringLiteral shape _ _ => shape
  | Expr.numberLiteral shape _ _ => shape
  | Expr.booleanLiteral _ _ => shapeBoolean

mutual

/-- exprSize counts Expr nodes; it is the termination measure of the
embedded checker. -/
def exprSize : Expr → Nat
  | Expr.functionDeclaration _ _ _ _ body _ => 1 + exprSize body
  | Expr.assignment _ _ _ body => 1 + exprSize body
  | Expr.binaryOp _ _ _ l r => 1 + exprSize l + exprSize r
  | Expr.call _ _ func args => 1 + exprSize func + exprSizeList args
  | Expr.ifEx _ _ c t e => 1 + exprSize c + exprSize t + exprSize e
  | Expr.block _ _ body => 1 + exprSizeList body
  | _ => 1

/-- exprSizeList sums exprSize over a list. -/
def exprSizeList : List Expr → Nat
  | [] => 0
  | e :: rest => exprSize e + exprSizeList rest

end

/-- exprPairsSize sums exprSize over the expression components of a
zipped expected-shape and argument list. -/
def exprPairsSize : List (Shape × Expr) → Nat
  | [] => 0
  | (_, e) :: rest => exprSize e + exprPairsSize rest

theorem exprPairsSize_zip_le : ∀ (ea : List Shape) (args : List Expr),
    exprPairsSize (List.zip ea args) ≤ exprSizeList args
  | [], _ => by simp [List.zip, exprPairsSize]
  | _ :: _, [] => by simp [List.zip, exprPairsSize]
  | sh :: ea, e :: args => by
      simp only [List.zip_cons_cons, exprPairsSize, exprSizeList]
      have h := exprPairsSize_zip_le ea args
      simp only [List.zip] at h ⊢
      omega

theorem exprSize_pos (e : Expr) : 1 ≤ exprSize e := by
  cases e <;> simp [exprSize] <;> omega

/-- CkErr separates the two ways the checker aborts: a returned
SimpleError carrying a message, or a host panic from .expect()/.unwrap()
on an empty stack. -/
inductive CkErr where
  | failure (msg : String)
  | crash
  deriving DecidableEq

/-- CkM is the checker's result monad. -/
abbrev CkM (α : Type) : Type := Except CkErr α

/-- liftFill converts a fill_shape result into the checker monad. -/
def liftFill : Except String Shape → CkM Shape
  | Except.ok s => Except.ok s
  | Except.error m => Except.error (CkErr.failure m)

/-- containsKey embeds HashMap::contains_key on an association list. -/
def containsKey (l : List (String × Shape)) (key : String) : Bool :=
  (lookupA l key).isSome

/-- TScope embeds the struct Scope of src/typechecker.rs.  blockStack:
head = innermost function scope; within one function scope, head =
innermost block; within a block, head = most recent insert.  closures:
head = innermost function's closure list, entries in push order. -/
structure TScope where
  staticScope : List (String × Shape)
  blockStack : List (List (List (String × Shape)))
  closures : List (List Parameter)

/-- TScope.new embeds Scope::new. -/
def TScope.new : TScope := { staticScope := [], blockStack := [], closures := [] }

/-- preFill embeds Scope::pre_fill_module_function: fill the shape and
insert it into the static scope (insertion shadows any older entry). -/
def preFill (sc : TScope) (id : String) (shape : Shape) (loc : Location) : CkM TScope := do
  let filled ← liftFill (fillShape shape loc)
  Except.ok { sc with staticScope := (id, filled) :: sc.staticScope }

/-- setScope embeds Scope::set_scope: insert into the innermost block of
the innermost function scope; redeclaration there is an error; an empty
stack panics. -/
def setScope (sc : TScope) (id : String) (shape : Shape) (loc : Location) : CkM TScope :=
  match sc.blockStack with
  | [] => Except.error CkErr.crash
  | blocks :: fns =>
      match blocks with
      | [] => Except.error CkErr.crash
      | b :: bs =>
          if containsKey b id then
            Except.error (CkErr.failure ("Redeclaration of variable: " ++ id ++ " " ++ loc.pretty))
          else
            Except.ok { sc with blockStack := (((id, shape) :: b) :: bs) :: fns }

/-- findInBlocks searches the blocks of one function scope in the order
the source iterates them: Vec index order, which is outermost first. -/
def findInBlocks : List (List (String × Shape)) → String → Option Shape
  | [], _ => none
  | b :: bs, id =>
      match lookupA b id with
      | some shape => some shape
      | none => findInBlocks bs id

/-- findInFnScopes searches function scopes from a starting point,
returning the found shape; used for the scopes after the innermost. -/
def findInFnScopes : List (List (List (String × Shape))) → String → Option Shape
  | [], _ => none
  | blocks :: fns, id =>
      match findInBlocks blocks.reverse id with
      | some shape => some shape
      | none => findInFnScopes fns id

/-- checkScopeStatic is the static-scope fallback of Scope::check_scope:
a hit is returned without recording a closure; otherwise the
undeclared-variable error. -/
def checkScopeStatic (sc : TScope) (id : String) (loc : Location) : CkM (TScope × Shape) :=
  match lookupA sc.staticScope id with
  | some shape => Except.ok (sc, shape)
  | none => Except.error (CkErr.failure ("Undeclared variable: " ++ id ++ " " ++ loc.pretty))

/-- checkScope embeds Scope::check_scope: search function scopes from the
innermost out (blocks within one scope in Vec order, outermost block
first); a hit in any scope other than the innermost records a closure
Parameter on the innermost closure list; otherwise fall back to the
static scope; otherwise the undeclared-variable error. -/
def checkScope (sc : TScope) (id : String) (loc : Location) : CkM (TScope × Shape) :=
  match sc.blockStack with
  | [] => checkScopeStatic sc id loc
  | blocks :: fns =>
      match findInBlocks blocks.reverse id with
      | some shape => Except.ok (sc, shape)
      | none =>
          match findInFnScopes fns id with
          | some shape =>
              match sc.closures with
              | [] => Except.error CkErr.crash
              | cl :: cls =>
                  Except.ok
                    ({ sc with closures := (cl ++ [⟨id, shape⟩]) :: cls }, shape)
          | none => checkScopeStatic sc id loc

/-- createBlockScope embeds Scope::create_block_scope. -/
def createBlockScope (sc : TScope) : CkM TScope :=
  match sc.blockStack with
  | [] => Except.error CkErr.crash
  | blocks :: fns => Except.ok { sc with blockStack := ([] :: blocks) :: fns }

/-- destroyBlockScope embeds Scope::destroy_block_scope (Vec::pop on the
innermost function scope; popping an already empty block list is a
no-op, matching Vec::pop returning None). -/
def destroyBlockScope (sc : TScope) : CkM TScope :=
  match sc.blockStack with
  | [] => Except.error CkErr.crash
  | blocks :: fns => Except.ok { sc with blockStack := blocks.drop 1 :: fns }

/-- createFunctionScope embeds Scope::create_function_scope: a fresh
function scope with one empty block, and a fresh closure list. -/
def createFunctionScope (sc : TScope) : TScope :=
  { sc with blockStack := [[]] :: sc.blockStack, closures := [] :: sc.closures }

/-- destroyFunctionScope embeds Scope::destroy_function_scope: pop the
innermost function scope (popping an empty stack is a no-op) and pop and
return the innermost closure list (panics when empty). -/
def destroyFunctionScope (sc : TScope) : CkM (TScope × List Parameter) :=
  match sc.closures with
  | [] => Except.error CkErr.crash
  | cl :: cls =>
      Except.ok ({ sc with blockStack := sc.blockStack.drop 1, closures := cls }, cl)

/-- verifyShapes embeds verify of src/typechecker.rs (lines 297-318). -/
def verifyShapes (defined found : Shape) (loc : Location) : CkM Shape :=
  if defined = Shape.unknownShape then
    if found = Shape.unknownShape then
      Except.error (CkErr.failure ("Unknown shape " ++ loc.pretty))
    else
      liftFill (fillShape found loc)
  else
    if found = Shape.unknownShape then
      liftFill (fillShape defined loc)
    else do
      let filledDefined ← liftFill (fillShape defined loc)
      let filledFound ← liftFill (fillShape found loc)
      if filledDefined = filledFound then
        Except.ok filledFound
      else
        Except.error (CkErr.failure ("Incompatible types! Declared: " ++
          filledDefined.pretty ++ ", but found: " ++ filledFound.pretty ++ " " ++ loc.pretty))

/-- verifyParams is the zip loop of verify_function_declaration. -/
def verifyParams : List (Parameter × Shape) → Location → CkM (List Parameter)
  | [], _ => Except.ok []
  | (arg, expectedArg) :: rest, loc => do
      let verified ← verifyShapes expectedArg arg.shape loc
      let tail ← verifyParams rest loc
      Except.ok (⟨arg.id, verified⟩ :: tail)

/-- verifyFunctionDeclaration embeds verify_function_declaration of
src/typechecker.rs (lines 320-335). -/
def verifyFunctionDeclaration (parameters : List Parameter) (expected : Shape)
    (loc : Location) : CkM (List Parameter) :=
  let expectedArgs :=
    match expected with
    | Shape.simpleFunctionShape expectedArgs _ => expectedArgs
    | _ => List.replicate parameters.length shapeUnknown
  verifyParams (parameters.zip expectedArgs) loc

/-- floatOpsList embeds the FLOAT_OPS constant of src/typechecker.rs. -/
def floatOpsList : List String := ["+", "-", "*", "/"]

/-- setParams is the argument-binding loop of
FunctionDeclarationEx::check (src/typechecker.rs lines 60-62). -/
def setParams : TScope → List Parameter → Location → CkM TScope
  | sc, [], _ => Except.ok sc
  | sc, p :: rest, loc => do
      let sc' ← setScope sc p.id p.shape loc
      setParams sc' rest loc

mutual

/-- check embeds the check dispatcher of src/typechecker.rs (lines
235-250) together with the per-node Typed::check implementations: NoOp
and the literals return themselves; Variable resolves through
check_scope; Assignment checks its body against its raw shape, verifies,
and binds the name; BinaryOp checks both operands against Float, requires
equal operand shapes, and results in Float for the arithmetic operators
and Boolean otherwise; Call checks the callee unrestricted, requires a
function shape and matching arity, and checks each argument against the
corresponding parameter shape, which must match exactly; If checks the
condition against Boolean, both arms unrestricted, and unifies the arm
shapes; Block is Unit when empty, otherwise checks its statements in a
fresh block scope with only the last receiving the expected shape;
FunctionDeclaration verifies its parameters against the expected shape,
binds its own name in the enclosing block when it is not a lambda,
checks its body in a fresh function scope against the declared result,
pops the closure list, strips its own id from it setting is_recursive
when present, and stores the rest as its closures. -/
def check (sc : TScope) (e : Expr) (expected : Shape) : CkM (TScope × Expr) :=
  match e with
  | Expr.noOp loc => Except.ok (sc, Expr.noOp loc)
  | Expr.stringLiteral shape loc v => Except.ok (sc, Expr.stringLiteral shape loc v)
  | Expr.numberLiteral shape loc v => Except.ok (sc, Expr.numberLiteral shape loc v)
  | Expr.booleanLiteral loc v => Except.ok (sc, Expr.booleanLiteral loc v)
  | Expr.var _ loc id => do
      let (sc', shape) ← checkScope sc id loc
      Except.ok (sc', Expr.var shape loc id)
  | Expr.assignment rawShape loc id rawBody => do
      let (sc1, body) ← check sc rawBody rawShape
      let shape ← verifyShapes rawShape body.shape loc
      let sc2 ← setScope sc1 id shape loc
      Except.ok (sc2, Expr.assignment shape loc id body)
  | Expr.binaryOp _ loc op rawLeft rawRight => do
      let resultShape := if floatOpsList.contains op then shapeFloat else shapeBoolean
      let (sc1, left) ← check sc rawLeft shapeFloat
      let (sc2, right) ← check sc1 rawRight shapeFloat
      if left.shape = right.shape then
        Except.ok (sc2, Expr.binaryOp resultShape loc op left right)
      else
        Except.error (CkErr.failure ("Incompatible types! Cannot perform operation '" ++
          op ++ "' on distinct types '" ++ left.shape.pretty ++ "' and '" ++
          right.shape.pretty ++ "' " ++ loc.pretty))
  | Expr.call _ loc rawFunc rawArgs => do
      let (sc1, func) ← check sc rawFunc shapeUnknown
      match func.shape with
      | Shape.simpleFunctionShape expectedArgs result =>
          if rawArgs.length ≠ expectedArgs.length then
            Except.error (CkErr.failure ("Incorrect number of arguments " ++ loc.pretty))
          else do
            let (sc2, args) ← checkCallArgs sc1 (expectedArgs.zip rawArgs) loc
            Except.ok (sc2, Expr.call result loc func args)
      | _ => Except.error (CkErr.failure ("Attempt to call non-function " ++ loc.pretty))
  | Expr.ifEx _ loc rawCondition rawThen rawElse => do
      let (sc1, condition) ← check sc rawCondition shapeBoolean
      let _ ← verifyShapes shapeBoolean condition.shape loc
      let (sc2, thenBlock) ← check sc1 rawThen shapeUnknown
      let (sc3, elseBlock) ← check sc2 rawElse shapeUnknown
      let _ ← verifyShapes thenBlock.shape elseBlock.shape loc
      Except.ok (sc3, Expr.ifEx thenBlock.shape loc condition thenBlock elseBlock)
  | Expr.block _ loc rawBody =>
      match rawBody with
      | [] => Except.ok (sc, Expr.block shapeUnit loc [])
      | b0 :: brest => do
          let sc1 ← createBlockScope sc
          let (sc2, body) ← checkBlockStmts sc1 (b0 :: brest) expected
          match body.getLast? with
          | none => Except.error CkErr.crash
          | some lastE => do
              let sc3 ← destroyBlockScope sc2
              Except.ok (sc3, Expr.block lastE.shape loc body)
  | Expr.functionDeclaration rawResult loc id rawArgs rawBody context => do
      let args ← verifyFunctionDeclaration rawArgs expected loc
      let sc1 ←
        if context.isLambda then Except.ok sc
        else do
          let filled ← liftFill (fillShape
            (Shape.simpleFunctionShape (rawArgs.map Parameter.shape) rawResult) loc)
          setScope sc id filled loc
      let sc2 := createFunctionScope sc1
      let sc3 ← setParams sc2 args loc
      let (sc4, body) ← check sc3 rawBody rawResult
      let result ← verifyShapes rawResult body.shape loc
      let (sc5, closures) ← destroyFunctionScope sc4
      let beforeSize := closures.length
      let maybeMe := closures.filter (fun p => p.id ≠ id)
      let context' :=
        if beforeSize ≠ maybeMe.length then
          { context with isRecursive := true, closures := maybeMe }
        else
          { context with closures := maybeMe }
      Except.ok (sc5, Expr.functionDeclaration result loc id args body context')
termination_by 3 * exprSize e
decreasing_by
  all_goals simp only [exprSize, exprSizeList, exprPairsSize]
  all_goals
    first
      | omega
      | (have h := exprPairsSize_zip_le expectedArgs rawArgs; omega)

/-- checkBlockStmts is the statement loop of BlockEx::check
(src/typechecker.rs lines 99-110): every statement is checked with
expected Unknown except the last, which receives the block's expected
shape. -/
def checkBlockStmts (sc : TScope) (stmts : List Expr) (expected : Shape) :
    CkM (TScope × List Expr) :=
  match stmts with
  | [] => Except.ok (sc, [])
  | [e] => do
      let (sc', e') ← check sc e expected
      Except.ok (sc', [e'])
  | e :: e2 :: rest => do
      let (sc', e') ← check sc e shapeUnknown
      let (sc'', rest') ← checkBlockStmts sc' (e2 :: rest) expected
      Except.ok (sc'', e' :: rest')
termination_by 3 * exprSizeList stmts + 1
decreasing_by
  all_goals simp only [exprSize, exprSizeList, exprPairsSize]
  all_goals
    first
      | omega
      | (have h := exprSize_pos e; omega)

/-- checkCallArgs is the argument loop of CallEx::check
(src/typechecker.rs lines 166-176): each argument is checked against the
corresponding parameter shape and must match it exactly afterwards. -/
def checkCallArgs (sc : TScope) (pairs : List (Shape × Expr)) (loc : Location) :
    CkM (TScope × List Expr) :=
  match pairs with
  | [] => Except.ok (sc, [])
  | p :: rest => do
      let (sc', arg) ← check sc p.2 p.1
      if arg.shape ≠ p.1 then
        Except.error (CkErr.failure ("Invalid argument types for call " ++ loc.pretty))
      else do
        let (sc'', args) ← checkCallArgs sc' rest loc
        Except.ok (sc'', arg :: args)
termination_by 3 * exprPairsSize pairs + 1
decreasing_by
  all_goals simp only [exprSize, exprSizeList, exprPairsSize]
  all_goals
    first
      | omega
      | (have h := exprSize_pos p.2; obtain ⟨p1, p2⟩ := p; simp only [exprPairsSize] at *; omega)
      | (obtain ⟨p1, p2⟩ := p; simp only [exprPairsSize]; have h := exprSize_pos p2; omega)

end

/-- AstModule embeds the module record handed to check_module; its
functions are expected to be functionDeclaration nodes, as the Rust type
Vec of FunctionDeclaration guarantees. -/
structure AstModule where
  package : String
  name : String
  functions : List Expr

/-- preFillDecls is the pre-fill loop of check_module (src/typechecker.rs
lines 28-30): each module-level declaration's name and filled shape enter
the static scope. -/
def preFillDecls : TScope → List Expr → CkM TScope
  | sc, [] => Except.ok sc
  | sc, Expr.functionDeclaration result loc id args _ _ :: rest => do
      let sc' ← preFill sc id (Shape.simpleFunctionShape (args.map Parameter.shape) result) loc
      preFillDecls sc' rest
  | _, _ :: _ => Except.error CkErr.crash

/-- checkDecls is the checking loop of check_module (src/typechecker.rs
lines 32-38): each declaration is checked with expected Unknown and must
come back as a function declaration. -/
def checkDecls : TScope → List Expr → CkM (TScope × List Expr)
  | sc, [] => Except.ok (sc, [])
  | sc, e :: rest => do
      let (sc', e') ← check sc e shapeUnknown
      match e' with
      | Expr.functionDeclaration .. => do
          let (sc'', rest') ← checkDecls sc' rest
          Except.ok (sc'', e' :: rest')
      | _ => Except.error (CkErr.failure "FunctionDeclaration didn't return itself!")

/-- checkModule embeds check_module of src/typechecker.rs (lines 9-41)
for an import-free module: create the base function scope, pre-fill the
static scope with every declaration, then check the declarations in
order. -/
def checkModule (m : AstModule) : CkM AstModule := do
  let sc0 := createFunctionScope TScope.new
  let sc1 ← preFillDecls sc0 m.functions
  let (_, functions) ← checkDecls sc1 m.functions
  Except.ok { package := m.package, name := m.name, functions := functions }

theorem check_noOp (sc : TScope) (loc : Location) (expected : Shape) :
    check sc (Expr.noOp loc) expected = Except.ok (sc, Expr.noOp loc) := by
  rw [check.eq_def]

theorem check_stringLiteral (sc : TScope) (sh : Shape) (loc : Location) (v : String)
    (expected : Shape) :
    check sc (Expr.stringLiteral sh loc v) expected =
      Except.ok (sc, Expr.stringLiteral sh loc v) := by
  rw [check.eq_def]

theorem check_numberLiteral (sc : TScope) (sh : Shape) (loc : Location) (v : F64)
    (expected : Shape) :
    check sc (Expr.numberLiteral sh loc v) expected =
      Except.ok (sc, Expr.numberLiteral sh loc v) := by
  rw [check.eq_def]

theorem check_booleanLiteral (sc : TScope) (loc : Location) (v : Bool) (expected : Shape) :
    check sc (Expr.booleanLiteral loc v) expected =
      Except.ok (sc, Expr.booleanLiteral loc v) := by
  rw [check.eq_def]

theorem check_var (sc : TScope) (sh : Shape) (loc : Location) (id : String)
    (expected : Shape) :
    check sc (Expr.var sh loc id) expected = (do
      let (sc', shape) ← checkScope sc id loc
      Except.ok (sc', Expr.var shape loc id)) := by
  rw [check.eq_def]

theorem check_assignment (sc : TScope) (rawShape : Shape) (loc : Location) (id : String)
    (rawBody : Expr) (expected : Shape) :
    check sc (Expr.assignment rawShape loc id rawBody) expected = (do
      let (sc1, body) ← check sc rawBody rawShape
      let shape ← verifyShapes rawShape body.shape loc
      let sc2 ← setScope sc1 id shape loc
      Except.ok (sc2, Expr.assignment shape loc id body)) := by
  rw [check.eq_def]

theorem check_binaryOp (sc : TScope) (sh : Shape) (loc : Location) (op : String)
    (rawLeft rawRight : Expr) (expected : Shape) :
    check sc (Expr.binaryOp sh loc op rawLeft rawRight) expected = (do
      let resultShape := if floatOpsList.contains op then shapeFloat else shapeBoolean
      let (sc1, left) ← check sc rawLeft shapeFloat
      let (sc2, right) ← check sc1 rawRight shapeFloat
      if left.shape = right.shape then
        Except.ok (sc2, Expr.binaryOp resultShape loc op left right)
      else
        Except.error (CkErr.failure ("Incompatible types! Cannot perform operation '" ++
          op ++ "' on distinct types '" ++ left.shape.pretty ++ "' and '" ++
          right.shape.pretty ++ "' " ++ loc.pretty))) := by
  rw [check.eq_def]

theorem check_call (sc : TScope) (sh : Shape) (loc : Location) (rawFunc : Expr)
    (rawArgs : List Expr) (expected : Shape) :
    check sc (Expr.call sh loc rawFunc rawArgs) expected = (do
      let (sc1, func) ← check sc rawFunc shapeUnknown
      match func.shape with
      | Shape.simpleFunctionShape expectedArgs result =>
          if rawArgs.length ≠ expectedArgs.length then
            Except.error (CkErr.failure ("Incorrect number of arguments " ++ loc.pretty))
          else do
            let (sc2, args) ← checkCallArgs sc1 (expectedArgs.zip rawArgs) loc
            Except.ok (sc2, Expr.call result loc func args)
      | _ => Except.error (CkErr.failure ("Attempt to call non-function " ++ loc.pretty))) := by
  rw [check.eq_def]

theorem check_ifEx (sc : TScope) (sh : Shape) (loc : Location)
    (rawCondition rawThen rawElse : Expr) (expected : Shape) :
    check sc (Expr.ifEx sh loc rawCondition rawThen rawElse) expected = (do
      let (sc1, condition) ← check sc rawCondition shapeBoolean
      let _ ← verifyShapes shapeBoolean condition.shape loc
      let (sc2, thenBlock) ← check sc1 rawThen shapeUnknown
      let (sc3, elseBlock) ← check sc2 rawElse shapeUnknown
      let _ ← verifyShapes thenBlock.shape elseBlock.shape loc
      Except.ok (sc3, Expr.ifEx thenBlock.shape loc condition thenBlock elseBlock)) := by
  rw [check.eq_def]

theorem check_block_nil (sc : TScope) (sh : Shape) (loc : Location) (expected : Shape) :
    check sc (Expr.block sh loc []) expected = Except.ok (sc, Expr.block shapeUnit loc []) := by
  rw [check.eq_def]

theorem check_block_cons (sc : TScope) (sh : Shape) (loc : Location) (b0 : Expr)
    (brest : List Expr) (expected : Shape) :
    check sc (Expr.block sh loc (b0 :: brest)) expected = (do
      let sc1 ← createBlockScope sc
      let (sc2, body) ← checkBlockStmts sc1 (b0 :: brest) expected
      match body.getLast? with
      | none => Except.error CkErr.crash
      | some lastE => do
          let sc3 ← destroyBlockScope sc2
          Except.ok (sc3, Expr.block lastE.shape loc body)) := by
  rw [check.eq_def]

theorem check_functionDeclaration (sc : TScope) (rawResult : Shape) (loc : Location)
    (id : String) (rawArgs : List Parameter) (rawBody : Expr) (context : FunctionContext)
    (expected : Shape) :
    check sc (Expr.functionDeclaration rawResult loc id rawArgs rawBody context) expected =
      (do
        let args ← verifyFunctionDeclaration rawArgs expected loc
        let sc1 ←
          if context.isLambda then Except.ok sc
          else do
            let filled ← liftFill (fillShape
              (Shape.simpleFunctionShape (rawArgs.map Parameter.shape) rawResult) loc)
            setScope sc id filled loc
        let sc2 := createFunctionScope sc1
        let sc3 ← setParams sc2 args loc
        let (sc4, body) ← check sc3 rawBody rawResult
        let result ← verifyShapes rawResult body.shape loc
        let (sc5, closures) ← destroyFunctionScope sc4
        let beforeSize := closures.length
        let maybeMe := closures.filter (fun p => p.id ≠ id)
        let context' :=
          if beforeSize ≠ maybeMe.length then
            { context with isRecursive := true, closures := maybeMe }
          else
            { context with closures := maybeMe }
        Except.ok (sc5, Expr.functionDeclaration result loc id args body context')) := by
  rw [check.eq_def]

theorem checkBlockStmts_nil (sc : TScope) (expected : Shape) :
    checkBlockStmts sc [] expected = Except.ok (sc, []) := by
  rw [checkBlockStmts.eq_def]

theorem checkBlockStmts_single (sc : TScope) (e : Expr) (expected : Shape) :
    checkBlockStmts sc [e] expected = (do
      let (sc', e') ← check sc e expected
      Except.ok (sc', [e'])) := by
  rw [checkBlockStmts.eq_def]

theorem checkBlockStmts_cons (sc : TScope) (e e2 : Expr) (rest : List Expr)
    (expected : Shape) :
    checkBlockStmts sc (e :: e2 :: rest) expected = (do
      let (sc', e') ← check sc e shapeUnknown
      let (sc'', rest') ← checkBlockStmts sc' (e2 :: rest) expected
      Except.ok (sc'', e' :: rest')) := by
  rw [checkBlockStmts.eq_def]

theorem checkCallArgs_nil (sc : TScope) (loc : Location) :
    checkCallArgs sc [] loc = Except.ok (sc, []) := by
  rw [checkCallArgs.eq_def]

theorem checkCallArgs_cons (sc : TScope) (p : Shape × Expr) (rest : List (Shape × Expr))
    (loc : Location) :
    checkCallArgs sc (p :: rest) loc = (do
      let (sc', arg) ← check sc p.2 p.1
      if arg.shape ≠ p.1 then
        Except.error (CkErr.failure ("Invalid argument types for call " ++ loc.pretty))
      else do
        let (sc'', args) ← checkCallArgs sc' rest loc
        Except.ok (sc'', arg :: args)) := by
  rw [checkCallArgs.eq_def]

/-- scopeExtends relates a scope to the scope after checking any
expression: the static scope is untouched; when the block stack starts
with an innermost function scope whose innermost block is b, it ends with
the same structure and the same outer contents, with the innermost block
only extended at the front; the innermost closure list is only extended
at the back. -/
def scopeExtends (sc sc' : TScope) : Prop :=
  sc'.staticScope = sc.staticScope ∧
  (∀ b bs fns, sc.blockStack = (b :: bs) :: fns →
      ∃ ext, sc'.blockStack = ((ext ++ b) :: bs) :: fns) ∧
  (∀ cl cls, sc.closures = cl :: cls → ∃ extc, sc'.closures = (cl ++ extc) :: cls)

theorem scopeExtends_refl (sc : TScope) : scopeExtends sc sc := by
  refine ⟨rfl, ?_, ?_⟩
  · intro b bs fns h
    exact ⟨[], by simp [h]⟩
  · intro cl cls h
    exact ⟨[], by simp [h]⟩

theorem scopeExtends_trans {sc1 sc2 sc3 : TScope} (h1 : scopeExtends sc1 sc2)
    (h2 : scopeExtends sc2 sc3) : scopeExtends sc1 sc3 := by
  obtain ⟨s1, b1, c1⟩ := h1
  obtain ⟨s2, b2, c2⟩ := h2
  refine ⟨s2.trans s1, ?_, ?_⟩
  · intro b bs fns h
    obtain ⟨ext1, he1⟩ := b1 b bs fns h
    obtain ⟨ext2, he2⟩ := b2 (ext1 ++ b) bs fns he1
    exact ⟨ext2 ++ ext1, by simp [he2]⟩
  · intro cl cls h
    obtain ⟨e1, he1⟩ := c1 cl cls h
    obtain ⟨e2, he2⟩ := c2 (cl ++ e1) cls he1
    exact ⟨e1 ++ e2, by simp [he2]⟩

theorem containsKey_append_right (a b : List (String × Shape)) (id : String)
    (h : containsKey b id = true) : containsKey (a ++ b) id = true := by
  induction a with
  | nil => simpa
  | cons kv rest ih =>
      simp only [containsKey, lookupA, List.cons_append]
      by_cases hk : kv.1 = id
      · simp [hk]
      · simp only [Option.isSome] at ih ⊢
        obtain ⟨k, v⟩ := kv
        simp only [List.cons_append, lookupA]
        simp only [containsKey] at ih
        split
        · simp
        · simp_all [lookupA]

theorem setScope_fields {sc : TScope} {id : String} {shape : Shape} {loc : Location}
    {sc' : TScope} (h : setScope sc id shape loc = Except.ok sc') :
    sc'.staticScope = sc.staticScope ∧ sc'.closures = sc.closures := by
  rw [setScope] at h
  split at h
  · exact absurd h (by simp)
  split at h
  · exact absurd h (by simp)
  split at h
  · exact absurd h (by simp)
  injection h with h
  subst h
  exact ⟨rfl, rfl⟩

theorem setScope_shape {sc : TScope} {id : String} {shape : Shape} {loc : Location}
    {sc' : TScope} {b : List (String × Shape)} {bs : List (List (String × Shape))}
    {fns : List (List (List (String × Shape)))}
    (hshape : sc.blockStack = (b :: bs) :: fns)
    (h : setScope sc id shape loc = Except.ok sc') :
    containsKey b id = false ∧
    sc' = { sc with blockStack := (((id, shape) :: b) :: bs) :: fns } := by
  rw [setScope] at h
  split at h
  · exact absurd h (by simp)
  next blocks fns2 hbl =>
    rw [hshape] at hbl
    injection hbl with hb1 hb2
    subst hb2
    subst hb1
    split at h
    · exact absurd h (by simp)
    next b2 bs2 hbb =>
      injection hbb with hb3 hb4
      subst hb3
      subst hb4
      split at h
      · exact absurd h (by simp)
      next hc =>
        injection h with h
        subst h
        exact ⟨by simpa using hc, rfl⟩

theorem setScope_extends {sc : TScope} {id : String} {shape : Shape} {loc : Location}
    {sc' : TScope} (h : setScope sc id shape loc = Except.ok sc') :
    scopeExtends sc sc' := by
  rw [setScope] at h
  split at h
  · exact absurd h (by simp)
  next blocks fns hbl =>
    split at h
    · exact absurd h (by simp)
    next b bs =>
      split at h
      · exact absurd h (by simp)
      injection h with h
      subst h
      refine ⟨rfl, ?_, fun cl cls h' => ⟨[], by simp [h']⟩⟩
      intro b' bs' fns' h'
      rw [hbl] at h'
      injection h' with h1 h2
      injection h1 with h3 h4
      subst h2
      subst h3
      subst h4
      exact ⟨[(id, shape)], rfl⟩

theorem setParams_facts : ∀ (ps : List Parameter) (sc : TScope) (loc : Location)
    (sc' : TScope), setParams sc ps loc = Except.ok sc' →
    sc'.staticScope = sc.staticScope ∧ sc'.closures = sc.closures ∧
    (∀ b bs fns, sc.blockStack = (b :: bs) :: fns →
        ∃ ext, sc'.blockStack = ((ext ++ b) :: bs) :: fns)
  | [], sc, loc, sc', h => by
      rw [setParams] at h
      injection h with h
      subst h
      exact ⟨rfl, rfl, fun b bs fns h' => ⟨[], by simp [h']⟩⟩
  | p :: rest, sc, loc, sc', h => by
      rw [setParams] at h
      cases hs : setScope sc p.id p.shape loc with
      | error ce => rw [hs] at h; exact absurd h (by simp [exceptBindG_err])
      | ok sc1 =>
          rw [hs, exceptBindG_ok] at h
          obtain ⟨hst, hcl, hbl⟩ := setParams_facts rest sc1 loc sc' h
          obtain ⟨hf1, hf2⟩ := setScope_fields hs
          refine ⟨hst.trans hf1, hcl.trans hf2, ?_⟩
          intro b bs fns h'
          obtain ⟨hk, hsc1⟩ := setScope_shape h' hs
          obtain ⟨ext, hx⟩ := hbl ((p.id, p.shape) :: b) bs fns (by rw [hsc1])
          exact ⟨ext ++ [(p.id, p.shape)], by simpa using hx⟩

theorem checkScopeStatic_ok {sc : TScope} {id : String} {loc : Location}
    {sc' : TScope} {shape : Shape}
    (h : checkScopeStatic sc id loc = Except.ok (sc', shape)) : sc' = sc := by
  rw [checkScopeStatic] at h
  split at h
  · injection h with h
    injection h with h1 h2
    exact h1.symm
  · exact absurd h (by simp)

theorem checkScope_fields {sc : TScope} {id : String} {loc : Location}
    {sc' : TScope} {shape : Shape}
    (h : checkScope sc id loc = Except.ok (sc', shape)) :
    sc'.staticScope = sc.staticScope ∧ sc'.blockStack = sc.blockStack ∧
    (∀ cl cls, sc.closures = cl :: cls → ∃ extc, sc'.closures = (cl ++ extc) :: cls) := by
  rw [checkScope] at h
  split at h
  · have hs := checkScopeStatic_ok h
    subst hs
    exact ⟨rfl, rfl, fun cl cls h' => ⟨[], by simp [h']⟩⟩
  split at h
  · injection h with h
    injection h with h1 h2
    subst h1
    exact ⟨rfl, rfl, fun cl cls h' => ⟨[], by simp [h']⟩⟩
  split at h
  next shape0 hfn =>
    split at h
    · exact absurd h (by simp)
    next cl0 cls0 hcl =>
      injection h with h
      injection h with h1 h2
      subst h1
      refine ⟨rfl, rfl, ?_⟩
      intro cl cls h'
      rw [hcl] at h'
      injection h' with h3 h4
      subst h3
      subst h4
      exact ⟨[⟨id, shape0⟩], by simp⟩
  next hfn =>
    have hs := checkScopeStatic_ok h
    subst hs
    exact ⟨rfl, rfl, fun cl cls h' => ⟨[], by simp [h']⟩⟩

theorem checkScope_extends {sc : TScope} {id : String} {loc : Location}
    {sc' : TScope} {shape : Shape}
    (h : checkScope sc id loc = Except.ok (sc', shape)) : scopeExtends sc sc' := by
  obtain ⟨h1, h2, h3⟩ := checkScope_fields h
  exact ⟨h1, fun b bs fns hb => ⟨[], by simp [h2, hb]⟩, h3⟩

theorem createBlockScope_ok {sc sc' : TScope} (h : createBlockScope sc = Except.ok sc') :
    ∃ blocks fns, sc.blockStack = blocks :: fns ∧
      sc' = { sc with blockStack := ([] :: blocks) :: fns } := by
  rw [createBlockScope] at h
  split at h
  · exact absurd h (by simp)
  next blocks fns hbl =>
    injection h with h
    exact ⟨blocks, fns, hbl, h.symm⟩

theorem destroyBlockScope_ok {sc sc' : TScope} (h : destroyBlockScope sc = Except.ok sc') :
    ∃ blocks fns, sc.blockStack = blocks :: fns ∧
      sc' = { sc with blockStack := blocks.drop 1 :: fns } := by
  rw [destroyBlockScope] at h
  split at h
  · exact absurd h (by simp)
  next blocks fns hbl =>
    injection h with h
    exact ⟨blocks, fns, hbl, h.symm⟩

theorem destroyFunctionScope_ok {sc sc' : TScope} {cl : List Parameter}
    (h : destroyFunctionScope sc = Except.ok (sc', cl)) :
    ∃ cls, sc.closures = cl :: cls ∧
      sc' = { sc with blockStack := sc.blockStack.drop 1, closures := cls } := by
  rw [destroyFunctionScope] at h
  split at h
  · exact absurd h (by simp)
  next cl0 cls hcl =>
    injection h with h
    injection h with h1 h2
    subst h2
    exact ⟨cls, hcl, h1.symm⟩

mutual

/-- Checking any expression only ever extends the scope: the static scope
is untouched, the innermost block grows at the front with outer blocks
untouched, and the innermost closure list grows at the back. -/
theorem check_extends : ∀ (e : Expr) (sc : TScope) (expected : Shape) (res : TScope × Expr),
    check sc e expected = Except.ok res → scopeExtends sc res.1
  | Expr.noOp loc, sc, expected, res, h => by
      rw [check_noOp] at h
      injection h with h
      subst h
      exact scopeExtends_refl sc
  | Expr.stringLiteral sh loc v, sc, expected, res, h => by
      rw [check_stringLiteral] at h
      injection h with h
      subst h
      exact scopeExtends_refl sc
  | Expr.numberLiteral sh loc v, sc, expected, res, h => by
      rw [check_numberLiteral] at h
      injection h with h
      subst h
      exact scopeExtends_refl sc
  | Expr.booleanLiteral loc v, sc, expected, res, h => by
      rw [check_booleanLiteral] at h
      injection h with h
      subst h
      exact scopeExtends_refl sc
  | Expr.var sh loc id, sc, expected, res, h => by
      rw [check_var] at h
      cases hcs : checkScope sc id loc with
      | error ce =>
          simp only [hcs, exceptBindG_err] at h
          exact absurd h (by simp)
      | ok p =>
          obtain ⟨sc1, shape⟩ := p
          simp only [hcs, exceptBindG_ok] at h
          injection h with h
          subst h
          exact checkScope_extends hcs
  | Expr.assignment rawShape loc id rawBody, sc, expected, res, h => by
      rw [check_assignment] at h
      cases hb : check sc rawBody rawShape with
      | error ce =>
          simp only [hb, exceptBindG_err] at h
          exact absurd h (by simp)
      | ok p =>
          obtain ⟨sc1, body⟩ := p
          simp only [hb, exceptBindG_ok] at h
          have e1 := check_extends rawBody sc rawShape (sc1, body) hb
          cases hv : verifyShapes rawShape body.shape loc with
          | error ce =>
              simp only [hv, exceptBindG_err] at h
              exact absurd h (by simp)
          | ok shape =>
              simp only [hv, exceptBindG_ok] at h
              cases hs : setScope sc1 id shape loc with
              | error ce =>
                  simp only [hs, exceptBindG_err] at h
                  exact absurd h (by simp)
              | ok sc2 =>
                  simp only [hs, exceptBindG_ok] at h
                  injection h with h
                  subst h
                  exact scopeExtends_trans e1 (setScope_extends hs)
  | Expr.binaryOp sh loc op rawLeft rawRight, sc, expected, res, h => by
      rw [check_binaryOp] at h
      cases hl : check sc rawLeft shapeFloat with
      | error ce =>
          simp only [hl, exceptBindG_err] at h
          exact absurd h (by simp)
      | ok p =>
          obtain ⟨sc1, left⟩ := p
          simp only [hl, exceptBindG_ok] at h
          have e1 := check_extends rawLeft sc shapeFloat (sc1, left) hl
          cases hr : check sc1 rawRight shapeFloat with
          | error ce =>
              simp only [hr, exceptBindG_err] at h
              exact absurd h (by simp)
          | ok q =>
              obtain ⟨sc2, right⟩ := q
              simp only [hr, exceptBindG_ok] at h
              have e2 := check_extends rawRight sc1 shapeFloat (sc2, right) hr
              split at h
              · injection h with h
                subst h
                exact scopeExtends_trans e1 e2
              · exact absurd h (by simp)
  | Expr.call sh loc rawFunc rawArgs, sc, expected, res, h => by
      rw [check_call] at h
      cases hf : check sc rawFunc shapeUnknown with
      | error ce =>
          simp only [hf, exceptBindG_err] at h
          exact absurd h (by simp)
      | ok p =>
          obtain ⟨sc1, func⟩ := p
          simp only [hf, exceptBindG_ok] at h
          have e1 := check_extends rawFunc sc shapeUnknown (sc1, func) hf
          split at h
          next ea r hsh =>
            split at h
            · exact absurd h (by simp)
            · cases hca : checkCallArgs sc1 (ea.zip rawArgs) loc with
              | error ce =>
                  simp only [hca, exceptBindG_err] at h
                  exact absurd h (by simp)
              | ok q =>
                  obtain ⟨sc2, args⟩ := q
                  simp only [hca, exceptBindG_ok] at h
                  have hzip := exprPairsSize_zip_le ea rawArgs
                  have e2 := checkCallArgs_extends (ea.zip rawArgs) sc1 loc (sc2, args) hca
                  injection h with h
                  subst h
                  exact scopeExtends_trans e1 e2
          next hsh => exact absurd h (by simp)
  | Expr.ifEx sh loc rawCondition rawThen rawElse, sc, expected, res, h => by
      rw [check_ifEx] at h
      cases hc : check sc rawCondition shapeBoolean with
      | error ce =>
          simp only [hc, exceptBindG_err] at h
          exact absurd h (by simp)
      | ok p =>
          obtain ⟨sc1, condition⟩ := p
          simp only [hc, exceptBindG_ok] at h
          have e1 := check_extends rawCondition sc shapeBoolean (sc1, condition) hc
          cases hv : verifyShapes shapeBoolean condition.shape loc with
          | error ce =>
              simp only [hv, exceptBindG_err] at h
              exact absurd h (by simp)
          | ok s1 =>
              simp only [hv, exceptBindG_ok] at h
              cases ht : check sc1 rawThen shapeUnknown with
              | error ce =>
                  simp only [ht, exceptBindG_err] at h
                  exact absurd h (by simp)
              | ok q =>
                  obtain ⟨sc2, thenBlock⟩ := q
                  simp only [ht, exceptBindG_ok] at h
                  have e2 := check_extends rawThen sc1 shapeUnknown (sc2, thenBlock) ht
                  cases he : check sc2 rawElse shapeUnknown with
                  | error ce =>
                      simp only [he, exceptBindG_err] at h
                      exact absurd h (by simp)
                  | ok w =>
                      obtain ⟨sc3, elseBlock⟩ := w
                      simp only [he, exceptBindG_ok] at h
                      have e3 := check_extends rawElse sc2 shapeUnknown (sc3, elseBlock) he
                      cases hv2 : verifyShapes thenBlock.shape elseBlock.shape loc with
                      | error ce =>
                          simp only [hv2, exceptBindG_err] at h
                          exact absurd h (by simp)
                      | ok s2 =>
                          simp only [hv2, exceptBindG_ok] at h
                          injection h with h
                          subst h
                          exact scopeExtends_trans e1 (scopeExtends_trans e2 e3)
  | Expr.block sh loc [], sc, expected, res, h => by
      rw [check_block_nil] at h
      injection h with h
      subst h
      exact scopeExtends_refl sc
  | Expr.block sh loc (b0 :: brest), sc, expected, res, h => by
      rw [check_block_cons] at h
      cases hc : createBlockScope sc with
      | error ce =>
          simp only [hc, exceptBindG_err] at h
          exact absurd h (by simp)
      | ok sc1 =>
          simp only [hc, exceptBindG_ok] at h
          cases hbs : checkBlockStmts sc1 (b0 :: brest) expected with
          | error ce =>
              simp only [hbs, exceptBindG_err] at h
              exact absurd h (by simp)
          | ok p =>
              obtain ⟨sc2, body⟩ := p
              simp only [hbs, exceptBindG_ok] at h
              have e2 := checkBlockStmts_extends (b0 :: brest) sc1 expected (sc2, body) hbs
              split at h
              · exact absurd h (by simp)
              next lastE hlast =>
                cases hd : destroyBlockScope sc2 with
                | error ce =>
                    simp only [hd, exceptBindG_err] at h
                    exact absurd h (by simp)
                | ok sc3 =>
                    simp only [hd, exceptBindG_ok] at h
                    injection h with h
                    subst h
                    obtain ⟨blocks, fns, hb1, rfl⟩ := createBlockScope_ok hc
                    obtain ⟨blocks2, fns2, hb2, rfl⟩ := destroyBlockScope_ok hd
                    obtain ⟨x1, x2, x3⟩ := e2
                    refine ⟨by simpa using x1, ?_, ?_⟩
                    · intro b bs fns' hsc
                      rw [hsc] at hb1
                      injection hb1 with hb3 hb4
                      subst hb3
                      subst hb4
                      obtain ⟨ext, hx⟩ := x2 [] (b :: bs) fns' (by simp)
                      rw [hx] at hb2
                      injection hb2 with hb5 hb6
                      subst hb5
                      subst hb6
                      exact ⟨[], by simp⟩
                    · intro cl cls hclo
                      obtain ⟨extc, hx⟩ := x3 cl cls (by simpa using hclo)
                      exact ⟨extc, by simpa using hx⟩
  | Expr.functionDeclaration rawResult loc id rawArgs rawBody context, sc, expected, res, h => by
      rw [check_functionDeclaration] at h
      cases hvf : verifyFunctionDeclaration rawArgs expected loc with
      | error ce =>
          simp only [hvf, exceptBindG_err] at h
          exact absurd h (by simp)
      | ok args =>
          simp only [hvf, exceptBindG_ok] at h
          split at h
          · cases hsp : setParams (createFunctionScope sc) args loc with
            | error ce =>
                simp only [hsp, exceptBindG_err] at h
                exact absurd h (by simp)
            | ok sc3 =>
                simp only [hsp, exceptBindG_ok] at h
                cases hbody : check sc3 rawBody rawResult with
                | error ce =>
                    simp only [hbody, exceptBindG_err] at h
                    exact absurd h (by simp)
                | ok p =>
                    obtain ⟨sc4, body⟩ := p
                    simp only [hbody, exceptBindG_ok] at h
                    have eb := check_extends rawBody sc3 rawResult (sc4, body) hbody
                    cases hv : verifyShapes rawResult body.shape loc with
                    | error ce =>
                        simp only [hv, exceptBindG_err] at h
                        exact absurd h (by simp)
                    | ok result =>
                        simp only [hv, exceptBindG_ok] at h
                        cases hdf : destroyFunctionScope sc4 with
                        | error ce =>
                            simp only [hdf, exceptBindG_err] at h
                            exact absurd h (by simp)
                        | ok q =>
                            obtain ⟨sc5, closures⟩ := q
                            simp only [hdf, exceptBindG_ok] at h
                            injection h with h
                            subst h
                            obtain ⟨hsp1, hsp2, hsp3⟩ := setParams_facts args (createFunctionScope sc) loc sc3 hsp
                            obtain ⟨eb1, eb2, eb3⟩ := eb
                            obtain ⟨cls2, hdf1, rfl⟩ := destroyFunctionScope_ok hdf
                            refine ⟨?_, ?_, ?_⟩
                            · simp only
                              rw [eb1, hsp1]
                              rfl
                            · intro b bs fns hsc
                              obtain ⟨ext1, hx1⟩ := hsp3 [] [] sc.blockStack (by simp [createFunctionScope])
                              obtain ⟨ext2, hx2⟩ := eb2 (ext1 ++ []) [] sc.blockStack hx1
                              refine ⟨[], ?_⟩
                              simp only
                              rw [hx2]
                              simp [hsc]
                            · intro cl cls hclo
                              have h3c : sc3.closures = [] :: sc.closures := by
                                rw [hsp2]; rfl
                              obtain ⟨extc, hx⟩ := eb3 [] sc.closures h3c
                              rw [hx] at hdf1
                              injection hdf1 with hd1 hd2
                              subst hd2
                              exact ⟨[], by simp [hclo]⟩
          · cases hfl : liftFill (fillShape
                (Shape.simpleFunctionShape (rawArgs.map Parameter.shape) rawResult) loc) with
            | error ce =>
                simp only [hfl, exceptBindG_err] at h
                exact absurd h (by simp)
            | ok filled =>
                simp only [hfl, exceptBindG_ok] at h
                cases hss : setScope sc id filled loc with
                | error ce =>
                    simp only [hss, exceptBindG_err] at h
                    exact absurd h (by simp)
                | ok sc1 =>
                    simp only [hss, exceptBindG_ok] at h
                    have ess := setScope_extends hss
                    cases hsp : setParams (createFunctionScope sc1) args loc with
                    | error ce =>
                        simp only [hsp, exceptBindG_err] at h
                        exact absurd h (by simp)
                    | ok sc3 =>
                        simp only [hsp, exceptBindG_ok] at h
                        cases hbody : check sc3 rawBody rawResult with
                        | error ce =>
                            simp only [hbody, exceptBindG_err] at h
                            exact absurd h (by simp)
                        | ok p =>
                            obtain ⟨sc4, body⟩ := p
                            simp only [hbody, exceptBindG_ok] at h
                            have eb := check_extends rawBody sc3 rawResult (sc4, body) hbody
                            cases hv : verifyShapes rawResult body.shape loc with
                            | error ce =>
                                simp only [hv, exceptBindG_err] at h
                                exact absurd h (by simp)
                            | ok result =>
                                simp only [hv, exceptBindG_ok] at h
                                cases hdf : destroyFunctionScope sc4 with
                                | error ce =>
                                    simp only [hdf, exceptBindG_err] at h
                                    exact absurd h (by simp)
                                | ok q =>
                                    obtain ⟨sc5, closures⟩ := q
                                    simp only [hdf, exceptBindG_ok] at h
                                    injection h with h
                                    subst h
                                    obtain ⟨hsp1, hsp2, hsp3⟩ := setParams_facts args (createFunctionScope sc1) loc sc3 hsp
                                    obtain ⟨eb1, eb2, eb3⟩ := eb
                                    obtain ⟨cls2, hdf1, rfl⟩ := destroyFunctionScope_ok hdf
                                    refine scopeExtends_trans ess ⟨?_, ?_, ?_⟩
                                    · simp only
                                      rw [eb1, hsp1]
                                      rfl
                                    · intro b bs fns hsc
                                      obtain ⟨ext1, hx1⟩ := hsp3 [] [] sc1.blockStack (by simp [createFunctionScope])
                                      obtain ⟨ext2, hx2⟩ := eb2 (ext1 ++ []) [] sc1.blockStack hx1
                                      refine ⟨[], ?_⟩
                                      simp only
                                      rw [hx2]
                                      simp [hsc]
                                    · intro cl cls hclo
                                      have h3c : sc3.closures = [] :: sc1.closures := by
                                        rw [hsp2]; rfl
                                      obtain ⟨extc, hx⟩ := eb3 [] sc1.closures h3c
                                      rw [hx] at hdf1
                                      injection hdf1 with hd1 hd2
                                      subst hd2
                                      exact ⟨[], by simp [hclo]⟩
termination_by e _ _ _ _ => 3 * exprSize e
decreasing_by
  all_goals simp only [exprSize, exprSizeList, exprPairsSize]
  all_goals omega

/-- Checking a statement list only ever extends the scope. -/
theorem checkBlockStmts_extends : ∀ (stmts : List Expr) (sc : TScope) (expected : Shape)
    (res : TScope × List Expr), checkBlockStmts sc stmts expected = Except.ok res →
    scopeExtends sc res.1
  | [], sc, expected, res, h => by
      rw [checkBlockStmts_nil] at h
      injection h with h
      subst h
      exact scopeExtends_refl sc
  | [e], sc, expected, res, h => by
      rw [checkBlockStmts_single] at h
      cases hc : check sc e expected with
      | error ce =>
          simp only [hc, exceptBindG_err] at h
          exact absurd h (by simp)
      | ok p =>
          obtain ⟨sc1, e1⟩ := p
          simp only [hc, exceptBindG_ok] at h
          injection h with h
          subst h
          exact check_extends e sc expected (sc1, e1) hc
  | e :: e2 :: rest, sc, expected, res, h => by
      rw [checkBlockStmts_cons] at h
      cases hc : check sc e shapeUnknown with
      | error ce =>
          simp only [hc, exceptBindG_err] at h
          exact absurd h (by simp)
      | ok p =>
          obtain ⟨sc1, e1⟩ := p
          simp only [hc, exceptBindG_ok] at h
          have x1 := check_extends e sc shapeUnknown (sc1, e1) hc
          cases hr : checkBlockStmts sc1 (e2 :: rest) expected with
          | error ce =>
              simp only [hr, exceptBindG_err] at h
              exact absurd h (by simp)
          | ok q =>
              obtain ⟨sc2, rest1⟩ := q
              simp only [hr, exceptBindG_ok] at h
              have x2 := checkBlockStmts_extends (e2 :: rest) sc1 expected (sc2, rest1) hr
              injection h with h
              subst h
              exact scopeExtends_trans x1 x2
termination_by stmts _ _ _ _ => 3 * exprSizeList stmts + 1
decreasing_by
  all_goals simp only [exprSize, exprSizeList, exprPairsSize]
  all_goals
    first
      | omega
      | (have h := exprSize_pos e; omega)

/-- Checking a call argument list only ever extends the scope. -/
theorem checkCallArgs_extends : ∀ (pairs : List (Shape × Expr)) (sc : TScope) (loc : Location)
    (res : TScope × List Expr), checkCallArgs sc pairs loc = Except.ok res →
    scopeExtends sc res.1
  | [], sc, loc, res, h => by
      rw [checkCallArgs_nil] at h
      injection h with h
      subst h
      exact scopeExtends_refl sc
  | p :: rest, sc, loc, res, h => by
      rw [checkCallArgs_cons] at h
      cases hc : check sc p.2 p.1 with
      | error ce =>
          simp only [hc, exceptBindG_err] at h
          exact absurd h (by simp)
      | ok q =>
          obtain ⟨sc1, arg⟩ := q
          simp only [hc, exceptBindG_ok] at h
          have x1 := check_extends p.2 sc p.1 (sc1, arg) hc
          split at h
          · exact absurd h (by simp)
          · cases hr : checkCallArgs sc1 rest loc with
            | error ce =>
                simp only [hr, exceptBindG_err] at h
                exact absurd h (by simp)
            | ok w =>
                obtain ⟨sc2, args⟩ := w
                simp only [hr, exceptBindG_ok] at h
                have x2 := checkCallArgs_extends rest sc1 loc (sc2, args) hr
                injection h with h
                subst h
                exact scopeExtends_trans x1 x2
termination_by pairs _ _ _ _ => 3 * exprPairsSize pairs + 1
decreasing_by
  all_goals simp only [exprSize, exprSizeList, exprPairsSize]
  all_goals
    first
      | omega
      | (have h := exprSize_pos p.2; obtain ⟨p1, p2⟩ := p; simp only [exprPairsSize] at *; omega)
      | (obtain ⟨p1, p2⟩ := p; simp only [exprPairsSize]; have h := exprSize_pos p2; omega)

end

/-- isAssignTo id e holds when e is a let-binding (Assignment) of id. -/
def isAssignTo (id : String) (e : Expr) : Prop :=
  ∃ sh loc bdy, e = Expr.assignment sh loc id bdy

theorem check_assignment_dup_fails {sc : TScope} {sh : Shape} {loc : Location} {id : String}
    {bdy : Expr} {expected : Shape} {res : TScope × Expr}
    {b : List (String × Shape)} {bs : List (List (String × Shape))}
    {fns : List (List (List (String × Shape)))}
    (hshape : sc.blockStack = (b :: bs) :: fns)
    (hk : containsKey b id = true)
    (h : check sc (Expr.assignment sh loc id bdy) expected = Except.ok res) : False := by
  rw [check_assignment] at h
  cases hb : check sc bdy sh with
  | error ce =>
      simp only [hb, exceptBindG_err] at h
      exact absurd h (by simp)
  | ok p =>
      obtain ⟨sc1, body⟩ := p
      simp only [hb, exceptBindG_ok] at h
      have e1 := check_extends bdy sc sh (sc1, body) hb
      cases hv : verifyShapes sh body.shape loc with
      | error ce =>
          simp only [hv, exceptBindG_err] at h
          exact absurd h (by simp)
      | ok shape =>
          simp only [hv, exceptBindG_ok] at h
          cases hs : setScope sc1 id shape loc with
          | error ce =>
              simp only [hs, exceptBindG_err] at h
              exact absurd h (by simp)
          | ok sc2 =>
              obtain ⟨ext, hx⟩ := e1.2.1 b bs fns hshape
              obtain ⟨hkf, _⟩ := setScope_shape hx hs
              have hk2 := containsKey_append_right ext b id hk
              rw [hkf] at hk2
              exact absurd hk2 (by simp)

theorem check_assignment_inserts {sc : TScope} {sh : Shape} {loc : Location} {id : String}
    {bdy : Expr} {expected : Shape} {res : TScope × Expr}
    {b : List (String × Shape)} {bs : List (List (String × Shape))}
    {fns : List (List (List (String × Shape)))}
    (hshape : sc.blockStack = (b :: bs) :: fns)
    (h : check sc (Expr.assignment sh loc id bdy) expected = Except.ok res) :
    ∃ b', res.1.blockStack = (b' :: bs) :: fns ∧ containsKey b' id = true := by
  rw [check_assignment] at h
  cases hb : check sc bdy sh with
  | error ce =>
      simp only [hb, exceptBindG_err] at h
      exact absurd h (by simp)
  | ok p =>
      obtain ⟨sc1, body⟩ := p
      simp only [hb, exceptBindG_ok] at h
      have e1 := check_extends bdy sc sh (sc1, body) hb
      cases hv : verifyShapes sh body.shape loc with
      | error ce =>
          simp only [hv, exceptBindG_err] at h
          exact absurd h (by simp)
      | ok shape =>
          simp only [hv, exceptBindG_ok] at h
          cases hs : setScope sc1 id shape loc with
          | error ce =>
              simp only [hs, exceptBindG_err] at h
              exact absurd h (by simp)
          | ok sc2 =>
              simp only [hs, exceptBindG_ok] at h
              injection h with h
              subst h
              obtain ⟨ext, hx⟩ := e1.2.1 b bs fns hshape
              obtain ⟨_, rfl⟩ := setScope_shape hx hs
              exact ⟨(id, shape) :: (ext ++ b), rfl, by simp [containsKey, lookupA]⟩

theorem checkBlockStmts_dup_fails : ∀ (stmts : List Expr) (sc : TScope) (expected : Shape)
    (res : TScope × List Expr) (id : String)
    (b : List (String × Shape)) (bs : List (List (String × Shape)))
    (fns : List (List (List (String × Shape)))),
    sc.blockStack = (b :: bs) :: fns → containsKey b id = true →
    (∃ e, e ∈ stmts ∧ isAssignTo id e) →
    checkBlockStmts sc stmts expected = Except.ok res → False
  | [], sc, expected, res, id, b, bs, fns, hshape, hk, hmem, h => by
      obtain ⟨e, he, _⟩ := hmem
      exact absurd he (by simp)
  | [e], sc, expected, res, id, b, bs, fns, hshape, hk, hmem, h => by
      obtain ⟨e', he', ha⟩ := hmem
      have he2 : e' = e := by simpa using he'
      subst he2
      obtain ⟨sh1, loc1, bdy1, rfl⟩ := ha
      rw [checkBlockStmts_single] at h
      cases hc : check sc (Expr.assignment sh1 loc1 id bdy1) expected with
      | error ce =>
          simp only [hc, exceptBindG_err] at h
          exact absurd h (by simp)
      | ok p =>
          exact check_assignment_dup_fails hshape hk hc
  | e :: e2 :: rest, sc, expected, res, id, b, bs, fns, hshape, hk, hmem, h => by
      rw [checkBlockStmts_cons] at h
      cases hc : check sc e shapeUnknown with
      | error ce =>
          simp only [hc, exceptBindG_err] at h
          exact absurd h (by simp)
      | ok p =>
          obtain ⟨sc1, e1⟩ := p
          simp only [hc, exceptBindG_ok] at h
          obtain ⟨e', he', ha⟩ := hmem
          rcases List.mem_cons.mp he' with he0 | htail
          · subst he0
            obtain ⟨sh1, loc1, bdy1, rfl⟩ := ha
            exact check_assignment_dup_fails hshape hk hc
          · have x1 := check_extends e sc shapeUnknown (sc1, e1) hc
            obtain ⟨ext, hx⟩ := x1.2.1 b bs fns hshape
            cases hr : checkBlockStmts sc1 (e2 :: rest) expected with
            | error ce =>
                simp only [hr, exceptBindG_err] at h
                exact absurd h (by simp)
            | ok q =>
                exact checkBlockStmts_dup_fails (e2 :: rest) sc1 expected q id
                  (ext ++ b) bs fns hx (containsKey_append_right ext b id hk)
                  ⟨e', htail, ha⟩ hr

theorem checkBlockStmts_dupPair_fails : ∀ (pre : List Expr) (sc : TScope) (expected : Shape)
    (res : TScope × List Expr) (id : String) (sh : Shape) (loc : Location) (bdy : Expr)
    (rest : List Expr),
    (∃ e, e ∈ rest ∧ isAssignTo id e) →
    (∃ b bs fns, sc.blockStack = (b :: bs) :: fns) →
    checkBlockStmts sc (pre ++ Expr.assignment sh loc id bdy :: rest) expected =
      Except.ok res → False
  | [], sc, expected, res, id, sh, loc, bdy, rest, hmem, hshape, h => by
      obtain ⟨b, bs, fns, hb⟩ := hshape
      cases rest with
      | nil =>
          obtain ⟨e, he, _⟩ := hmem
          exact absurd he (by simp)
      | cons r0 rest' =>
          rw [List.nil_append, checkBlockStmts_cons] at h
          cases hc : check sc (Expr.assignment sh loc id bdy) shapeUnknown with
          | error ce =>
              simp only [hc, exceptBindG_err] at h
              exact absurd h (by simp)
          | ok p =>
              obtain ⟨sc1, e1⟩ := p
              simp only [hc, exceptBindG_ok] at h
              obtain ⟨b', hb', hkb'⟩ := check_assignment_inserts hb hc
              cases hr : checkBlockStmts sc1 (r0 :: rest') expected with
              | error ce =>
                  simp only [hr, exceptBindG_err] at h
                  exact absurd h (by simp)
              | ok q =>
                  exact checkBlockStmts_dup_fails (r0 :: rest') sc1 expected q id
                    b' bs fns hb' hkb' hmem hr
  | p0 :: pre', sc, expected, res, id, sh, loc, bdy, rest, hmem, hshape, h => by
      obtain ⟨b, bs, fns, hb⟩ := hshape
      cases htail : pre' ++ Expr.assignment sh loc id bdy :: rest with
      | nil => exact absurd htail (by simp)
      | cons t0 ts =>
          rw [List.cons_append, htail, checkBlockStmts_cons] at h
          cases hc : check sc p0 shapeUnknown with
          | error ce =>
              simp only [hc, exceptBindG_err] at h
              exact absurd h (by simp)
          | ok p =>
              obtain ⟨sc1, e1⟩ := p
              simp only [hc, exceptBindG_ok] at h
              have x1 := check_extends p0 sc shapeUnknown (sc1, e1) hc
              obtain ⟨ext, hx⟩ := x1.2.1 b bs fns hb
              cases hr : checkBlockStmts sc1 (t0 :: ts) expected with
              | error ce =>
                  simp only [hr, exceptBindG_err] at h
                  exact absurd h (by simp)
              | ok q =>
                  exact checkBlockStmts_dupPair_fails pre' sc1 expected q id sh loc bdy rest
                    hmem ⟨ext ++ b, bs, fns, hx⟩ (by rw [htail]; exact hr)

def zeroF : F64 := (0 : F64)

def c9Loc0 : Location := { src := "main.let", x := 1, y := 1 }

def c9Loc1 : Location := { src := "main.let", x := 3, y := 2 }

def c9Loc2 : Location := { src := "main.let", x := 3, y := 3 }

def c9Loc3 : Location := { src := "main.let", x := 3, y := 4 }

/-- c9DupMain is the spec example fun main(): Float = { let x = 1; let x = 2; x }. -/
def c9DupMain : Expr :=
  Expr.functionDeclaration shapeFloat c9Loc0 "main" []
    (Expr.block shapeUnknown c9Loc0
      [Expr.assignment shapeUnknown c9Loc1 "x" (Expr.numberLiteral shapeFloat c9Loc1 zeroF),
       Expr.assignment shapeUnknown c9Loc2 "x" (Expr.numberLiteral shapeFloat c9Loc2 zeroF),
       Expr.var shapeUnknown c9Loc3 "x"])
    (FunctionContext.new false false)

def c9DupModule : AstModule := { package := "p", name := "main", functions := [c9DupMain] }

/-- c9ShadowMain rebinds x only in an inner (different) block:
fun main(): Float = { let x = 1; { let x = 2; x }; x }. -/
def c9ShadowMain : Expr :=
  Expr.functionDeclaration shapeFloat c9Loc0 "main" []
    (Expr.block shapeUnknown c9Loc0
      [Expr.assignment shapeUnknown c9Loc1 "x" (Expr.numberLiteral shapeFloat c9Loc1 zeroF),
       Expr.block shapeUnknown c9Loc2
         [Expr.assignment shapeUnknown c9Loc2 "x" (Expr.numberLiteral shapeFloat c9Loc2 zeroF),
          Expr.var shapeUnknown c9Loc2 "x"],
       Expr.var shapeUnknown c9Loc3 "x"])
    (FunctionContext.new false false)

def c9ShadowModule : AstModule :=
  { package := "p", name := "main", functions := [c9ShadowMain] }

/-- C9: in any block whose statement list binds the same name twice by
let-bindings (Assignment nodes), type checking the block can never
succeed, whatever the surrounding scope; on the spec's concrete example
fun main(): Float = { let x = 1; let x = 2; x } the module checker
fails with the location-tagged redeclaration error naming the second
binding's location; and rebinding a name that is present only in an
outer (different) block is not an error: the shadowing variant of the
example checks successfully. -/
theorem let_redeclaration_same_block (sc : TScope) (sh : Shape) (loc : Location)
    (stmts : List Expr) (expected : Shape) (res : TScope × Expr)
    (id : String) (pre : List Expr) (sh1 : Shape) (loc1 : Location) (bdy1 : Expr)
    (rest : List Expr)
    (hstmts : stmts = pre ++ Expr.assignment sh1 loc1 id bdy1 :: rest)
    (hdup : ∃ e, e ∈ rest ∧ isAssignTo id e) :
    check sc (Expr.block sh loc stmts) expected ≠ Except.ok res ∧
    checkModule c9DupModule =
      Except.error (CkErr.failure ("Redeclaration of variable: x " ++ c9Loc2.pretty)) ∧
    (∃ m', checkModule c9ShadowModule = Except.ok m') := by
  refine ⟨?_, ?_, ?_⟩
  · intro h
    rw [hstmts] at h
    cases hs0 : pre ++ Expr.assignment sh1 loc1 id bdy1 :: rest with
    | nil => exact absurd hs0 (by simp)
    | cons s0 srest =>
        rw [hs0, check_block_cons] at h
        cases hc : createBlockScope sc with
        | error ce =>
            simp only [hc, exceptBindG_err] at h
            exact absurd h (by simp)
        | ok sc1 =>
            simp only [hc, exceptBindG_ok] at h
            obtain ⟨blocks, fns, hb1, rfl⟩ := createBlockScope_ok hc
            cases hbs : checkBlockStmts { sc with blockStack := ([] :: blocks) :: fns }
                (s0 :: srest) expected with
            | error ce =>
                simp only [hbs, exceptBindG_err] at h
                exact absurd h (by simp)
            | ok q =>
                refine checkBlockStmts_dupPair_fails pre
                  { sc with blockStack := ([] :: blocks) :: fns } expected q id sh1 loc1
                  bdy1 rest hdup ⟨[], blocks, fns, rfl⟩ ?_
                rw [hs0]
                exact hbs
  · simp [checkModule, preFillDecls, checkDecls, check_functionDeclaration, check_var,
      check_call, check_numberLiteral, check_assignment, check_block_nil, check_block_cons,
      checkBlockStmts_nil, checkBlockStmts_single, checkBlockStmts_cons, checkCallArgs_nil,
      checkScope, checkScopeStatic, findInBlocks, findInFnScopes, setScope, setParams,
      preFill, createBlockScope, destroyBlockScope, createFunctionScope,
      destroyFunctionScope, verifyShapes, verifyFunctionDeclaration, verifyParams,
      liftFill, fillShape, lookupA, containsKey, TScope.new, floatOpsList, shapeFloat,
      shapeUnknown, shapeUnit, FunctionContext.new, Expr.shape, List.zip, fillShapeList,
      c9DupModule, c9DupMain, c9Loc0, c9Loc1, c9Loc2, c9Loc3, zeroF,
      exceptBindG_ok, exceptBindG_err, exceptPureG]
  · cases hres : checkModule c9ShadowModule with
    | ok m => exact ⟨m, rfl⟩
    | error ce =>
        exfalso
        revert hres
        simp [checkModule, preFillDecls, checkDecls, check_functionDeclaration, check_var,
          check_call, check_numberLiteral, check_assignment, check_block_nil,
          check_block_cons, checkBlockStmts_nil, checkBlockStmts_single,
          checkBlockStmts_cons, checkCallArgs_nil, checkScope, checkScopeStatic,
          findInBlocks, findInFnScopes, setScope, setParams, preFill, createBlockScope,
          destroyBlockScope, createFunctionScope, destroyFunctionScope, verifyShapes,
          verifyFunctionDeclaration, verifyParams, liftFill, fillShape, lookupA,
          containsKey, TScope.new, floatOpsList, shapeFloat, shapeUnknown, shapeUnit,
          FunctionContext.new, Expr.shape, List.zip, fillShapeList,
          c9ShadowModule, c9ShadowMain, c9Loc0, c9Loc1, c9Loc2, c9Loc3, zeroF,
          exceptBindG_ok, exceptBindG_err, exceptPureG]

/-- C9 witness: the universal part applied to the concrete duplicate-let
statement list of the spec example, inside an empty scope. -/
theorem let_redeclaration_same_block_witness :
    check TScope.new (Expr.block shapeUnknown c9Loc0
        [Expr.assignment shapeUnknown c9Loc1 "x" (Expr.numberLiteral shapeFloat c9Loc1 zeroF),
         Expr.assignment shapeUnknown c9Loc2 "x" (Expr.numberLiteral shapeFloat c9Loc2 zeroF),
         Expr.var shapeUnknown c9Loc3 "x"]) shapeFloat ≠
      Except.ok (TScope.new, Expr.noOp c9Loc0) ∧
    checkModule c9DupModule =
      Except.error (CkErr.failure ("Redeclaration of variable: x " ++ c9Loc2.pretty)) ∧
    (∃ m', checkModule c9ShadowModule = Except.ok m') :=
  let_redeclaration_same_block TScope.new shapeUnknown c9Loc0
    [Expr.assignment shapeUnknown c9Loc1 "x" (Expr.numberLiteral shapeFloat c9Loc1 zeroF),
     Expr.assignment shapeUnknown c9Loc2 "x" (Expr.numberLiteral shapeFloat c9Loc2 zeroF),
     Expr.var shapeUnknown c9Loc3 "x"] shapeFloat (TScope.new, Expr.noOp c9Loc0)
    "x" [] shapeUnknown c9Loc1
    (Expr.numberLiteral shapeFloat c9Loc1 zeroF)
    [Expr.assignment shapeUnknown c9Loc2 "x" (Expr.numberLiteral shapeFloat c9Loc2 zeroF),
     Expr.var shapeUnknown c9Loc3 "x"]
    rfl
    ⟨Expr.assignment shapeUnknown c9Loc2 "x" (Expr.numberLiteral shapeFloat c9Loc2 zeroF),
      by simp, shapeUnknown, c9Loc2, Expr.numberLiteral shapeFloat c9Loc2 zeroF, rfl⟩

def c2Loc : Location := { src := "m.let", x := 1, y := 1 }

/-- c2FunH is the module-level function fun h(): Float = 0. -/
def c2FunH : Expr :=
  Expr.functionDeclaration shapeFloat c2Loc "h" []
    (Expr.numberLiteral shapeFloat c2Loc zeroF) (FunctionContext.new false false)

/-- c2FunF is the module-level function fun f(): Float = h(), whose body
refers to the other module-level function h of the same module. -/
def c2FunF : Expr :=
  Expr.functionDeclaration shapeFloat c2Loc "f" []
    (Expr.call shapeUnknown c2Loc (Expr.var shapeUnknown c2Loc "h") [])
    (FunctionContext.new false false)

def c2Module : AstModule := { package := "p", name := "m", functions := [c2FunH, c2FunF] }

/-- C2 counterexample: the claim says a reference from F's body to
another module-level function of the same module is never recorded in
F.context.closures.  In the checked module fun h(): Float = 0;
fun f(): Float = h(), the reference to h resolves through the enclosing
base function scope (where check_module's loop bound h with set_scope),
so check_scope records h on f's closure list: f comes back with
context.closures = [(h, { -> Float})], not []. -/
theorem module_function_recorded_as_closure_counterexample :
    checkModule c2Module =
      Except.ok { package := "p", name := "m", functions :=
        [Expr.functionDeclaration shapeFloat c2Loc "h" []
          (Expr.numberLiteral shapeFloat c2Loc zeroF)
          { isLocal := false, isLambda := false, isRecursive := false, closures := [] },
         Expr.functionDeclaration shapeFloat c2Loc "f" []
          (Expr.call shapeFloat c2Loc
            (Expr.var (Shape.simpleFunctionShape [] shapeFloat) c2Loc "h") [])
          { isLocal := false, isLambda := false, isRecursive := false,
            closures := [⟨"h", Shape.simpleFunctionShape [] shapeFloat⟩] }] } ∧
    ([⟨"h", Shape.simpleFunctionShape [] shapeFloat⟩] : List Parameter) ≠ [] := by
  constructor
  · simp [checkModule, preFillDecls, checkDecls, check_functionDeclaration, check_var,
      check_call, check_numberLiteral, checkCallArgs_nil, checkScope, checkScopeStatic,
      findInBlocks, findInFnScopes, setScope, setParams, preFill, createBlockScope,
      destroyBlockScope, createFunctionScope, destroyFunctionScope, verifyShapes,
      verifyFunctionDeclaration, verifyParams, liftFill, fillShape, lookupA, containsKey,
      TScope.new, floatOpsList, shapeFloat, shapeUnknown, shapeUnit,
      FunctionContext.new, Expr.shape, List.zip, fillShapeList, c2Module, c2FunH, c2FunF,
      c2Loc, zeroF, exceptBindG_ok, exceptBindG_err, exceptPureG]
  · simp

/-- C2 (amended): what check_scope actually records.  Resolving an
identifier searches the function scopes innermost first; a hit in the
innermost function scope's blocks records nothing; a hit in ANY outer
function scope appends (id, shape) to the innermost closure list,
whether the binding is a local of an enclosing user function or a
module-level function name bound in the base scope by check_module's
loop; a hit in the static scope records nothing; otherwise checking
fails with the undeclared-variable error. -/
theorem checkScope_characterization (sc : TScope) (id : String) (loc : Location)
    (blocks : List (List (String × Shape))) (fns : List (List (List (String × Shape))))
    (h : sc.blockStack = blocks :: fns) :
    (∀ shape, findInBlocks blocks.reverse id = some shape →
        checkScope sc id loc = Except.ok (sc, shape)) ∧
    (findInBlocks blocks.reverse id = none →
      ∀ shape, findInFnScopes fns id = some shape →
        ∀ cl cls, sc.closures = cl :: cls →
          checkScope sc id loc = Except.ok
            ({ sc with closures := (cl ++ [⟨id, shape⟩]) :: cls }, shape)) ∧
    (findInBlocks blocks.reverse id = none → findInFnScopes fns id = none →
      (∀ shape, lookupA sc.staticScope id = some shape →
          checkScope sc id loc = Except.ok (sc, shape)) ∧
      (lookupA sc.staticScope id = none →
        checkScope sc id loc =
          Except.error (CkErr.failure ("Undeclared variable: " ++ id ++ " " ++
            loc.pretty)))) := by
  refine ⟨?_, ?_, ?_⟩
  · intro shape hfb
    simp only [checkScope, h, hfb]
  · intro hfb shape hfn cl cls hcl
    simp only [checkScope, h, hfb, hfn, hcl]
  · intro hfb hfn
    constructor
    · intro shape hst
      simp only [checkScope, h, hfb, hfn, checkScopeStatic, hst]
    · intro hst
      simp only [checkScope, h, hfb, hfn, checkScopeStatic, hst]

/-- c2WitnessScope: innermost function scope binds a, the outer one
binds b, the static scope binds s. -/
def c2WitnessScope : TScope :=
  { staticScope := [("s", shapeUnit)],
    blockStack := [[[("a", shapeFloat)]], [[("b", shapeFloat)]]],
    closures := [[], []] }

/-- C2 witness: the characterization applied to a concrete scope whose
innermost function scope binds a, whose outer function scope binds b,
and whose static scope binds s. -/
theorem checkScope_characterization_witness :
    (∀ shape, findInBlocks ([[("a", shapeFloat)]] : List (List (String × Shape))).reverse
        "a" = some shape →
      checkScope c2WitnessScope "a" c2Loc = Except.ok (c2WitnessScope, shape)) ∧
    (findInBlocks ([[("a", shapeFloat)]] : List (List (String × Shape))).reverse "a" =
        none →
      ∀ shape, findInFnScopes [[[("b", shapeFloat)]]] "a" = some shape →
        ∀ cl cls, c2WitnessScope.closures = cl :: cls →
          checkScope c2WitnessScope "a" c2Loc = Except.ok
            ({ c2WitnessScope with closures := (cl ++ [⟨"a", shape⟩]) :: cls }, shape)) ∧
    (findInBlocks ([[("a", shapeFloat)]] : List (List (String × Shape))).reverse "a" =
        none →
      findInFnScopes [[[("b", shapeFloat)]]] "a" = none →
      (∀ shape, lookupA c2WitnessScope.staticScope "a" = some shape →
          checkScope c2WitnessScope "a" c2Loc = Except.ok (c2WitnessScope, shape)) ∧
      (lookupA c2WitnessScope.staticScope "a" = none →
        checkScope c2WitnessScope "a" c2Loc =
          Except.error (CkErr.failure ("Undeclared variable: " ++ "a" ++ " " ++
            c2Loc.pretty)))) :=
  checkScope_characterization c2WitnessScope "a" c2Loc
    [[("a", shapeFloat)]] [[[("b", shapeFloat)]]] rfl

/-!
Serialization section (C7).  serialize_ir_module and deserialize_ir_module
of src/ir.rs delegate to the external bincode crate, whose code is not in
this repository; the byte format is therefore modelled from the spec.
-/

/-- IrFunction embeds the struct IrFunction of src/ir.rs: func_ref, args,
body and shape. -/
structure IrFunction where
  funcRef : FunctionRef
  args : List Parameter
  body : List Ir
  shape : Shape

/-- IrModule embeds the struct IrModule of src/ir.rs: package, name, and
the functions map (a HashMap from name to IrFunction, modelled as an
association list in its iteration order). -/
structure IrModule where
  package : String
  name : String
  functions : List (String × IrFunction)

/-- Modelled from the spec: a fixed-width little-endian byte encoding of
an unsigned integer ("numeric widths are part of the format and must
match the in-memory data model exactly"); w is the width in bytes. -/
def encNatLE : Nat → Nat → List Nat
  | 0, _ => []
  | w + 1, n => n % 256 :: encNatLE w (n / 256)

/-- Modelled from the spec: decoder for encNatLE; consumes w bytes of the
stream, little-endian. -/
def decNatLE : Nat → List Nat → Option (Nat × List Nat)
  | 0, s => some (0, s)
  | _ + 1, [] => none
  | w + 1, b :: s => (decNatLE w s).map (fun p => (b + 256 * p.1, p.2))

theorem decNatLE_enc : ∀ (w n : Nat) (r : List Nat), n < 256 ^ w →
    decNatLE w (encNatLE w n ++ r) = some (n, r)
  | 0, n, r, h => by
      have hz : n = 0 := by omega
      subst hz
      rfl
  | w + 1, n, r, h => by
      have hlt : n / 256 < 256 ^ w := by
        have hp : 256 ^ (w + 1) = 256 ^ w * 256 := by ring
        omega
      simp [encNatLE, decNatLE, decNatLE_enc w (n / 256) r hlt]
      omega

/-- Modelled from the spec: decode a counted sequence of values, running
the element decoder n times. -/
def decListN (dec : List Nat → Option (α × List Nat)) :
    Nat → List Nat → Option (List α × List Nat)
  | 0, s => some ([], s)
  | n + 1, s =>
      (dec s).bind fun p =>
        (decListN dec n p.2).map fun q => (p.1 :: q.1, q.2)

theorem decListN_enc {α : Type} (dec : List Nat → Option (α × List Nat))
    (enc : α → List Nat) : ∀ (xs : List α) (r : List Nat),
    (∀ x ∈ xs, ∀ r2, dec (enc x ++ r2) = some (x, r2)) →
    decListN dec xs.length ((xs.map enc).join ++ r) = some (xs, r)
  | [], r, hH => by simp [decListN]
  | x :: xs, r, hH => by
      have h1 : dec (enc x ++ ((xs.map enc).join ++ r)) = some (x, (xs.map enc).join ++ r) :=
        hH x (by simp) ((xs.map enc).join ++ r)
      have h2 := decListN_enc dec enc xs r (fun y hy r2 => hH y (by simp [hy]) r2)
      simp [decListN, h1, h2]

/-- Modelled from the spec: a character is stored as its code point in
four bytes. -/
def encChar (c : Char) : List Nat := encNatLE 4 c.toNat

/-- Modelled from the spec: decoder for encChar; fails on an invalid code
point. -/
def decChar (s : List Nat) : Option (Char × List Nat) :=
  (decNatLE 4 s).bind fun p =>
    if p.1.isValidChar then some (Char.ofNat p.1, p.2) else none

theorem decChar_enc (c : Char) (r : List Nat) : decChar (encChar c ++ r) = some (c, r) := by
  have hb : c.toNat < 256 ^ 4 := by
    have hv := c.valid
    rcases hv with h | h
    · have : c.toNat < 55296 := h
      omega
    · have : c.toNat < 1114112 := h.2
      omega
  have hvalid : c.toNat.isValidChar := c.valid
  simp [decChar, encChar, decNatLE_enc 4 c.toNat r hb, hvalid, Char.ofNat_toNat]

/-- Modelled from the spec: a string is stored as its length in eight
bytes followed by its characters in order. -/
def encString (s : String) : List Nat :=
  encNatLE 8 s.length ++ (s.data.map encChar).join

/-- Modelled from the spec: decoder for encString. -/
def decString (st : List Nat) : Option (String × List Nat) :=
  (decNatLE 8 st).bind fun p =>
    (decListN decChar p.1 p.2).map fun q => (String.mk q.1, q.2)

theorem decString_enc (s : String) (r : List Nat) (h : s.length < 2 ^ 64) :
    decString (encString s ++ r) = some (s, r) := by
  obtain ⟨data⟩ := s
  have hlen : (String.mk data).length = data.length := rfl
  have hb : data.length < 256 ^ 8 := by
    rw [hlen] at h
    have : (256 : Nat) ^ 8 = 2 ^ 64 := by norm_num
    omega
  have h1 : decNatLE 8 (encNatLE 8 data.length ++ ((data.map encChar).join ++ r)) =
      some (data.length, (data.map encChar).join ++ r) :=
    decNatLE_enc 8 data.length _ hb
  have h2 := decListN_enc decChar encChar data r (fun c _ r2 => decChar_enc c r2)
  simp [decString, encString, hlen, h1, h2]

/-- Modelled from the spec: the variant index of a BaseShapeKind, in
declaration order (Boolean, Float, String, Unit, List). -/
def baseShapeKindTag : BaseShapeKind → Nat
  | BaseShapeKind.boolean => 0
  | BaseShapeKind.float => 1
  | BaseShapeKind.string => 2
  | BaseShapeKind.unit => 3
  | BaseShapeKind.list => 4

/-- Modelled from the spec: decoder for baseShapeKindTag. -/
def decBaseShapeKind (s : List Nat) : Option (BaseShapeKind × List Nat) :=
  (decNatLE 4 s).bind fun p =>
    match p.1 with
    | 0 => some (BaseShapeKind.boolean, p.2)
    | 1 => some (BaseShapeKind.float, p.2)
    | 2 => some (BaseShapeKind.string, p.2)
    | 3 => some (BaseShapeKind.unit, p.2)
    | 4 => some (BaseShapeKind.list, p.2)
    | _ => none

theorem decBaseShapeKind_enc (k : BaseShapeKind) (r : List Nat) :
    decBaseShapeKind (encNatLE 4 (baseShapeKindTag k) ++ r) = some (k, r) := by
  cases k <;>
    simp [decBaseShapeKind, baseShapeKindTag, decNatLE_enc 4 0 r (by norm_num),
      decNatLE_enc 4 1 r (by norm_num), decNatLE_enc 4 2 r (by norm_num),
      decNatLE_enc 4 3 r (by norm_num), decNatLE_enc 4 4 r (by norm_num)]

mutual

/-- Modelled from the spec: the serialized form of a Shape, field order
as declared: a four-byte variant tag, then the fields; a generic
constructor arity is one byte (u8 in the data model), list lengths are
eight bytes. -/
def encShape : Shape → List Nat
  | Shape.genericShapeConstructor base args =>
      encNatLE 4 0 ++ encShape base ++ encNatLE 1 args
  | Shape.genericShape base args =>
      encNatLE 4 1 ++ encShape base ++ encNatLE 8 args.length ++ encShapeList args
  | Shape.simpleFunctionShape args result =>
      encNatLE 4 2 ++ encNatLE 8 args.length ++ encShapeList args ++ encShape result
  | Shape.baseShape kind => encNatLE 4 3 ++ encNatLE 4 (baseShapeKindTag kind)
  | Shape.namedShape name => encNatLE 4 4 ++ encString name
  | Shape.unknownShape => encNatLE 4 5

/-- encShapeList concatenates the serialized elements in order. -/
def encShapeList : List Shape → List Nat
  | [] => []
  | s :: rest => encShape s ++ encShapeList rest

end

mutual

/-- shapeDepth is the constructor nesting depth of a shape; it bounds the
fuel the shape decoder needs. -/
def shapeDepth : Shape → Nat
  | Shape.genericShapeConstructor base _ => shapeDepth base + 1
  | Shape.genericShape base args => max (shapeDepth base) (shapeDepthList args) + 1
  | Shape.simpleFunctionShape args result =>
      max (shapeDepthList args) (shapeDepth result) + 1
  | Shape.baseShape _ => 1
  | Shape.namedShape _ => 1
  | Shape.unknownShape => 1

/-- shapeDepthList is the maximum depth over a list of shapes. -/
def shapeDepthList : List Shape → Nat
  | [] => 0
  | s :: rest => max (shapeDepth s) (shapeDepthList rest)

end

mutual

/-- wfShape states the in-memory width invariants of the Rust data model
that the Nat-based embedding does not carry: a generic constructor arity
fits u8, every list and string length fits u64. -/
def wfShape : Shape → Bool
  | Shape.genericShapeConstructor base args => wfShape base && decide (args < 256)
  | Shape.genericShape base args =>
      wfShape base && decide (args.length < 2 ^ 64) && wfShapeList args
  | Shape.simpleFunctionShape args result =>
      decide (args.length < 2 ^ 64) && wfShapeList args && wfShape result
  | Shape.baseShape _ => true
  | Shape.namedShape name => decide (name.length < 2 ^ 64)
  | Shape.unknownShape => true

/-- wfShapeList checks wfShape on every element. -/
def wfShapeList : List Shape → Bool
  | [] => true
  | s :: rest => wfShape s && wfShapeList rest

end

/-- Modelled from the spec: decoder for encShape; fuel bounds the
constructor nesting depth. -/
def decShape : Nat → List Nat → Option (Shape × List Nat)
  | 0, _ => none
  | fuel + 1, s =>
      (decNatLE 4 s).bind fun p =>
        match p.1 with
        | 0 =>
            (decShape fuel p.2).bind fun q =>
              (decNatLE 1 q.2).map fun w =>
                (Shape.genericShapeConstructor q.1 w.1, w.2)
        | 1 =>
            (decShape fuel p.2).bind fun q =>
              (decNatLE 8 q.2).bind fun w =>
                (decListN (decShape fuel) w.1 w.2).map fun v =>
                  (Shape.genericShape q.1 v.1, v.2)
        | 2 =>
            (decNatLE 8 p.2).bind fun w =>
              (decListN (decShape fuel) w.1 w.2).bind fun v =>
                (decShape fuel v.2).map fun q =>
                  (Shape.simpleFunctionShape v.1 q.1, q.2)
        | 3 =>
            (decBaseShapeKind p.2).map fun w => (Shape.baseShape w.1, w.2)
        | 4 =>
            (decString p.2).map fun w => (Shape.namedShape w.1, w.2)
        | 5 => some (Shape.unknownShape, p.2)
        | _ => none

theorem shapeDepth_pos (s : Shape) : 0 < shapeDepth s := by
  cases s <;> simp [shapeDepth]

mutual

theorem decShape_enc : ∀ (s : Shape) (fuel : Nat) (r : List Nat),
    wfShape s = true → shapeDepth s ≤ fuel →
    decShape fuel (encShape s ++ r) = some (s, r)
  | Shape.genericShapeConstructor base args, fuel, r, hwf, hd => by
      simp only [wfShape, Bool.and_eq_true, decide_eq_true_eq] at hwf
      simp only [shapeDepth] at hd
      cases fuel with
      | zero => omega
      | succ fuel =>
          have h1 : decNatLE 4 (encNatLE 4 0 ++
              (encShape base ++ (encNatLE 1 args ++ r))) =
              some (0, encShape base ++ (encNatLE 1 args ++ r)) :=
            decNatLE_enc 4 0 _ (by norm_num)
          have h2 := decShape_enc base fuel (encNatLE 1 args ++ r) hwf.1 (by omega)
          have h3 : decNatLE 1 (encNatLE 1 args ++ r) = some (args, r) :=
            decNatLE_enc 1 args r (by simpa using hwf.2)
          simp [decShape, encShape, h1, h2, h3]
  | Shape.genericShape base args, fuel, r, hwf, hd => by
      simp only [wfShape, Bool.and_eq_true, decide_eq_true_eq] at hwf
      simp only [shapeDepth] at hd
      cases fuel with
      | zero => omega
      | succ fuel =>
          have h1 : decNatLE 4 (encNatLE 4 1 ++ (encShape base ++
              (encNatLE 8 args.length ++ (encShapeList args ++ r)))) =
              some (1, encShape base ++ (encNatLE 8 args.length ++
                (encShapeList args ++ r))) :=
            decNatLE_enc 4 1 _ (by norm_num)
          have h2 := decShape_enc base fuel (encNatLE 8 args.length ++
            (encShapeList args ++ r)) hwf.1.1 (by omega)
          have h3 : decNatLE 8 (encNatLE 8 args.length ++ (encShapeList args ++ r)) =
              some (args.length, encShapeList args ++ r) :=
            decNatLE_enc 8 args.length _ (by
              have hx := hwf.1.2
              have : (256 : Nat) ^ 8 = 2 ^ 64 := by norm_num
              omega)
          have h4 := decShapeList_enc args fuel r hwf.2 (by omega)
          simp [decShape, encShape, h1, h2, h3, h4]
  | Shape.simpleFunctionShape args result, fuel, r, hwf, hd => by
      simp only [wfShape, Bool.and_eq_true, decide_eq_true_eq] at hwf
      simp only [shapeDepth] at hd
      cases fuel with
      | zero => omega
      | succ fuel =>
          have h1 : decNatLE 4 (encNatLE 4 2 ++ (encNatLE 8 args.length ++
              (encShapeList args ++ (encShape result ++ r)))) =
              some (2, encNatLE 8 args.length ++
                (encShapeList args ++ (encShape result ++ r))) :=
            decNatLE_enc 4 2 _ (by norm_num)
          have h3 : decNatLE 8 (encNatLE 8 args.length ++
              (encShapeList args ++ (encShape result ++ r))) =
              some (args.length, encShapeList args ++ (encShape result ++ r)) :=
            decNatLE_enc 8 args.length _ (by
              have hx := hwf.1.1
              have : (256 : Nat) ^ 8 = 2 ^ 64 := by norm_num
              omega)
          have h4 := decShapeList_enc args fuel (encShape result ++ r) hwf.1.2 (by omega)
          have h2 := decShape_enc result fuel r hwf.2 (by omega)
          simp [decShape, encShape, h1, h2, h3, h4]
  | Shape.baseShape kind, fuel, r, hwf, hd => by
      simp only [shapeDepth] at hd
      cases fuel with
      | zero => omega
      | succ fuel =>
          have h1 : decNatLE 4 (encNatLE 4 3 ++ (encNatLE 4 (baseShapeKindTag kind) ++ r)) =
              some (3, encNatLE 4 (baseShapeKindTag kind) ++ r) :=
            decNatLE_enc 4 3 _ (by norm_num)
          simp [decShape, encShape, h1, decBaseShapeKind_enc kind r]
  | Shape.namedShape name, fuel, r, hwf, hd => by
      simp only [wfShape, decide_eq_true_eq] at hwf
      simp only [shapeDepth] at hd
      cases fuel with
      | zero => omega
      | succ fuel =>
          have h1 : decNatLE 4 (encNatLE 4 4 ++ (encString name ++ r)) =
              some (4, encString name ++ r) :=
            decNatLE_enc 4 4 _ (by norm_num)
          simp [decShape, encShape, h1, decString_enc name r hwf]
  | Shape.unknownShape, fuel, r, hwf, hd => by
      simp only [shapeDepth] at hd
      cases fuel with
      | zero => omega
      | succ fuel =>
          have h1 : decNatLE 4 (encNatLE 4 5 ++ r) = some (5, r) :=
            decNatLE_enc 4 5 _ (by norm_num)
          simp [decShape, encShape, h1]

theorem decShapeList_enc : ∀ (L : List Shape) (fuel : Nat) (r : List Nat),
    wfShapeList L = true → shapeDepthList L ≤ fuel →
    decListN (decShape fuel) L.length (encShapeList L ++ r) = some (L, r)
  | [], fuel, r, hwf, hd => by simp [decListN, encShapeList]
  | s :: rest, fuel, r, hwf, hd => by
      simp only [wfShapeList, Bool.and_eq_true] at hwf
      simp only [shapeDepthList] at hd
      have h1 := decShape_enc s fuel (encShapeList rest ++ r) hwf.1 (by omega)
      have h2 := decShapeList_enc rest fuel r hwf.2 (by omega)
      simp [decListN, encShapeList, h1, h2]

end

/-- Modelled from the spec: a FunctionRef is stored field by field in
declaration order: package, module, name, shape. -/
def encFunctionRef (f : FunctionRef) : List Nat :=
  encString f.package ++ encString f.module ++ encString f.name ++ encShape f.shape

/-- Modelled from the spec: decoder for encFunctionRef. -/
def decFunctionRef (fuel : Nat) (s : List Nat) : Option (FunctionRef × List Nat) :=
  (decString s).bind fun a =>
    (decString a.2).bind fun b =>
      (decString b.2).bind fun c =>
        (decShape fuel c.2).map fun d =>
          ({ package := a.1, module := b.1, name := c.1, shape := d.1 }, d.2)

/-- wfFunctionRef: width invariants of a FunctionRef. -/
def wfFunctionRef (f : FunctionRef) : Bool :=
  decide (f.package.length < 2 ^ 64) && decide (f.module.length < 2 ^ 64) &&
    decide (f.name.length < 2 ^ 64) && wfShape f.shape

theorem decFunctionRef_enc (f : FunctionRef) (fuel : Nat) (r : List Nat)
    (hwf : wfFunctionRef f = true) (hd : shapeDepth f.shape ≤ fuel) :
    decFunctionRef fuel (encFunctionRef f ++ r) = some (f, r) := by
  obtain ⟨fp, fm, fn, fs⟩ := f
  simp only [wfFunctionRef, Bool.and_eq_true, decide_eq_true_eq] at hwf
  have h1 := decString_enc fp (encString fm ++ (encString fn ++ (encShape fs ++ r)))
    hwf.1.1.1
  have h2 := decString_enc fm (encString fn ++ (encShape fs ++ r)) hwf.1.1.2
  have h3 := decString_enc fn (encShape fs ++ r) hwf.1.2
  have h4 := decShape_enc fs fuel r hwf.2 hd
  simp [decFunctionRef, encFunctionRef, h1, h2, h3, h4]

/-- Modelled from the spec: a Parameter is stored as its id then its
shape. -/
def encParameter (p : Parameter) : List Nat :=
  encString p.id ++ encShape p.shape

/-- Modelled from the spec: decoder for encParameter. -/
def decParameter (fuel : Nat) (s : List Nat) : Option (Parameter × List Nat) :=
  (decString s).bind fun a =>
    (decShape fuel a.2).map fun b => ({ id := a.1, shape := b.1 }, b.2)

/-- wfParameter: width invariants of a Parameter. -/
def wfParameter (p : Parameter) : Bool :=
  decide (p.id.length < 2 ^ 64) && wfShape p.shape

theorem decParameter_enc (p : Parameter) (fuel : Nat) (r : List Nat)
    (hwf : wfParameter p = true) (hd : shapeDepth p.shape ≤ fuel) :
    decParameter fuel (encParameter p ++ r) = some (p, r) := by
  obtain ⟨pid, psh⟩ := p
  simp only [wfParameter, Bool.and_eq_true, decide_eq_true_eq] at hwf
  have h1 := decString_enc pid (encShape psh ++ r) hwf.1
  have h2 := decShape_enc psh fuel r hwf.2 hd
  simp [decParameter, encParameter, h1, h2]

/-- Modelled from the spec: a float is stored as its eight-byte bit
pattern. -/
def encF64 (v : F64) : List Nat := encNatLE 8 v.val

/-- Modelled from the spec: decoder for encF64. -/
def decF64 (s : List Nat) : Option (F64 × List Nat) :=
  (decNatLE 8 s).bind fun p =>
    if h : p.1 < 2 ^ 64 then some ((⟨p.1, h⟩ : F64), p.2) else none

theorem decF64_enc (v : F64) (r : List Nat) : decF64 (encF64 v ++ r) = some (v, r) := by
  have hb : v.val < 256 ^ 8 := by
    have hx := v.isLt
    have hy : (256 : Nat) ^ 8 = 2 ^ 64 := by norm_num
    omega
  have h1 := decNatLE_enc 8 v.val r hb
  have hlt : v.val < 2 ^ 64 := v.isLt
  simp [decF64, encF64, h1, hlt]

mutual

/-- Modelled from the spec: the serialized form of an Ir instruction:
four-byte variant tag in declaration order, then its fields; local
counts are two bytes (u16 LocalId), list lengths eight bytes. -/
def encIr : Ir → List Nat
  | Ir.noOp => encNatLE 4 0
  | Ir.duplicate => encNatLE 4 1
  | Ir.pop => encNatLE 4 2
  | Ir.swap => encNatLE 4 3
  | Ir.loadConstNull => encNatLE 4 4
  | Ir.loadConstTrue => encNatLE 4 5
  | Ir.loadConstFalse => encNatLE 4 6
  | Ir.loadConstString v => encNatLE 4 7 ++ encString v
  | Ir.loadConstFunction f => encNatLE 4 8 ++ encFunctionRef f
  | Ir.loadConstFloat v => encNatLE 4 9 ++ encF64 v
  | Ir.loadValue n => encNatLE 4 10 ++ encString n
  | Ir.storeValue n => encNatLE 4 11 ++ encString n
  | Ir.callStatic f => encNatLE 4 12 ++ encFunctionRef f
  | Ir.callDynamic n => encNatLE 4 13 ++ encNatLE 2 n
  | Ir.buildClosure n f => encNatLE 4 14 ++ encNatLE 2 n ++ encFunctionRef f
  | Ir.buildRecursiveFunction => encNatLE 4 15
  | Ir.ret => encNatLE 4 16
  | Ir.branch t e =>
      encNatLE 4 17 ++ encNatLE 8 t.length ++ encIrList t ++
        encNatLE 8 e.length ++ encIrList e
  | Ir.debug => encNatLE 4 18
  | Ir.errorIr => encNatLE 4 19
  | Ir.freeLocal n => encNatLE 4 20 ++ encString n

/-- encIrList concatenates the serialized instructions in order. -/
def encIrList : List Ir → List Nat
  | [] => []
  | i :: rest => encIr i ++ encIrList rest

end

mutual

/-- irDepth bounds the decoder fuel an instruction needs: branch nesting
plus the depth of any embedded shape. -/
def irDepth : Ir → Nat
  | Ir.loadConstFunction f => shapeDepth f.shape + 1
  | Ir.callStatic f => shapeDepth f.shape + 1
  | Ir.buildClosure _ f => shapeDepth f.shape + 1
  | Ir.branch t e => max (irDepthList t) (irDepthList e) + 1
  | _ => 1

/-- irDepthList is the maximum irDepth over a list. -/
def irDepthList : List Ir → Nat
  | [] => 0
  | i :: rest => max (irDepth i) (irDepthList rest)

end

mutual

/-- wfIr: width invariants of an instruction. -/
def wfIr : Ir → Bool
  | Ir.loadConstString v => decide (v.length < 2 ^ 64)
  | Ir.loadConstFunction f => wfFunctionRef f
  | Ir.loadValue n => decide (n.length < 2 ^ 64)
  | Ir.storeValue n => decide (n.length < 2 ^ 64)
  | Ir.callStatic f => wfFunctionRef f
  | Ir.callDynamic n => decide (n < 2 ^ 16)
  | Ir.buildClosure n f => decide (n < 2 ^ 16) && wfFunctionRef f
  | Ir.branch t e =>
      decide (t.length < 2 ^ 64) && wfIrList t &&
        decide (e.length < 2 ^ 64) && wfIrList e
  | Ir.freeLocal n => decide (n.length < 2 ^ 64)
  | _ => true

/-- wfIrList checks wfIr on every element. -/
def wfIrList : List Ir → Bool
  | [] => true
  | i :: rest => wfIr i && wfIrList rest

end

/-- Modelled from the spec: decoder for encIr; fuel bounds branch and
shape nesting. -/
def decIr : Nat → List Nat → Option (Ir × List Nat)
  | 0, _ => none
  | fuel + 1, s =>
      (decNatLE 4 s).bind fun p =>
        match p.1 with
        | 0 => some (Ir.noOp, p.2)
        | 1 => some (Ir.duplicate, p.2)
        | 2 => some (Ir.pop, p.2)
        | 3 => some (Ir.swap, p.2)
        | 4 => some (Ir.loadConstNull, p.2)
        | 5 => some (Ir.loadConstTrue, p.2)
        | 6 => some (Ir.loadConstFalse, p.2)
        | 7 => (decString p.2).map fun a => (Ir.loadConstString a.1, a.2)
        | 8 => (decFunctionRef fuel p.2).map fun a => (Ir.loadConstFunction a.1, a.2)
        | 9 => (decF64 p.2).map fun a => (Ir.loadConstFloat a.1, a.2)
        | 10 => (decString p.2).map fun a => (Ir.loadValue a.1, a.2)
        | 11 => (decString p.2).map fun a => (Ir.storeValue a.1, a.2)
        | 12 => (decFunctionRef fuel p.2).map fun a => (Ir.callStatic a.1, a.2)
        | 13 => (decNatLE 2 p.2).map fun a => (Ir.callDynamic a.1, a.2)
        | 14 =>
            (decNatLE 2 p.2).bind fun a =>
              (decFunctionRef fuel a.2).map fun b => (Ir.buildClosure a.1 b.1, b.2)
        | 15 => some (Ir.buildRecursiveFunction, p.2)
        | 16 => some (Ir.ret, p.2)
        | 17 =>
            (decNatLE 8 p.2).bind fun a =>
              (decListN (decIr fuel) a.1 a.2).bind fun t =>
                (decNatLE 8 t.2).bind fun b =>
                  (decListN (decIr fuel) b.1 b.2).map fun e =>
                    (Ir.branch t.1 e.1, e.2)
        | 18 => some (Ir.debug, p.2)
        | 19 => some (Ir.errorIr, p.2)
        | 20 => (decString p.2).map fun a => (Ir.freeLocal a.1, a.2)
        | _ => none

theorem irDepth_pos (i : Ir) : 0 < irDepth i := by
  cases i <;> simp [irDepth]

mutual

theorem decIr_enc : ∀ (i : Ir) (fuel : Nat) (r : List Nat),
    wfIr i = true → irDepth i ≤ fuel →
    decIr fuel (encIr i ++ r) = some (i, r)
  | Ir.noOp, fuel, r, hwf, hd => by
      simp only [irDepth] at hd
      cases fuel with
      | zero => omega
      | succ fuel => simp [decIr, encIr, decNatLE_enc 4 0 r (by norm_num)]
  | Ir.duplicate, fuel, r, hwf, hd => by
      simp only [irDepth] at hd
      cases fuel with
      | zero => omega
      | succ fuel => simp [decIr, encIr, decNatLE_enc 4 1 r (by norm_num)]
  | Ir.pop, fuel, r, hwf, hd => by
      simp only [irDepth] at hd
      cases fuel with
      | zero => omega
      | succ fuel => simp [decIr, encIr, decNatLE_enc 4 2 r (by norm_num)]
  | Ir.swap, fuel, r, hwf, hd => by
      simp only [irDepth] at hd
      cases fuel with
      | zero => omega
      | succ fuel => simp [decIr, encIr, decNatLE_enc 4 3 r (by norm_num)]
  | Ir.loadConstNull, fuel, r, hwf, hd => by
      simp only [irDepth] at hd
      cases fuel with
      | zero => omega
      | succ fuel => simp [decIr, encIr, decNatLE_enc 4 4 r (by norm_num)]
  | Ir.loadConstTrue, fuel, r, hwf, hd => by
      simp only [irDepth] at hd
      cases fuel with
      | zero => omega
      | succ fuel => simp [decIr, encIr, decNatLE_enc 4 5 r (by norm_num)]
  | Ir.loadConstFalse, fuel, r, hwf, hd => by
      simp only [irDepth] at hd
      cases fuel with
      | zero => omega
      | succ fuel => simp [decIr, encIr, decNatLE_enc 4 6 r (by norm_num)]
  | Ir.loadConstString v, fuel, r, hwf, hd => by
      simp only [irDepth] at hd
      simp only [wfIr, decide_eq_true_eq] at hwf
      cases fuel with
      | zero => omega
      | succ fuel =>
          simp [decIr, encIr, decNatLE_enc 4 7 (encString v ++ r) (by norm_num),
            decString_enc v r hwf]
  | Ir.loadConstFunction f, fuel, r, hwf, hd => by
      simp only [irDepth] at hd
      simp only [wfIr] at hwf
      cases fuel with
      | zero => omega
      | succ fuel =>
          simp [decIr, encIr, decNatLE_enc 4 8 (encFunctionRef f ++ r) (by norm_num),
            decFunctionRef_enc f fuel r hwf (by omega)]
  | Ir.loadConstFloat v, fuel, r, hwf, hd => by
      simp only [irDepth] at hd
      cases fuel with
      | zero => omega
      | succ fuel =>
          simp [decIr, encIr, decNatLE_enc 4 9 (encF64 v ++ r) (by norm_num),
            decF64_enc v r]
  | Ir.loadValue n, fuel, r, hwf, hd => by
      simp only [irDepth] at hd
      simp only [wfIr, decide_eq_true_eq] at hwf
      cases fuel with
      | zero => omega
      | succ fuel =>
          simp [decIr, encIr, decNatLE_enc 4 10 (encString n ++ r) (by norm_num),
            decString_enc n r hwf]
  | Ir.storeValue n, fuel, r, hwf, hd => by
      simp only [irDepth] at hd
      simp only [wfIr, decide_eq_true_eq] at hwf
      cases fuel with
      | zero => omega
      | succ fuel =>
          simp [decIr, encIr, decNatLE_enc 4 11 (encString n ++ r) (by norm_num),
            decString_enc n r hwf]
  | Ir.callStatic f, fuel, r, hwf, hd => by
      simp only [irDepth] at hd
      simp only [wfIr] at hwf
      cases fuel with
      | zero => omega
      | succ fuel =>
          simp [decIr, encIr, decNatLE_enc 4 12 (encFunctionRef f ++ r) (by norm_num),
            decFunctionRef_enc f fuel r hwf (by omega)]
  | Ir.callDynamic n, fuel, r, hwf, hd => by
      simp only [irDepth] at hd
      simp only [wfIr, decide_eq_true_eq] at hwf
      cases fuel with
      | zero => omega
      | succ fuel =>
          simp [decIr, encIr, decNatLE_enc 4 13 (encNatLE 2 n ++ r) (by norm_num),
            decNatLE_enc 2 n r (by
              have hx : (256 : Nat) ^ 2 = 2 ^ 16 := by norm_num
              omega)]
  | Ir.buildClosure n f, fuel, r, hwf, hd => by
      simp only [irDepth] at hd
      simp only [wfIr, Bool.and_eq_true, decide_eq_true_eq] at hwf
      cases fuel with
      | zero => omega
      | succ fuel =>
          simp [decIr, encIr,
            decNatLE_enc 4 14 (encNatLE 2 n ++ (encFunctionRef f ++ r)) (by norm_num),
            decNatLE_enc 2 n (encFunctionRef f ++ r) (by
              have hx : (256 : Nat) ^ 2 = 2 ^ 16 := by norm_num
              have hy := hwf.1
              omega),
            decFunctionRef_enc f fuel r hwf.2 (by omega)]
  | Ir.buildRecursiveFunction, fuel, r, hwf, hd => by
      simp only [irDepth] at hd
      cases fuel with
      | zero => omega
      | succ fuel => simp [decIr, encIr, decNatLE_enc 4 15 r (by norm_num)]
  | Ir.ret, fuel, r, hwf, hd => by
      simp only [irDepth] at hd
      cases fuel with
      | zero => omega
      | succ fuel => simp [decIr, encIr, decNatLE_enc 4 16 r (by norm_num)]
  | Ir.branch t e, fuel, r, hwf, hd => by
      simp only [irDepth] at hd
      simp only [wfIr, Bool.and_eq_true, decide_eq_true_eq] at hwf
      cases fuel with
      | zero => omega
      | succ fuel =>
          have h256 : (256 : Nat) ^ 8 = 2 ^ 64 := by norm_num
          have h1 := decNatLE_enc 4 17 (encNatLE 8 t.length ++ (encIrList t ++
            (encNatLE 8 e.length ++ (encIrList e ++ r)))) (by norm_num)
          have h2 := decNatLE_enc 8 t.length (encIrList t ++
            (encNatLE 8 e.length ++ (encIrList e ++ r))) (by
              have hx := hwf.1.1.1
              omega)
          have h3 := decIrList_enc t fuel (encNatLE 8 e.length ++ (encIrList e ++ r))
            hwf.1.1.2 (by omega)
          have h4 := decNatLE_enc 8 e.length (encIrList e ++ r) (by
            have hx := hwf.1.2
            omega)
          have h5 := decIrList_enc e fuel r hwf.2 (by omega)
          simp [decIr, encIr, h1, h2, h3, h4, h5]
  | Ir.debug, fuel, r, hwf, hd => by
      simp only [irDepth] at hd
      cases fuel with
      | zero => omega
      | succ fuel => simp [decIr, encIr, decNatLE_enc 4 18 r (by norm_num)]
  | Ir.errorIr, fuel, r, hwf, hd => by
      simp only [irDepth] at hd
      cases fuel with
      | zero => omega
      | succ fuel => simp [decIr, encIr, decNatLE_enc 4 19 r (by norm_num)]
  | Ir.freeLocal n, fuel, r, hwf, hd => by
      simp only [irDepth] at hd
      simp only [wfIr, decide_eq_true_eq] at hwf
      cases fuel with
      | zero => omega
      | succ fuel =>
          simp [decIr, encIr, decNatLE_enc 4 20 (encString n ++ r) (by norm_num),
            decString_enc n r hwf]

theorem decIrList_enc : ∀ (L : List Ir) (fuel : Nat) (r : List Nat),
    wfIrList L = true → irDepthList L ≤ fuel →
    decListN (decIr fuel) L.length (encIrList L ++ r) = some (L, r)
  | [], fuel, r, hwf, hd => by simp [decListN, encIrList]
  | i :: rest, fuel, r, hwf, hd => by
      simp only [wfIrList, Bool.and_eq_true] at hwf
      simp only [irDepthList] at hd
      have h1 := decIr_enc i fuel (encIrList rest ++ r) hwf.1 (by omega)
      have h2 := decIrList_enc rest fuel r hwf.2 (by omega)
      simp [decListN, encIrList, h1, h2]

end

/-- encParams concatenates serialized parameters in order. -/
def encParams : List Parameter → List Nat
  | [] => []
  | p :: rest => encParameter p ++ encParams rest

/-- paramsDepth is the maximum embedded shape depth over parameters. -/
def paramsDepth : List Parameter → Nat
  | [] => 0
  | p :: rest => max (shapeDepth p.shape) (paramsDepth rest)

/-- wfParams checks wfParameter on every element. -/
def wfParams : List Parameter → Bool
  | [] => true
  | p :: rest => wfParameter p && wfParams rest

theorem decParams_enc : ∀ (args : List Parameter) (fuel : Nat) (r : List Nat),
    wfParams args = true → paramsDepth args ≤ fuel →
    decListN (decParameter fuel) args.length (encParams args ++ r) = some (args, r)
  | [], fuel, r, hwf, hd => by simp [decListN, encParams]
  | p :: rest, fuel, r, hwf, hd => by
      simp only [wfParams, Bool.and_eq_true] at hwf
      simp only [paramsDepth] at hd
      have h1 := decParameter_enc p fuel (encParams rest ++ r) hwf.1 (by omega)
      have h2 := decParams_enc rest fuel r hwf.2 (by omega)
      simp [decListN, encParams, h1, h2]

/-- Modelled from the spec: the serialized form of an IrFunction, field
order as declared: func_ref, args, body, shape; both vectors carry an
eight-byte length. -/
def encIrFunction (fn : IrFunction) : List Nat :=
  encFunctionRef fn.funcRef ++ encNatLE 8 fn.args.length ++ encParams fn.args ++
    encNatLE 8 fn.body.length ++ encIrList fn.body ++ encShape fn.shape

/-- Modelled from the spec: decoder for encIrFunction. -/
def decIrFunction (fuel : Nat) (s : List Nat) : Option (IrFunction × List Nat) :=
  (decFunctionRef fuel s).bind fun a =>
    (decNatLE 8 a.2).bind fun na =>
      (decListN (decParameter fuel) na.1 na.2).bind fun b =>
        (decNatLE 8 b.2).bind fun nb =>
          (decListN (decIr fuel) nb.1 nb.2).bind fun c =>
            (decShape fuel c.2).map fun d =>
              ({ funcRef := a.1, args := b.1, body := c.1, shape := d.1 }, d.2)

/-- irFunctionDepth bounds the decoder fuel an IrFunction needs. -/
def irFunctionDepth (fn : IrFunction) : Nat :=
  max (max (shapeDepth fn.funcRef.shape) (paramsDepth fn.args))
    (max (irDepthList fn.body) (shapeDepth fn.shape))

/-- wfIrFunction: width invariants of an IrFunction. -/
def wfIrFunction (fn : IrFunction) : Bool :=
  wfFunctionRef fn.funcRef && decide (fn.args.length < 2 ^ 64) && wfParams fn.args &&
    decide (fn.body.length < 2 ^ 64) && wfIrList fn.body && wfShape fn.shape

theorem decIrFunction_enc (fn : IrFunction) (fuel : Nat) (r : List Nat)
    (hwf : wfIrFunction fn = true) (hd : irFunctionDepth fn ≤ fuel) :
    decIrFunction fuel (encIrFunction fn ++ r) = some (fn, r) := by
  obtain ⟨fref, fargs, fbody, fshape⟩ := fn
  simp only [wfIrFunction, Bool.and_eq_true, decide_eq_true_eq] at hwf
  simp only [irFunctionDepth] at hd
  have h256 : (256 : Nat) ^ 8 = 2 ^ 64 := by norm_num
  have h1 := decFunctionRef_enc fref fuel (encNatLE 8 fargs.length ++ (encParams fargs ++
    (encNatLE 8 fbody.length ++ (encIrList fbody ++ (encShape fshape ++ r)))))
    hwf.1.1.1.1.1 (by simp at hd; omega)
  have h2 := decNatLE_enc 8 fargs.length (encParams fargs ++
    (encNatLE 8 fbody.length ++ (encIrList fbody ++ (encShape fshape ++ r)))) (by
      have hx := hwf.1.1.1.1.2
      omega)
  have h3 := decParams_enc fargs fuel (encNatLE 8 fbody.length ++
    (encIrList fbody ++ (encShape fshape ++ r))) hwf.1.1.1.2 (by simp at hd; omega)
  have h4 := decNatLE_enc 8 fbody.length (encIrList fbody ++ (encShape fshape ++ r)) (by
    have hx := hwf.1.1.2
    omega)
  have h5 := decIrList_enc fbody fuel (encShape fshape ++ r) hwf.1.2
    (by simp at hd; omega)
  have h6 := decShape_enc fshape fuel r hwf.2 (by simp at hd; omega)
  simp [decIrFunction, encIrFunction, h1, h2, h3, h4, h5, h6]

/-- Modelled from the spec: a functions-map entry is its key string then
the function. -/
def encEntry (e : String × IrFunction) : List Nat :=
  encString e.1 ++ encIrFunction e.2

/-- Modelled from the spec: decoder for encEntry. -/
def decEntry (fuel : Nat) (s : List Nat) : Option ((String × IrFunction) × List Nat) :=
  (decString s).bind fun a =>
    (decIrFunction fuel a.2).map fun b => ((a.1, b.1), b.2)

/-- encEntries concatenates serialized entries in iteration order. -/
def encEntries : List (String × IrFunction) → List Nat
  | [] => []
  | e :: rest => encEntry e ++ encEntries rest

/-- entriesDepth is the maximum function depth over entries. -/
def entriesDepth : List (String × IrFunction) → Nat
  | [] => 0
  | e :: rest => max (irFunctionDepth e.2) (entriesDepth rest)

/-- wfEntries: key length and function invariants for every entry. -/
def wfEntries : List (String × IrFunction) → Bool
  | [] => true
  | e :: rest => decide (e.1.length < 2 ^ 64) && wfIrFunction e.2 && wfEntries rest

theorem decEntry_enc (e : String × IrFunction) (fuel : Nat) (r : List Nat)
    (hk : e.1.length < 2 ^ 64) (hwf : wfIrFunction e.2 = true)
    (hd : irFunctionDepth e.2 ≤ fuel) :
    decEntry fuel (encEntry e ++ r) = some (e, r) := by
  obtain ⟨key, fn⟩ := e
  have h1 := decString_enc key (encIrFunction fn ++ r) hk
  have h2 := decIrFunction_enc fn fuel r hwf hd
  simp [decEntry, encEntry, h1, h2]

theorem decEntries_enc : ∀ (es : List (String × IrFunction)) (fuel : Nat) (r : List Nat),
    wfEntries es = true → entriesDepth es ≤ fuel →
    decListN (decEntry fuel) es.length (encEntries es ++ r) = some (es, r)
  | [], fuel, r, hwf, hd => by simp [decListN, encEntries]
  | e :: rest, fuel, r, hwf, hd => by
      simp only [wfEntries, Bool.and_eq_true, decide_eq_true_eq] at hwf
      simp only [entriesDepth] at hd
      have h1 := decEntry_enc e fuel (encEntries rest ++ r) hwf.1.1 hwf.1.2 (by omega)
      have h2 := decEntries_enc rest fuel r hwf.2 (by omega)
      simp [decListN, encEntries, h1, h2]

/-- Modelled from the spec: the serialized form of an IrModule, field
order as declared: package, name, then the functions map as an
eight-byte entry count followed by the entries in iteration order. -/
def encIrModule (m : IrModule) : List Nat :=
  encString m.package ++ encString m.name ++
    encNatLE 8 m.functions.length ++ encEntries m.functions

/-- Modelled from the spec: decoder for encIrModule. -/
def decIrModule (fuel : Nat) (s : List Nat) : Option (IrModule × List Nat) :=
  (decString s).bind fun a =>
    (decString a.2).bind fun b =>
      (decNatLE 8 b.2).bind fun n =>
        (decListN (decEntry fuel) n.1 n.2).map fun c =>
          ({ package := a.1, name := b.1, functions := c.1 }, c.2)

/-- irModuleFuel is a decoder fuel sufficient for the whole module. -/
def irModuleFuel (m : IrModule) : Nat := entriesDepth m.functions + 1

/-- wfIrModule: width invariants of an IrModule, exactly the bounds the
Rust types carry intrinsically (u8 generic arities, u16 local counts,
u64/usize lengths). -/
def wfIrModule (m : IrModule) : Bool :=
  decide (m.package.length < 2 ^ 64) && decide (m.name.length < 2 ^ 64) &&
    decide (m.functions.length < 2 ^ 64) && wfEntries m.functions

/-- C7: serializing an IR module and reading the bytes back yields a
structurally identical module (same package, name, and per-function
func_ref, args, body and shape), with the whole stream consumed; the
byte format is modelled from the spec because serialize_ir_module and
deserialize_ir_module delegate to the external bincode crate.  The
hypothesis states the width invariants that the Rust integer types
enforce by construction. -/
theorem serialize_roundtrip_identity (m : IrModule) (hwf : wfIrModule m = true) :
    decIrModule (irModuleFuel m) (encIrModule m) = some (m, []) := by
  obtain ⟨mp, mn, mf⟩ := m
  simp only [wfIrModule, Bool.and_eq_true, decide_eq_true_eq] at hwf
  have h256 : (256 : Nat) ^ 8 = 2 ^ 64 := by norm_num
  have h1 := decString_enc mp (encString mn ++
    (encNatLE 8 mf.length ++ (encEntries mf ++ []))) hwf.1.1.1
  have h2 := decString_enc mn (encNatLE 8 mf.length ++ (encEntries mf ++ []))
    hwf.1.1.2
  have h3 := decNatLE_enc 8 mf.length (encEntries mf ++ []) (by
    have hx := hwf.1.2
    omega)
  have h4 := decEntries_enc mf (irModuleFuel (IrModule.mk mp mn mf)) [] hwf.2
    (by exact Nat.le_succ _)
  simp only [List.append_nil] at h1 h2 h3 h4
  simp [decIrModule, encIrModule, h1, h2, h3, h4]

/-- c7Witness: a concrete one-function module exercising every field
kind: parameters, a branch body, floats, strings and function refs. -/
def c7Witness : IrModule :=
  IrModule.mk "p" "m"
    [("f", IrFunction.mk
      (FunctionRef.mk "p" "m" "f" (Shape.simpleFunctionShape [shapeFloat] shapeFloat))
      [Parameter.mk "x" shapeFloat]
      [Ir.loadValue "x",
        Ir.branch [Ir.loadConstFloat zeroF] [Ir.loadConstNull],
        Ir.ret]
      (Shape.simpleFunctionShape [shapeFloat] shapeFloat))]

/-- C7 witness: the round trip applied to the concrete module. -/
theorem serialize_roundtrip_identity_witness :
    wfIrModule c7Witness = true ∧
    decIrModule (irModuleFuel c7Witness) (encIrModule c7Witness) =
      some (c7Witness, []) :=
  ⟨by decide, serialize_roundtrip_identity c7Witness (by decide)⟩

end LetLang
